import Mathlib

/-!
CPG explorer: bounded BFS traversal (call graph and data flow).

A shallow embedding of `backend/internal/handler/callgraph.go`,
`backend/internal/handler/dataflow.go` and `queryInt` of
`backend/internal/handler/handler.go`, followed by theorems about the
traversal results.

Modelling conventions.

* The SQLite database is a value `DB` holding the three tables the traversal
  statements read (`nodes`, `edges`, `metrics`) as lists of rows, together with
  `queryErr`, which tells for each statement and argument whether
  `db.Query` / `QueryRow(..).Scan` comes back with an error, and `rowsErr`,
  which tells after how many rows `rows.Next()` ends on an error (the loops
  never look at `rows.Err()`, so the rows read until then are kept).  A
  `SELECT` enumerates its joins in table order; `LIMIT n` is `List.take n`.
* A Go `map[string]*T` is an association list with unique keys (`NodeMap`);
  the node list of a response is the list of its values.
* Go `int` depths are natural numbers: the loop counter starts at 1 and is
  bounded by `maxDepth`, which the handlers clamp to at most 6.
* Every statement sent to the database is appended to a log carried next to
  the node map and the edge list, so that "which queries were issued" can be
  stated.
-/


namespace CPG

/-! ## Database -/

/-- The six SQL statements issued by the two traversal handlers. -/
inductive Stmt where
  | fetchCallGraphNode
  | callees
  | callers
  | fetchDFGNode
  | dfgForward
  | dfgBackward
  deriving DecidableEq, Repr

/-- A row of table `nodes` (the columns read by the traversal statements).
The columns wrapped in `COALESCE` by the statements are nullable. -/
structure NodeRow where
  id : String
  name : String
  kind : String
  package : Option String
  file : Option String
  line : Option Int
  deriving DecidableEq, Repr

/-- A row of table `edges`. -/
structure EdgeRow where
  source : String
  target : String
  kind : String
  deriving DecidableEq, Repr

/-- A row of table `metrics`. -/
structure MetricsRow where
  function_id : String
  cyclomatic_complexity : Option Int
  fan_in : Option Int
  fan_out : Option Int
  deriving DecidableEq, Repr

/-- The database handle `h.db`: the tables, and the two ways a statement can
go wrong. `queryErr stmt arg` says that `db.Query` (or `QueryRow(..).Scan`)
returns an error; `rowsErr stmt arg = some k` says that `rows.Next()` reports
an error after `k` rows have been read. -/
structure DB where
  nodes : List NodeRow
  edges : List EdgeRow
  metrics : List MetricsRow
  queryErr : Stmt → String → Bool
  rowsErr : Stmt → String → Option Nat

/-! ## Response model (`model.go`) -/

/-- `model.CallGraphNode`. -/
structure CallGraphNode where
  ID : String
  Label : String
  Package : String
  File : String
  Line : Int
  Complexity : Int
  FanIn : Int
  FanOut : Int
  IsRoot : Bool
  Depth : Nat
  deriving DecidableEq, Repr

/-- `model.CallGraphEdge`. -/
structure CallGraphEdge where
  Source : String
  Target : String
  Kind : String
  deriving DecidableEq, Repr

/-- `model.DataFlowNode`. -/
structure DataFlowNode where
  ID : String
  Label : String
  Kind : String
  File : String
  Line : Int
  Depth : Nat
  deriving DecidableEq, Repr

/-- `model.DataFlowEdge`. -/
structure DataFlowEdge where
  Source : String
  Target : String
  deriving DecidableEq, Repr

/-! ## Node maps -/

/-- A Go `map[string]*T`: association list, keys unique. -/
abbrev NodeMap (ν : Type) := List (String × ν)

/-- `m[k]` as a lookup: the value stored under `k`, if any. -/
def NodeMap.find {ν : Type} : NodeMap ν → String → Option ν
  | [], _ => none
  | (k', v) :: rest, k => if k' = k then some v else NodeMap.find rest k

/-- `_, exists := m[k]`. -/
def NodeMap.has {ν : Type} (m : NodeMap ν) (k : String) : Bool :=
  (m.find k).isSome

/-- `m[k] = v`: any earlier entry under `k` is replaced. -/
def NodeMap.set {ν : Type} (m : NodeMap ν) (k : String) (v : ν) : NodeMap ν :=
  m.filter (fun p => decide (p.1 ≠ k)) ++ [(k, v)]

/-- The keys of the map. -/
def NodeMap.keys {ν : Type} (m : NodeMap ν) : List String :=
  m.map Prod.fst

/-- `for _, n := range m { nodes = append(nodes, *n) }` (in some order). -/
def NodeMap.values {ν : Type} (m : NodeMap ν) : List ν :=
  m.map Prod.snd

/-! ## The SQL statements -/

/-- `LEFT JOIN metrics m ON m.function_id = n.id`: the matching metrics rows,
or a single all-NULL row when there is none. -/
def leftJoinMetrics (db : DB) (n : NodeRow) : List (Option MetricsRow) :=
  match db.metrics.filter (fun m => m.function_id == n.id) with
  | [] => [none]
  | ms => ms.map some

/-- A result row of the two call-graph neighbour statements. -/
structure CallRow where
  id : String
  name : String
  pkg : String
  file : String
  line : Int
  complexity : Int
  fanIn : Int
  fanOut : Int
  deriving DecidableEq, Repr

/-- The select list of the call-graph statements, with its `COALESCE`s. -/
def callRow (id : String) (n : NodeRow) (m : Option MetricsRow) : CallRow :=
  { id := id
    name := n.name
    pkg := n.package.getD ""
    file := n.file.getD ""
    line := n.line.getD 0
    complexity := (m.bind fun x => x.cyclomatic_complexity).getD 0
    fanIn := (m.bind fun x => x.fan_in).getD 0
    fanOut := (m.bind fun x => x.fan_out).getD 0 }

/-- The rows of
`SELECT e.target, … FROM edges e JOIN nodes n ON n.id = e.target
 LEFT JOIN metrics m ON m.function_id = n.id
 WHERE e.source = ? AND e.kind = 'call' AND n.kind = 'function' LIMIT 30`. -/
def selectCallees (db : DB) (srcID : String) : List CallRow :=
  ((db.edges.filter fun e => e.source == srcID && e.kind == "call").flatMap fun e =>
    (db.nodes.filter fun n => n.id == e.target && n.kind == "function").flatMap fun n =>
      (leftJoinMetrics db n).map (callRow e.target n)).take 30

/-- The rows of
`SELECT e.source, … FROM edges e JOIN nodes n ON n.id = e.source
 LEFT JOIN metrics m ON m.function_id = n.id
 WHERE e.target = ? AND e.kind = 'call' AND n.kind = 'function' LIMIT 30`. -/
def selectCallers (db : DB) (tgtID : String) : List CallRow :=
  ((db.edges.filter fun e => e.target == tgtID && e.kind == "call").flatMap fun e =>
    (db.nodes.filter fun n => n.id == e.source && n.kind == "function").flatMap fun n =>
      (leftJoinMetrics db n).map (callRow e.source n)).take 30

/-- A result row of the two data-flow neighbour statements. -/
structure DFGRow where
  id : String
  name : String
  kind : String
  file : String
  line : Int
  deriving DecidableEq, Repr

/-- The select list of the data-flow statements. -/
def dfgRow (id : String) (n : NodeRow) : DFGRow :=
  { id := id, name := n.name, kind := n.kind, file := n.file.getD "", line := n.line.getD 0 }

/-- The rows of
`SELECT e.target, … FROM edges e JOIN nodes n ON n.id = e.target
 WHERE e.source = ? AND e.kind = 'dfg' LIMIT 25`. -/
def selectDFGForward (db : DB) (srcID : String) : List DFGRow :=
  ((db.edges.filter fun e => e.source == srcID && e.kind == "dfg").flatMap fun e =>
    (db.nodes.filter fun n => n.id == e.target).map (dfgRow e.target)).take 25

/-- The rows of
`SELECT e.source, … FROM edges e JOIN nodes n ON n.id = e.source
 WHERE e.target = ? AND e.kind = 'dfg' LIMIT 25`. -/
def selectDFGBackward (db : DB) (tgtID : String) : List DFGRow :=
  ((db.edges.filter fun e => e.target == tgtID && e.kind == "dfg").flatMap fun e =>
    (db.nodes.filter fun n => n.id == e.source).map (dfgRow e.source)).take 25

/-- The rows the loop `for rows.Next() { … }` gets to read: all of them, or
the first `k` when `rows.Next()` ends on an error after `k` rows (the loop
ends there and `rows.Err()` is not looked at). -/
def deliver {ρ : Type} (db : DB) (stmt : Stmt) (arg : String) (rows : List ρ) : List ρ :=
  match db.rowsErr stmt arg with
  | none => rows
  | some k => rows.take k

/-- `h.db.Query(stmt, arg)` followed by the reading of its rows: `none` is
`err != nil`, otherwise the rows read. -/
def runQuery {ρ : Type} (db : DB) (stmt : Stmt) (select : DB → String → List ρ)
    (arg : String) : Option (List ρ) :=
  if db.queryErr stmt arg then none else some (deliver db stmt arg (select db arg))

/-- `fetchCallGraphNode` (callgraph.go 157-179): the first row of
`nodes n LEFT JOIN metrics m … WHERE n.id = ?`; `nil` when `Scan` fails. -/
def fetchCallGraphNode (db : DB) (id : String) (depth : Nat) (isRoot : Bool) :
    Option CallGraphNode :=
  if db.queryErr Stmt.fetchCallGraphNode id then none
  else
    match (db.nodes.filter fun n => n.id == id).flatMap fun n =>
        (leftJoinMetrics db n).map (callRow id n) with
    | [] => none
    | r :: _ =>
      some { ID := id, Label := r.name, Package := r.pkg, File := r.file, Line := r.line,
             Complexity := r.complexity, FanIn := r.fanIn, FanOut := r.fanOut,
             IsRoot := isRoot, Depth := depth }

/-- `fetchDFGNode` (dataflow.go 134-150): the first row of
`SELECT name, kind, … FROM nodes WHERE id = ?`; `nil` when `Scan` fails. -/
def fetchDFGNode (db : DB) (id : String) (depth : Nat) : Option DataFlowNode :=
  if db.queryErr Stmt.fetchDFGNode id then none
  else
    match (db.nodes.filter fun n => n.id == id).map (dfgRow id) with
    | [] => none
    | r :: _ =>
      some { ID := id, Label := r.name, Kind := r.kind, File := r.file, Line := r.line,
             Depth := depth }

/-! ## The BFS loop

The four `bfs*` functions of the source are the same loop over a different
statement, edge orientation and node record; `Pass` collects what differs. -/

/-- The mutable state shared by the passes of one request: `nodeMap`, `*edges`,
and the log of statements issued so far. -/
structure Acc (ν ε : Type) where
  nodeMap : NodeMap ν
  edges : List ε
  log : List (Stmt × String)

/-- What distinguishes one `bfs*` function from another. -/
structure Pass (ρ ν ε : Type) where
  /-- which statement the pass sends -/
  stmt : Stmt
  /-- `h.db.Query(stmt, u)` and the rows read from it -/
  query : String → Option (List ρ)
  /-- the first scanned column: the neighbour id -/
  rowID : ρ → String
  /-- the edge appended for frontier node `u` and neighbour `v` -/
  mkEdge : String → String → ε
  /-- the node stored for a newly met neighbour at level `d` -/
  mkNode : ρ → Nat → ν

/-- The inner loop `for rows.Next() { … }` for frontier node `u` at level `d`:
append the edge, and register the neighbour when it is not yet in the map. -/
def scanRows {ρ ν ε : Type} (p : Pass ρ ν ε) (u : String) (d : Nat) :
    List ρ → Acc ν ε × List String → Acc ν ε × List String
  | [], s => s
  | r :: rs, (acc, next) =>
    let acc1 : Acc ν ε := { acc with edges := acc.edges ++ [p.mkEdge u (p.rowID r)] }
    if acc1.nodeMap.has (p.rowID r) then scanRows p u d rs (acc1, next)
    else
      scanRows p u d rs
        ({ acc1 with nodeMap := acc1.nodeMap.set (p.rowID r) (p.mkNode r d) },
          next ++ [p.rowID r])

/-- The middle loop `for _, u := range frontier { … }` at level `d`; a failed
query is skipped (`continue`). -/
def expandFrontier {ρ ν ε : Type} (p : Pass ρ ν ε) (d : Nat) :
    List String → Acc ν ε × List String → Acc ν ε × List String
  | [], s => s
  | u :: us, (acc, next) =>
    let acc1 : Acc ν ε := { acc with log := acc.log ++ [(p.stmt, u)] }
    match p.query u with
    | none => expandFrontier p d us (acc1, next)
    | some rows => expandFrontier p d us (scanRows p u d rows (acc1, next))

/-- The outer loop `for d := …; d <= maxDepth && len(frontier) > 0; d++`,
from level `d` on; the first argument bounds the number of iterations. -/
def bfsLoop {ρ ν ε : Type} (p : Pass ρ ν ε) (maxDepth : Nat) :
    Nat → Nat → List String → Acc ν ε → Acc ν ε
  | 0, _, _, acc => acc
  | fuel + 1, d, frontier, acc =>
    if d ≤ maxDepth ∧ frontier ≠ [] then
      bfsLoop p maxDepth fuel (d + 1) (expandFrontier p d frontier (acc, [])).2
        (expandFrontier p d frontier (acc, [])).1
    else acc

/-- A whole pass: `frontier := []string{rootID}` and the loop from `d = 1`.
The loop body runs at most `maxDepth` times. -/
def bfsPass {ρ ν ε : Type} (p : Pass ρ ν ε) (rootID : String) (maxDepth : Nat)
    (acc : Acc ν ε) : Acc ν ε :=
  bfsLoop p maxDepth maxDepth 1 [rootID] acc

/-- The node record built in `bfsCallees` / `bfsCallers` (`IsRoot` keeps its
zero value). -/
def callNode (r : CallRow) (d : Nat) : CallGraphNode :=
  { ID := r.id, Label := r.name, Package := r.pkg, File := r.file, Line := r.line,
    Complexity := r.complexity, FanIn := r.fanIn, FanOut := r.fanOut,
    IsRoot := false, Depth := d }

/-- The node record built in `bfsDFGForward` / `bfsDFGBackward`. -/
def dfgNode (r : DFGRow) (d : Nat) : DataFlowNode :=
  { ID := r.id, Label := r.name, Kind := r.kind, File := r.file, Line := r.line, Depth := d }

/-- The parameters of `bfsCallees`: the frontier node is the edge source. -/
def calleesPass (db : DB) : Pass CallRow CallGraphNode CallGraphEdge :=
  { stmt := Stmt.callees
    query := runQuery db Stmt.callees selectCallees
    rowID := fun r => r.id
    mkEdge := fun srcID tgtID => { Source := srcID, Target := tgtID, Kind := "call" }
    mkNode := callNode }

/-- The parameters of `bfsCallers`: the frontier node is the edge target. -/
def callersPass (db : DB) : Pass CallRow CallGraphNode CallGraphEdge :=
  { stmt := Stmt.callers
    query := runQuery db Stmt.callers selectCallers
    rowID := fun r => r.id
    mkEdge := fun tgtID srcID => { Source := srcID, Target := tgtID, Kind := "call" }
    mkNode := callNode }

/-- The parameters of `bfsDFGForward`. -/
def dfgForwardPass (db : DB) : Pass DFGRow DataFlowNode DataFlowEdge :=
  { stmt := Stmt.dfgForward
    query := runQuery db Stmt.dfgForward selectDFGForward
    rowID := fun r => r.id
    mkEdge := fun srcID tgtID => { Source := srcID, Target := tgtID }
    mkNode := dfgNode }

/-- The parameters of `bfsDFGBackward`. -/
def dfgBackwardPass (db : DB) : Pass DFGRow DataFlowNode DataFlowEdge :=
  { stmt := Stmt.dfgBackward
    query := runQuery db Stmt.dfgBackward selectDFGBackward
    rowID := fun r => r.id
    mkEdge := fun tgtID srcID => { Source := srcID, Target := tgtID }
    mkNode := dfgNode }

/-- `bfsCallees` (callgraph.go 61-106). -/
def bfsCallees (db : DB) (rootID : String) (maxDepth : Nat)
    (acc : Acc CallGraphNode CallGraphEdge) : Acc CallGraphNode CallGraphEdge :=
  bfsPass (calleesPass db) rootID maxDepth acc

/-- `bfsCallers` (callgraph.go 109-154). -/
def bfsCallers (db : DB) (rootID : String) (maxDepth : Nat)
    (acc : Acc CallGraphNode CallGraphEdge) : Acc CallGraphNode CallGraphEdge :=
  bfsPass (callersPass db) rootID maxDepth acc

/-- `bfsDFGForward` (dataflow.go 60-95). -/
def bfsDFGForward (db : DB) (rootID : String) (maxDepth : Nat)
    (acc : Acc DataFlowNode DataFlowEdge) : Acc DataFlowNode DataFlowEdge :=
  bfsPass (dfgForwardPass db) rootID maxDepth acc

/-- `bfsDFGBackward` (dataflow.go 97-132). -/
def bfsDFGBackward (db : DB) (rootID : String) (maxDepth : Nat)
    (acc : Acc DataFlowNode DataFlowEdge) : Acc DataFlowNode DataFlowEdge :=
  bfsPass (dfgBackwardPass db) rootID maxDepth acc

/-! ## The handlers -/

/-- What a handler writes: `writeError(w, msg, code)` or
`writeJSON(w, {Nodes, Edges})`. -/
inductive Response (ν ε : Type) where
  | error (msg : String) (code : Nat)
  | graph (nodes : List ν) (edges : List ε)

/-- The empty accumulator with the root stored: `nodeMap[id] = rootNode`,
after the fetch statement has been sent. -/
def seed {ν ε : Type} (stmt : Stmt) (id : String) (rootNode : ν) : Acc ν ε :=
  { nodeMap := NodeMap.set [] id rootNode, edges := [], log := [(stmt, id)] }

/-- The two conditional passes of `CallGraph` (callgraph.go 42-50). -/
def callGraphPasses (db : DB) (id : String) (depth : Nat) (direction : String)
    (acc : Acc CallGraphNode CallGraphEdge) : Acc CallGraphNode CallGraphEdge :=
  let acc1 := if direction = "callees" ∨ direction = "both" then bfsCallees db id depth acc
    else acc
  if direction = "callers" ∨ direction = "both" then bfsCallers db id depth acc1 else acc1

/-- `CallGraph` from the seeding on (callgraph.go 31-57), for the clamped depth
and the defaulted direction; the second component is the log of statements. -/
def callGraphTraverse (db : DB) (id : String) (depth : Nat) (direction : String) :
    Response CallGraphNode CallGraphEdge × List (Stmt × String) :=
  match fetchCallGraphNode db id 0 true with
  | none => (Response.error "function not found" 404, [(Stmt.fetchCallGraphNode, id)])
  | some rootNode =>
    let acc := callGraphPasses db id depth direction (seed Stmt.fetchCallGraphNode id rootNode)
    (Response.graph acc.nodeMap.values acc.edges, acc.log)

/-- The `switch direction` of `DataFlow` (dataflow.go 42-50). -/
def dataFlowPasses (db : DB) (id : String) (depth : Nat) (direction : String)
    (acc : Acc DataFlowNode DataFlowEdge) : Acc DataFlowNode DataFlowEdge :=
  if direction = "forward" then bfsDFGForward db id depth acc
  else if direction = "backward" then bfsDFGBackward db id depth acc
  else if direction = "both" then bfsDFGBackward db id depth (bfsDFGForward db id depth acc)
  else acc

/-- `DataFlow` from the seeding on (dataflow.go 31-57). -/
def dataFlowTraverse (db : DB) (id : String) (depth : Nat) (direction : String) :
    Response DataFlowNode DataFlowEdge × List (Stmt × String) :=
  match fetchDFGNode db id 0 with
  | none => (Response.error "node not found" 404, [(Stmt.fetchDFGNode, id)])
  | some root =>
    let acc := dataFlowPasses db id depth direction (seed Stmt.fetchDFGNode id root)
    (Response.graph acc.nodeMap.values acc.edges, acc.log)

/-- The query string of a request: `r.URL.Query().Get(key)` is `""` for an
absent key. -/
structure Request where
  id : String
  depth : String
  direction : String

/-- `queryInt` (handler.go 59-70) on the raw parameter value; `atoi` is
`strconv.Atoi`, `none` standing for its error. -/
def queryInt (atoi : String → Option Int) (s : String) (defaultVal : Int) : Int :=
  if s = "" then defaultVal
  else
    match atoi s with
    | none => defaultVal
    | some v => v

/-- The depth clamping of both handlers: `if depth < lo { depth = lo }`,
`if depth > hi { depth = hi }`. -/
def clampDepth (depth lo hi : Int) : Int :=
  let depth1 := if depth < lo then lo else depth
  if depth1 > hi then hi else depth1

/-- `CallGraph` (callgraph.go 11-58). -/
def CallGraph (atoi : String → Option Int) (db : DB) (r : Request) :
    Response CallGraphNode CallGraphEdge × List (Stmt × String) :=
  if r.id = "" then (Response.error "function id is required" 400, [])
  else
    let depth := clampDepth (queryInt atoi r.depth 2) 1 5
    let direction := if r.direction = "" then "both" else r.direction
    callGraphTraverse db r.id depth.toNat direction

/-- `DataFlow` (dataflow.go 11-58). -/
def DataFlow (atoi : String → Option Int) (db : DB) (r : Request) :
    Response DataFlowNode DataFlowEdge × List (Stmt × String) :=
  if r.id = "" then (Response.error "node id is required" 400, [])
  else
    let depth := clampDepth (queryInt atoi r.depth 3) 1 6
    let direction := if r.direction = "" then "forward" else r.direction
    dataFlowTraverse db r.id depth.toNat direction

section Specification

variable {ρ ν ε : Type}

/-! ## Notions used to state the properties -/

/-- The neighbour rows returned for frontier node `u`; a failed query counts
as no rows. -/
def rowsOf (p : Pass ρ ν ε) (u : String) : List ρ :=
  (p.query u).getD []

/-- The edges appended while expanding frontier node `u`. -/
def edgesOf (p : Pass ρ ν ε) (u : String) : List ε :=
  (rowsOf p u).map fun r => p.mkEdge u (p.rowID r)

/-- All rows returned at a level, in frontier order. -/
def levelRows (p : Pass ρ ν ε) (frontier : List String) : List ρ :=
  frontier.flatMap (rowsOf p)

/-- The entries a sequence of rows adds to map `m` at level `d`: one for the
first row of every identifier not yet present. -/
def newEntries (p : Pass ρ ν ε) (d : Nat) : List ρ → NodeMap ν → NodeMap ν
  | [], _ => []
  | r :: rs, m =>
    if NodeMap.has m (p.rowID r) then newEntries p d rs m
    else (p.rowID r, p.mkNode r d) :: newEntries p d rs (m ++ [(p.rowID r, p.mkNode r d)])

/-- One level in closed form: the next frontier and the new accumulator. -/
def levelStep (p : Pass ρ ν ε) (d : Nat) (frontier : List String) (acc : Acc ν ε) :
    List String × Acc ν ε :=
  (NodeMap.keys (newEntries p d (levelRows p frontier) acc.nodeMap),
    { nodeMap := acc.nodeMap ++ newEntries p d (levelRows p frontier) acc.nodeMap
      edges := acc.edges ++ frontier.flatMap (edgesOf p)
      log := acc.log ++ frontier.map (fun u => (p.stmt, u)) })

/-- The state after `n` further levels starting with level `d`, not stopping at
an empty frontier (expanding an empty frontier changes nothing). -/
def bfsLevels (p : Pass ρ ν ε) : Nat → Nat → List String → Acc ν ε → List String × Acc ν ε
  | 0, _, frontier, acc => (frontier, acc)
  | n + 1, d, frontier, acc =>
    bfsLevels p n (d + 1) (levelStep p d frontier acc).1 (levelStep p d frontier acc).2

/-- Keys are unique and every node is stored under its own identifier. -/
def Acc.WF (nodeID : ν → String) (acc : Acc ν ε) : Prop :=
  (NodeMap.keys acc.nodeMap).Nodup ∧
    ∀ k n, NodeMap.find acc.nodeMap k = some n → nodeID n = k

/-- A chain of `len` recorded edges leading from `a` to `b`: each edge starts
(`origin`) where the previous one ended (`dest`). -/
inductive Chain (origin dest : ε → String) (es : List ε) : String → String → Nat → Prop where
  | nil (a : String) : Chain origin dest es a a 0
  | snoc {a b c : String} {len : Nat} (e : ε) :
      Chain origin dest es a b len → e ∈ es → origin e = b → dest e = c →
      Chain origin dest es a c (len + 1)

/-- The number `len` is the length of a shortest chain from `a` to `b`. -/
def ShortestChain (origin dest : ε → String) (es : List ε) (a b : String) (len : Nat) : Prop :=
  Chain origin dest es a b len ∧ ∀ l, Chain origin dest es a b l → len ≤ l

/-- The invariant of a single-direction pass before level `d`. -/
def MinInv (origin dest : ε → String) (depthOf : ν → Nat) (root : String)
    (d : Nat) (frontier : List String) (acc : Acc ν ε) : Prop :=
  (∃ rn, NodeMap.find acc.nodeMap root = some rn ∧ depthOf rn = 0) ∧
  (∀ k n, NodeMap.find acc.nodeMap k = some n → depthOf n + 1 ≤ d) ∧
  (∀ u ∈ frontier, ∃ n, NodeMap.find acc.nodeMap u = some n ∧ depthOf n + 1 = d) ∧
  (∀ e ∈ acc.edges, ∃ no nd, NodeMap.find acc.nodeMap (origin e) = some no ∧
      NodeMap.find acc.nodeMap (dest e) = some nd ∧ depthOf nd ≤ depthOf no + 1) ∧
  (∀ k n, NodeMap.find acc.nodeMap k = some n →
      Chain origin dest acc.edges root k (depthOf n))

/-- Edge `e` joins `k` and `k'`, in either orientation. -/
def Connects (src tgt : ε → String) (e : ε) (k k' : String) : Prop :=
  (src e = k ∧ tgt e = k') ∨ (src e = k' ∧ tgt e = k)

/-- The root is stored at depth 0 and every other node has a recorded edge to
a node of strictly smaller depth. -/
def HasParents (src tgt : ε → String) (depthOf : ν → Nat) (root : String) (acc : Acc ν ε) :
    Prop :=
  (∃ rn, NodeMap.find acc.nodeMap root = some rn ∧ depthOf rn = 0) ∧
  ∀ k n, NodeMap.find acc.nodeMap k = some n → k ≠ root →
    ∃ e ∈ acc.edges, ∃ k' n', NodeMap.find acc.nodeMap k' = some n' ∧
      depthOf n' < depthOf n ∧ Connects src tgt e k k'

/-- The invariant of a pass before level `d`, for any starting accumulator. -/
def ParentInv (src tgt : ε → String) (depthOf : ν → Nat) (root : String)
    (d : Nat) (frontier : List String) (acc : Acc ν ε) : Prop :=
  HasParents src tgt depthOf root acc ∧
  ∀ u ∈ frontier, ∃ n, NodeMap.find acc.nodeMap u = some n ∧ depthOf n + 1 = d

/-- The root entry is `rn`, and every other entry is unflagged with a depth
from 1 to `bound`. -/
def RootKept (isRoot : ν → Bool) (depthOf : ν → Nat) (root : String) (rn : ν) (bound : Nat)
    (acc : Acc ν ε) : Prop :=
  NodeMap.find acc.nodeMap root = some rn ∧
  ∀ k n, NodeMap.find acc.nodeMap k = some n → k ≠ root →
    isRoot n = false ∧ 1 ≤ depthOf n ∧ depthOf n ≤ bound

/-- The frontier a pass started on `acc0` expands at level `d ≥ 1`. -/
def frontierAt (p : Pass ρ ν ε) (root : String) (acc0 : Acc ν ε) (d : Nat) : List String :=
  (bfsLevels p (d - 1) 1 [root] acc0).1

/-- The identifiers the pass gets back as neighbours at level `d`. -/
def returnedAt (p : Pass ρ ν ε) (root : String) (acc0 : Acc ν ε) (d : Nat) : List String :=
  (levelRows p (frontierAt p root acc0 d)).map p.rowID

/-- Level `d` is the first of the levels `1 … maxDepth` at which the pass gets
`k` back as a neighbour. -/
def FirstReturnedAt (p : Pass ρ ν ε) (root : String) (acc0 : Acc ν ε) (maxDepth : Nat)
    (k : String) (d : Nat) : Prop :=
  (1 ≤ d ∧ d ≤ maxDepth ∧ k ∈ returnedAt p root acc0 d) ∧
  ∀ d', 1 ≤ d' → d' ≤ maxDepth → k ∈ returnedAt p root acc0 d' → d ≤ d'

/-- The pass gets `k` back as a neighbour at some level. -/
def ReturnedBy (p : Pass ρ ν ε) (root : String) (acc0 : Acc ν ε) (maxDepth : Nat)
    (k : String) : Prop :=
  ∃ d, 1 ≤ d ∧ d ≤ maxDepth ∧ k ∈ returnedAt p root acc0 d

/-- Level `d` is the first level at which the first pass (started on `acc0`) or
the second pass (started on what the first left) gets `k` back. -/
def FirstReturnedByEither (p1 p2 : Pass ρ ν ε) (root : String) (acc0 : Acc ν ε)
    (maxDepth : Nat) (k : String) (d : Nat) : Prop :=
  (1 ≤ d ∧ d ≤ maxDepth ∧
    (k ∈ returnedAt p1 root acc0 d ∨
      k ∈ returnedAt p2 root (bfsPass p1 root maxDepth acc0) d)) ∧
  ∀ d', 1 ≤ d' → d' ≤ maxDepth →
    (k ∈ returnedAt p1 root acc0 d' ∨
      k ∈ returnedAt p2 root (bfsPass p1 root maxDepth acc0) d') → d ≤ d'

/-- The nodes a pass started on `acc0` has expanded during its first `n`
levels, in expansion order. -/
def expanded (p : Pass ρ ν ε) (root : String) (acc0 : Acc ν ε) : Nat → List String
  | 0 => []
  | n + 1 => expanded p root acc0 n ++ (bfsLevels p n 1 [root] acc0).1

/-- The nodes of a response (none for an error). -/
def Response.nodes {ν ε : Type} : Response ν ε → List ν
  | Response.error _ _ => []
  | Response.graph nodes _ => nodes

/-- The edges of a response (none for an error). -/
def Response.edges {ν ε : Type} : Response ν ε → List ε
  | Response.error _ _ => []
  | Response.graph _ edges => edges

/-- The pass whose query never fails: an error is replaced by no rows. -/
def totalised (p : Pass ρ ν ε) : Pass ρ ν ε :=
  { p with query := fun u => some (rowsOf p u) }

/-- Table `nodes` has a row of kind `function` with identifier `k`. -/
def isFunctionID (db : DB) (k : String) : Bool :=
  db.nodes.any fun n => n.id == k && n.kind == "function"

/-- The claim of C9 for one answer: all nodes and all edge endpoints are
function nodes. -/
def AllFunctions (db : DB) (nodes : List CallGraphNode) (edges : List CallGraphEdge) : Prop :=
  (∀ n ∈ nodes, isFunctionID db n.ID = true) ∧
  (∀ e ∈ edges, isFunctionID db e.Source = true ∧ isFunctionID db e.Target = true)

/-- Every stored node and every edge endpoint is the root or satisfies `good`. -/
def RootOrGood (src tgt : ε → String) (good : String → Prop) (root : String)
    (acc : Acc ν ε) : Prop :=
  (∀ k n, NodeMap.find acc.nodeMap k = some n → k = root ∨ good k) ∧
  (∀ e ∈ acc.edges, (src e = root ∨ good (src e)) ∧ (tgt e = root ∨ good (tgt e)))

/-- Two accumulators hold the same identifiers at the same depths and the same
edges up to order. -/
def SameGraph (depthOf : ν → Nat) (acc1 acc2 : Acc ν ε) : Prop :=
  (∀ k, (NodeMap.find acc1.nodeMap k).map depthOf = (NodeMap.find acc2.nodeMap k).map depthOf) ∧
  acc1.edges.Perm acc2.edges

end Specification

/-! ## Example stores -/

/-- A function row of table `nodes` with no package, file or line. -/
def fnRow (id : String) : NodeRow :=
  { id := id, name := id, kind := "function", package := none, file := none, line := none }

/-- A call edge. -/
def callEdge (s t : String) : EdgeRow :=
  { source := s, target := t, kind := "call" }

/-- The call-graph node built for a row of `fnRow id`. -/
def cgNode (id : String) (isRoot : Bool) (depth : Nat) : CallGraphNode :=
  { ID := id, Label := id, Package := "", File := "", Line := 0, Complexity := 0,
    FanIn := 0, FanOut := 0, IsRoot := isRoot, Depth := depth }

/-- The call-graph edge from `s` to `t`. -/
def cgEdge (s t : String) : CallGraphEdge :=
  { Source := s, Target := t, Kind := "call" }

/-- The store `f1 → f2 → f3` of call edges, no query failing. -/
def chainDB : DB :=
  { nodes := [fnRow "f1", fnRow "f2", fnRow "f3"]
    edges := [callEdge "f1" "f2", callEdge "f2" "f3"]
    metrics := []
    queryErr := fun _ _ => false
    rowsErr := fun _ _ => none }

/-- The cycle `R → A → V → R` of call edges. -/
def cycleDB : DB :=
  { nodes := [fnRow "R", fnRow "A", fnRow "V"]
    edges := [callEdge "R" "A", callEdge "A" "V", callEdge "V" "R"]
    metrics := []
    queryErr := fun _ _ => false
    rowsErr := fun _ _ => none }

/-- The store with call edges `R → A`, `A → R` and `X → A`. -/
def blockedDB : DB :=
  { nodes := [fnRow "R", fnRow "A", fnRow "X"]
    edges := [callEdge "R" "A", callEdge "A" "R", callEdge "X" "A"]
    metrics := []
    queryErr := fun _ _ => false
    rowsErr := fun _ _ => none }

/-- The store with the function `r` calling the forty functions `t0 … t39`. -/
def hubDB : DB :=
  { nodes := fnRow "r" :: (List.range 40).map fun i => fnRow ("t" ++ toString i)
    edges := (List.range 40).map fun i => callEdge "r" ("t" ++ toString i)
    metrics := []
    queryErr := fun _ _ => false
    rowsErr := fun _ _ => none }

/-- A type node `T` with a call edge to the function `f`. -/
def typeRootDB : DB :=
  { nodes := [{ id := "T", name := "T", kind := "type", package := none, file := none,
                line := none }, fnRow "f"]
    edges := [callEdge "T" "f"]
    metrics := []
    queryErr := fun _ _ => false
    rowsErr := fun _ _ => none }

/-- The store `R → A`, `R → B`, `A → C`, `B → C` of call edges. -/
def orderDB1 : DB :=
  { nodes := [fnRow "R", fnRow "A", fnRow "B", fnRow "C"]
    edges := [callEdge "R" "A", callEdge "R" "B", callEdge "A" "C", callEdge "B" "C"]
    metrics := []
    queryErr := fun _ _ => false
    rowsErr := fun _ _ => none }

/-- The store of `orderDB1` with the rows of table `edges` in another order. -/
def orderDB2 : DB :=
  { nodes := [fnRow "R", fnRow "A", fnRow "B", fnRow "C"]
    edges := [callEdge "B" "C", callEdge "R" "B", callEdge "A" "C", callEdge "R" "A"]
    metrics := []
    queryErr := fun _ _ => false
    rowsErr := fun _ _ => none }

/-! ## Notions for the order and the number of recorded edges -/

/-- The rows a logged call-graph statement returned (none for the root fetch
and for a failed query). -/
def callRowsFor (db : DB) : Stmt × String → List CallRow
  | (Stmt.callees, u) => rowsOf (calleesPass db) u
  | (Stmt.callers, u) => rowsOf (callersPass db) u
  | _ => []

/-- The edge appended for a row of a logged call-graph statement: the expanded
node is the source for the callees statement, the target for the callers
statement. -/
def callEdgeFor : Stmt × String → CallRow → CallGraphEdge
  | (Stmt.callers, u), r => { Source := r.id, Target := u, Kind := "call" }
  | (_, u), r => { Source := u, Target := r.id, Kind := "call" }

/-- The rows a logged data-flow statement returned. -/
def dfgRowsFor (db : DB) : Stmt × String → List DFGRow
  | (Stmt.dfgForward, u) => rowsOf (dfgForwardPass db) u
  | (Stmt.dfgBackward, u) => rowsOf (dfgBackwardPass db) u
  | _ => []

/-- The edge appended for a row of a logged data-flow statement. -/
def dfgEdgeFor : Stmt × String → DFGRow → DataFlowEdge
  | (Stmt.dfgBackward, u), r => { Source := r.id, Target := u }
  | (_, u), r => { Source := u, Target := r.id }

/-- The edge list is the concatenation, in the order the statements were
sent, of one edge per returned row. -/
def EdgesFollowLog {ρ ν ε : Type} (rowsFor : Stmt × String → List ρ)
    (edgeFor : Stmt × String → ρ → ε) (acc : Acc ν ε) : Prop :=
  acc.edges = acc.log.flatMap fun s => (rowsFor s).map (edgeFor s)

/-- The store `R → A`, `R → B`, `A → B` of call edges. -/
def triangleDB : DB :=
  { nodes := [fnRow "R", fnRow "A", fnRow "B"]
    edges := [callEdge "R" "A", callEdge "R" "B", callEdge "A" "B"]
    metrics := []
    queryErr := fun _ _ => false
    rowsErr := fun _ _ => none }

/-- The store `R → A`, `A → R` of call edges. -/
def twoCycleDB : DB :=
  { nodes := [fnRow "R", fnRow "A"]
    edges := [callEdge "R" "A", callEdge "A" "R"]
    metrics := []
    queryErr := fun _ _ => false
    rowsErr := fun _ _ => none }

/-- The edges a pass started on `acc0` records while expanding level `d`. -/
def levelEdges {ρ ν ε : Type} (p : Pass ρ ν ε) (root : String) (acc0 : Acc ν ε) (d : Nat) :
    List ε :=
  (frontierAt p root acc0 d).flatMap (edgesOf p)

/-- The edges a pass records during its first `n` levels, in recording order,
each with the level at which it was recorded. -/
def taggedEdges {ρ ν ε : Type} (p : Pass ρ ν ε) (root : String) (acc0 : Acc ν ε) :
    Nat → List (Nat × ε)
  | 0 => []
  | n + 1 =>
    taggedEdges p root acc0 n ++ (levelEdges p root acc0 (n + 1)).map fun e => (n + 1, e)

/-- No edge of a deeper level stands before an edge of a shallower level. -/
def LevelSorted {ε : Type} (t : List (Nat × ε)) : Prop :=
  (t.map Prod.fst).Pairwise (· ≤ ·)

/-- The edges of a `CallGraph` run with their levels: those of the callees
pass, when it runs, followed by those of the callers pass, when it runs (on
the accumulator the callees pass left). -/
def callGraphTagged (db : DB) (id : String) (depth : Nat) (direction : String)
    (rootNode : CallGraphNode) : List (Nat × CallGraphEdge) :=
  (if direction = "callees" ∨ direction = "both" then
      taggedEdges (calleesPass db) id (seed Stmt.fetchCallGraphNode id rootNode) depth
    else []) ++
  (if direction = "callers" ∨ direction = "both" then
      taggedEdges (callersPass db) id
        (if direction = "callees" ∨ direction = "both" then
          bfsCallees db id depth (seed Stmt.fetchCallGraphNode id rootNode)
        else seed Stmt.fetchCallGraphNode id rootNode) depth
    else [])

/-- The edges of a `DataFlow` run with their levels. -/
def dataFlowTagged (db : DB) (id : String) (depth : Nat) (direction : String)
    (root : DataFlowNode) : List (Nat × DataFlowEdge) :=
  if direction = "forward" then
    taggedEdges (dfgForwardPass db) id (seed Stmt.fetchDFGNode id root) depth
  else if direction = "backward" then
    taggedEdges (dfgBackwardPass db) id (seed Stmt.fetchDFGNode id root) depth
  else if direction = "both" then
    taggedEdges (dfgForwardPass db) id (seed Stmt.fetchDFGNode id root) depth ++
      taggedEdges (dfgBackwardPass db) id
        (bfsDFGForward db id depth (seed Stmt.fetchDFGNode id root)) depth
  else []

/-- The depth `CallGraph` passes to the traversal (callgraph.go 18-24). -/
def callGraphDepth (atoi : String → Option Int) (r : Request) : Int :=
  clampDepth (queryInt atoi r.depth 2) 1 5

/-- The depth `DataFlow` passes to the traversal (dataflow.go 18-24). -/
def dataFlowDepth (atoi : String → Option Int) (r : Request) : Int :=
  clampDepth (queryInt atoi r.depth 3) 1 6

/-- The store of the scenario `f1 → f2 → f3` with the complexities 5, 2 and 9. -/
def scenarioDB : DB :=
  { nodes := [fnRow "f1", fnRow "f2", fnRow "f3"]
    edges := [callEdge "f1" "f2", callEdge "f2" "f3"]
    metrics :=
      [{ function_id := "f1", cyclomatic_complexity := some 5, fan_in := none, fan_out := none },
       { function_id := "f2", cyclomatic_complexity := some 2, fan_in := none, fan_out := none },
       { function_id := "f3", cyclomatic_complexity := some 9, fan_in := none, fan_out := none }]
    queryErr := fun _ _ => false
    rowsErr := fun _ _ => none }

/-- The call-graph node of the scenario store for `id`, with its complexity. -/
def scenarioNode (id : String) (complexity : Int) (isRoot : Bool) (depth : Nat) :
    CallGraphNode :=
  { ID := id, Label := id, Package := "", File := "", Line := 0, Complexity := complexity,
    FanIn := 0, FanOut := 0, IsRoot := isRoot, Depth := depth }

/-- The diamond `A → B → D`, `A → C → D` of call edges. -/
def diamondDB : DB :=
  { nodes := [fnRow "A", fnRow "B", fnRow "C", fnRow "D"]
    edges := [callEdge "A" "B", callEdge "B" "D", callEdge "A" "C", callEdge "C" "D"]
    metrics := []
    queryErr := fun _ _ => false
    rowsErr := fun _ _ => none }

/-- Both endpoints of every recorded edge are keys of the node map. -/
def EdgesClosed {ν ε : Type} (src tgt : ε → String) (acc : Acc ν ε) : Prop :=
  ∀ e ∈ acc.edges, src e ∈ NodeMap.keys acc.nodeMap ∧ tgt e ∈ NodeMap.keys acc.nodeMap

/-! ## Notions for the failure of a neighbour statement -/

/-- The two conditional passes of `CallGraph` (callgraph.go 42-50) over any
two passes in place of `bfsCallees` and `bfsCallers`. -/
def callGraphPassesWith (pOut pIn : Pass CallRow CallGraphNode CallGraphEdge) (id : String)
    (depth : Nat) (direction : String) (acc : Acc CallGraphNode CallGraphEdge) :
    Acc CallGraphNode CallGraphEdge :=
  let acc1 := if direction = "callees" ∨ direction = "both" then bfsPass pOut id depth acc
    else acc
  if direction = "callers" ∨ direction = "both" then bfsPass pIn id depth acc1 else acc1

/-- `CallGraph` from the seeding on (callgraph.go 31-57) for a given outcome of
the root fetch and any two passes. -/
def callGraphTraverseWith (rootNode : Option CallGraphNode)
    (pOut pIn : Pass CallRow CallGraphNode CallGraphEdge) (id : String) (depth : Nat)
    (direction : String) : Response CallGraphNode CallGraphEdge × List (Stmt × String) :=
  match rootNode with
  | none => (Response.error "function not found" 404, [(Stmt.fetchCallGraphNode, id)])
  | some rn =>
    let acc := callGraphPassesWith pOut pIn id depth direction
      (seed Stmt.fetchCallGraphNode id rn)
    (Response.graph acc.nodeMap.values acc.edges, acc.log)

/-- The `switch direction` of `DataFlow` (dataflow.go 42-50) over any two
passes in place of `bfsDFGForward` and `bfsDFGBackward`. -/
def dataFlowPassesWith (pOut pIn : Pass DFGRow DataFlowNode DataFlowEdge) (id : String)
    (depth : Nat) (direction : String) (acc : Acc DataFlowNode DataFlowEdge) :
    Acc DataFlowNode DataFlowEdge :=
  if direction = "forward" then bfsPass pOut id depth acc
  else if direction = "backward" then bfsPass pIn id depth acc
  else if direction = "both" then bfsPass pIn id depth (bfsPass pOut id depth acc)
  else acc

/-- `DataFlow` from the seeding on (dataflow.go 31-57) for a given outcome of
the root fetch and any two passes. -/
def dataFlowTraverseWith (root : Option DataFlowNode)
    (pOut pIn : Pass DFGRow DataFlowNode DataFlowEdge) (id : String) (depth : Nat)
    (direction : String) : Response DataFlowNode DataFlowEdge × List (Stmt × String) :=
  match root with
  | none => (Response.error "node not found" 404, [(Stmt.fetchDFGNode, id)])
  | some rn =>
    let acc := dataFlowPassesWith pOut pIn id depth direction (seed Stmt.fetchDFGNode id rn)
    (Response.graph acc.nodeMap.values acc.edges, acc.log)

/-- An error occurs while `u` is expanded with statement `stmt`: `db.Query`
returns one, or `rows.Next()` ends on one. -/
def expansionFails (db : DB) (stmt : Stmt) (u : String) : Bool :=
  db.queryErr stmt u || (db.rowsErr stmt u).isSome

/-- The pass in which every node whose expansion meets an error, of either
kind, has no neighbours. -/
def silenced {ρ ν ε : Type} (db : DB) (p : Pass ρ ν ε) : Pass ρ ν ε :=
  { p with query := fun u => if expansionFails db p.stmt u then some [] else p.query u }

/-- Every node of every frontier of the levels `1 … maxDepth` of a pass started
on `acc0` has been queried, and every row it returned has its edge among
`edges` and its identifier among `ids`. -/
def Expands {ρ ν ε : Type} (p : Pass ρ ν ε) (root : String) (acc0 : Acc ν ε) (maxDepth : Nat)
    (ids : List String) (edges : List ε) (log : List (Stmt × String)) : Prop :=
  ∀ d, 1 ≤ d → d ≤ maxDepth → ∀ v ∈ frontierAt p root acc0 d,
    (p.stmt, v) ∈ log ∧
      ∀ r ∈ rowsOf p v, p.mkEdge v (p.rowID r) ∈ edges ∧ p.rowID r ∈ ids

/-- The store `R → A`, `R → C`, `A → C`, `C → D` in which `db.Query` returns an
error for the callees statement of `A`, and for nothing else. -/
def lostQueryDB : DB :=
  { nodes := [fnRow "R", fnRow "A", fnRow "C", fnRow "D"]
    edges := [callEdge "R" "A", callEdge "R" "C", callEdge "A" "C", callEdge "C" "D"]
    metrics := []
    queryErr := fun s u => decide (s = Stmt.callees) && u == "A"
    rowsErr := fun _ _ => none }

/-- The store of `lostQueryDB` without the call edge leaving `A` and without
failure. -/
def lostQueryPrunedDB : DB :=
  { nodes := [fnRow "R", fnRow "A", fnRow "C", fnRow "D"]
    edges := [callEdge "R" "A", callEdge "R" "C", callEdge "C" "D"]
    metrics := []
    queryErr := fun _ _ => false
    rowsErr := fun _ _ => none }

/-- The store `R → A`, `A → B`, `A → C` in which reading the rows of the callees
statement of `A` ends on an error after one row. -/
def brokenReadDB : DB :=
  { nodes := [fnRow "R", fnRow "A", fnRow "B", fnRow "C"]
    edges := [callEdge "R" "A", callEdge "A" "B", callEdge "A" "C"]
    metrics := []
    queryErr := fun _ _ => false
    rowsErr := fun s u => if decide (s = Stmt.callees) && u == "A" then some 1 else none }

/-- The store of `brokenReadDB` in which `A` has no neighbours, and nothing
fails. -/
def brokenReadPrunedDB : DB :=
  { nodes := [fnRow "R", fnRow "A", fnRow "B", fnRow "C"]
    edges := [callEdge "R" "A"]
    metrics := []
    queryErr := fun _ _ => false
    rowsErr := fun _ _ => none }

/-- The store that is identical to `db` except that the nodes for which
`db.Query` fails on statement `stmt` have no neighbours in the direction of
that statement (no edge of kind `kind` has them at its `near` end), and that
statement no longer fails. -/
def withoutFailed (db : DB) (stmt : Stmt) (near : EdgeRow → String) (kind : String) : DB :=
  { db with
    edges := db.edges.filter fun e => !(db.queryErr stmt (near e) && e.kind == kind)
    queryErr := fun s u => if s = stmt then false else db.queryErr s u }

section Theorems

variable {ρ ν ε : Type}

/-! ## Lemmas -/

theorem NodeMap.find_nil (k : String) : NodeMap.find ([] : NodeMap ν) k = none := rfl

theorem NodeMap.find_cons (k' : String) (v : ν) (rest : NodeMap ν) (k : String) :
    NodeMap.find ((k', v) :: rest) k = if k' = k then some v else NodeMap.find rest k := rfl

theorem NodeMap.find_append (m1 m2 : NodeMap ν) (k : String) :
    NodeMap.find (m1 ++ m2) k = (NodeMap.find m1 k).orElse fun _ => NodeMap.find m2 k := by
  induction m1 with
  | nil => simp [NodeMap.find_nil]
  | cons hd tl ih =>
    obtain ⟨k', v⟩ := hd
    simp only [List.cons_append, NodeMap.find_cons]
    split
    · simp
    · exact ih

theorem NodeMap.find_eq_none_iff (m : NodeMap ν) (k : String) :
    NodeMap.find m k = none ↔ k ∉ NodeMap.keys m := by
  induction m with
  | nil => simp [NodeMap.find_nil, NodeMap.keys]
  | cons hd tl ih =>
    obtain ⟨k', v⟩ := hd
    simp only [NodeMap.find_cons, NodeMap.keys, List.map_cons, List.mem_cons, not_or]
    by_cases h : k' = k
    · simp [h]
    · simp only [h, if_false]
      rw [ih]
      simp only [NodeMap.keys]
      constructor
      · intro h1
        exact ⟨fun h2 => h h2.symm, h1⟩
      · intro h1
        exact h1.2

theorem NodeMap.has_iff (m : NodeMap ν) (k : String) :
    NodeMap.has m k = true ↔ k ∈ NodeMap.keys m := by
  unfold NodeMap.has
  rw [Option.isSome_iff_ne_none, Ne, NodeMap.find_eq_none_iff, not_not]

theorem NodeMap.find_some_mem (m : NodeMap ν) (k : String) (v : ν)
    (h : NodeMap.find m k = some v) : (k, v) ∈ m := by
  induction m with
  | nil => simp [NodeMap.find_nil] at h
  | cons hd tl ih =>
    obtain ⟨k', v'⟩ := hd
    rw [NodeMap.find_cons] at h
    by_cases hk : k' = k
    · simp only [hk, if_true, Option.some.injEq] at h
      simp [hk, h]
    · simp only [hk, if_false] at h
      exact List.mem_cons_of_mem _ (ih h)

theorem NodeMap.find_of_mem (m : NodeMap ν) (hnd : (NodeMap.keys m).Nodup) (k : String) (v : ν)
    (h : (k, v) ∈ m) : NodeMap.find m k = some v := by
  induction m with
  | nil => simp at h
  | cons hd tl ih =>
    obtain ⟨k', v'⟩ := hd
    simp only [NodeMap.keys, List.map_cons, List.nodup_cons] at hnd
    rw [NodeMap.find_cons]
    rcases List.mem_cons.1 h with h1 | h1
    · simp only [Prod.mk.injEq] at h1
      simp [h1.1, h1.2]
    · have hne : k' ≠ k := by
        intro e
        apply hnd.1
        rw [e]
        exact List.mem_map.2 ⟨(k, v), h1, rfl⟩
      simp only [hne, if_false]
      exact ih hnd.2 h1

theorem NodeMap.mem_values_iff (m : NodeMap ν) (hnd : (NodeMap.keys m).Nodup) (n : ν) :
    n ∈ NodeMap.values m ↔ ∃ k, NodeMap.find m k = some n := by
  constructor
  · intro h
    obtain ⟨⟨k, v⟩, hm, hv⟩ := List.mem_map.1 h
    simp only at hv
    subst hv
    exact ⟨k, NodeMap.find_of_mem m hnd k v hm⟩
  · rintro ⟨k, hk⟩
    exact List.mem_map.2 ⟨(k, n), NodeMap.find_some_mem m k n hk, rfl⟩

theorem NodeMap.set_of_not_has (m : NodeMap ν) (k : String) (v : ν)
    (h : NodeMap.has m k = false) : NodeMap.set m k v = m ++ [(k, v)] := by
  unfold NodeMap.set
  congr 1
  rw [List.filter_eq_self]
  intro p hp
  have hk : k ∉ NodeMap.keys m := by
    rw [← NodeMap.has_iff]
    simp [h]
  have : p.1 ≠ k := by
    intro e
    apply hk
    rw [← e]
    exact List.mem_map.2 ⟨p, hp, rfl⟩
  simpa using this

theorem NodeMap.keys_append (m1 m2 : NodeMap ν) :
    NodeMap.keys (m1 ++ m2) = NodeMap.keys m1 ++ NodeMap.keys m2 := by
  simp [NodeMap.keys]

theorem newEntries_append (p : Pass ρ ν ε) (d : Nat) (r1 r2 : List ρ) (m : NodeMap ν) :
    newEntries p d (r1 ++ r2) m
      = newEntries p d r1 m ++ newEntries p d r2 (m ++ newEntries p d r1 m) := by
  induction r1 generalizing m with
  | nil => simp [newEntries]
  | cons r rs ih =>
    simp only [List.cons_append, newEntries, List.append_eq]
    split
    · exact ih m
    · rw [ih]
      simp

theorem scanRows_eq (p : Pass ρ ν ε) (u : String) (d : Nat) (rows : List ρ)
    (acc : Acc ν ε) (next : List String) :
    scanRows p u d rows (acc, next)
      = ({ nodeMap := acc.nodeMap ++ newEntries p d rows acc.nodeMap
           edges := acc.edges ++ rows.map (fun r => p.mkEdge u (p.rowID r))
           log := acc.log },
         next ++ NodeMap.keys (newEntries p d rows acc.nodeMap)) := by
  induction rows generalizing acc next with
  | nil => simp [scanRows, newEntries, NodeMap.keys]
  | cons r rs ih =>
    simp only [scanRows, newEntries]
    by_cases h : NodeMap.has acc.nodeMap (p.rowID r) = true
    · simp only [h, if_true]
      rw [ih]
      simp
    · have h' : NodeMap.has acc.nodeMap (p.rowID r) = false := by simpa using h
      simp only [h', Bool.false_eq_true, if_false]
      rw [ih, NodeMap.set_of_not_has _ _ _ h']
      simp [NodeMap.keys]

theorem expandFrontier_eq (p : Pass ρ ν ε) (d : Nat) (frontier : List String)
    (acc : Acc ν ε) (next : List String) :
    expandFrontier p d frontier (acc, next)
      = ({ nodeMap := acc.nodeMap ++ newEntries p d (levelRows p frontier) acc.nodeMap
           edges := acc.edges ++ frontier.flatMap (edgesOf p)
           log := acc.log ++ frontier.map (fun u => (p.stmt, u)) },
         next ++ NodeMap.keys (newEntries p d (levelRows p frontier) acc.nodeMap)) := by
  induction frontier generalizing acc next with
  | nil => simp [expandFrontier, levelRows, newEntries, NodeMap.keys]
  | cons u us ih =>
    simp only [expandFrontier]
    cases hq : p.query u with
    | none =>
      simp only
      rw [ih]
      simp [levelRows, edgesOf, rowsOf, hq]
    | some rows =>
      simp only
      rw [scanRows_eq, ih]
      simp [levelRows, edgesOf, rowsOf, hq, newEntries_append, NodeMap.keys]

/-- Every new entry comes from a returned row and carries level `d`. -/
theorem newEntries_mem (p : Pass ρ ν ε) (d : Nat) (rows : List ρ) (m : NodeMap ν)
    (k : String) (n : ν) (h : (k, n) ∈ newEntries p d rows m) :
    ∃ r ∈ rows, p.rowID r = k ∧ n = p.mkNode r d := by
  induction rows generalizing m with
  | nil => simp [newEntries] at h
  | cons r rs ih =>
    simp only [newEntries] at h
    split at h
    · obtain ⟨r', hr', h1⟩ := ih m h
      exact ⟨r', List.mem_cons_of_mem _ hr', h1⟩
    · rcases List.mem_cons.1 h with h1 | h1
      · simp only [Prod.mk.injEq] at h1
        exact ⟨r, List.mem_cons_self _ _, h1.1.symm, h1.2⟩
      · obtain ⟨r', hr', h2⟩ := ih _ h1
        exact ⟨r', List.mem_cons_of_mem _ hr', h2⟩

/-- New keys are not keys of the map they extend. -/
theorem newEntries_fresh (p : Pass ρ ν ε) (d : Nat) (rows : List ρ) (m : NodeMap ν)
    (k : String) (h : k ∈ NodeMap.keys (newEntries p d rows m)) : k ∉ NodeMap.keys m := by
  induction rows generalizing m with
  | nil => simp [newEntries, NodeMap.keys] at h
  | cons r rs ih =>
    simp only [newEntries] at h
    split at h
    · exact ih m h
    · rename_i hh
      simp only [NodeMap.keys, List.map_cons, List.mem_cons] at h
      rcases h with h1 | h1
      · rw [h1, ← NodeMap.has_iff]
        exact hh
      · have := ih _ h1
        rw [NodeMap.keys_append] at this
        exact fun hk => this (List.mem_append_left _ hk)

theorem newEntries_nodup (p : Pass ρ ν ε) (d : Nat) (rows : List ρ) (m : NodeMap ν) :
    (NodeMap.keys (newEntries p d rows m)).Nodup := by
  induction rows generalizing m with
  | nil => simp [newEntries, NodeMap.keys]
  | cons r rs ih =>
    simp only [newEntries]
    split
    · exact ih m
    · simp only [NodeMap.keys, List.map_cons, List.nodup_cons]
      refine ⟨?_, ih _⟩
      intro hk
      have := newEntries_fresh p d rs _ _ hk
      rw [NodeMap.keys_append] at this
      exact this (List.mem_append_right _ (by simp [NodeMap.keys]))

/-- After a level every returned identifier is a key of the map. -/
theorem newEntries_covers (p : Pass ρ ν ε) (d : Nat) (rows : List ρ) (m : NodeMap ν)
    (r : ρ) (h : r ∈ rows) :
    p.rowID r ∈ NodeMap.keys (m ++ newEntries p d rows m) := by
  induction rows generalizing m with
  | nil => simp at h
  | cons r' rs ih =>
    simp only [newEntries]
    rcases List.mem_cons.1 h with h1 | h1
    · subst h1
      split
      · rename_i hh
        rw [NodeMap.keys_append]
        exact List.mem_append_left _ ((NodeMap.has_iff _ _).1 hh)
      · simp [NodeMap.keys]
    · split
      · exact ih m h1
      · have := ih (m ++ [(p.rowID r', p.mkNode r' d)]) h1
        simpa using this

theorem mem_newEntries_keys_iff (p : Pass ρ ν ε) (d : Nat) (rows : List ρ) (m : NodeMap ν)
    (k : String) :
    k ∈ NodeMap.keys (newEntries p d rows m)
      ↔ k ∉ NodeMap.keys m ∧ k ∈ rows.map p.rowID := by
  constructor
  · intro h
    refine ⟨newEntries_fresh p d rows m k h, ?_⟩
    obtain ⟨⟨k', n⟩, hm, hk⟩ := List.mem_map.1 h
    simp only at hk
    subst hk
    obtain ⟨r, hr, h1, _⟩ := newEntries_mem p d rows m k' n hm
    exact List.mem_map.2 ⟨r, hr, h1⟩
  · rintro ⟨h1, h2⟩
    obtain ⟨r, hr, hk⟩ := List.mem_map.1 h2
    have := newEntries_covers p d rows m r hr
    rw [hk, NodeMap.keys_append] at this
    rcases List.mem_append.1 this with h3 | h3
    · exact absurd h3 h1
    · exact h3

theorem mem_levelRows (p : Pass ρ ν ε) (frontier : List String) (r : ρ) :
    r ∈ levelRows p frontier ↔ ∃ u ∈ frontier, r ∈ rowsOf p u := by
  simp [levelRows, List.mem_flatMap]

theorem expandFrontier_levelStep (p : Pass ρ ν ε) (d : Nat) (frontier : List String)
    (acc : Acc ν ε) :
    expandFrontier p d frontier (acc, [])
      = ((levelStep p d frontier acc).2, (levelStep p d frontier acc).1) := by
  rw [expandFrontier_eq]
  simp [levelStep]

theorem levelStep_nil (p : Pass ρ ν ε) (d : Nat) (acc : Acc ν ε) :
    levelStep p d [] acc = ([], acc) := by
  simp [levelStep, levelRows, newEntries, NodeMap.keys]

theorem bfsLevels_nil (p : Pass ρ ν ε) (n d : Nat) (acc : Acc ν ε) :
    bfsLevels p n d [] acc = ([], acc) := by
  induction n generalizing d with
  | zero => rfl
  | succ n ih => simp [bfsLevels, levelStep_nil, ih]

/-- With enough fuel the loop is the iteration of the remaining levels. -/
theorem bfsLoop_eq_bfsLevels (p : Pass ρ ν ε) (maxDepth fuel d : Nat) (frontier : List String)
    (acc : Acc ν ε) (hfuel : maxDepth + 1 ≤ d + fuel) :
    bfsLoop p maxDepth fuel d frontier acc
      = (bfsLevels p (maxDepth + 1 - d) d frontier acc).2 := by
  induction fuel generalizing d frontier acc with
  | zero =>
    have h0 : maxDepth + 1 - d = 0 := by omega
    simp [bfsLoop, h0, bfsLevels]
  | succ fuel ih =>
    simp only [bfsLoop]
    split
    · rename_i hc
      have h1 : maxDepth + 1 - d = (maxDepth + 1 - (d + 1)) + 1 := by omega
      rw [h1, bfsLevels, expandFrontier_levelStep]
      exact ih (d + 1) _ _ (by omega)
    · rename_i hc
      by_cases hd : d ≤ maxDepth
      · have hf : frontier = [] := by
          by_contra hne
          exact hc ⟨hd, hne⟩
        subst hf
        rw [bfsLevels_nil]
      · have h0 : maxDepth + 1 - d = 0 := by omega
        simp [h0, bfsLevels]

theorem bfsPass_eq_bfsLevels (p : Pass ρ ν ε) (rootID : String) (maxDepth : Nat)
    (acc : Acc ν ε) :
    bfsPass p rootID maxDepth acc = (bfsLevels p maxDepth 1 [rootID] acc).2 := by
  unfold bfsPass
  rw [bfsLoop_eq_bfsLevels p maxDepth maxDepth 1 [rootID] acc (by omega)]
  simp

/-- Induction over the levels of a pass. -/
theorem bfsLevels_induct (p : Pass ρ ν ε) (Inv : Nat → List String → Acc ν ε → Prop)
    (step : ∀ d frontier acc, Inv d frontier acc →
      Inv (d + 1) (levelStep p d frontier acc).1 (levelStep p d frontier acc).2)
    (n d : Nat) (frontier : List String) (acc : Acc ν ε) (h : Inv d frontier acc) :
    Inv (d + n) (bfsLevels p n d frontier acc).1 (bfsLevels p n d frontier acc).2 := by
  induction n generalizing d frontier acc with
  | zero => simpa [bfsLevels] using h
  | succ n ih =>
    have := ih (d + 1) _ _ (step d frontier acc h)
    rw [bfsLevels]
    have e : d + (n + 1) = d + 1 + n := by omega
    rw [e]
    exact this

/-- Lookup in the map after a level: old entries stay, new ones carry a
returned row at this level. -/
theorem levelStep_find (p : Pass ρ ν ε) (d : Nat) (frontier : List String) (acc : Acc ν ε)
    (k : String) (n : ν)
    (h : NodeMap.find (levelStep p d frontier acc).2.nodeMap k = some n) :
    NodeMap.find acc.nodeMap k = some n ∨
      (NodeMap.find acc.nodeMap k = none ∧
        ∃ u ∈ frontier, ∃ r ∈ rowsOf p u, p.rowID r = k ∧ n = p.mkNode r d) := by
  simp only [levelStep, NodeMap.find_append] at h
  cases hm : NodeMap.find acc.nodeMap k with
  | some v =>
    rw [hm] at h
    left
    simpa using h
  | none =>
    rw [hm] at h
    right
    refine ⟨rfl, ?_⟩
    simp only [Option.orElse] at h
    obtain ⟨r, hr, h1, h2⟩ := newEntries_mem p d _ _ k n (NodeMap.find_some_mem _ _ _ h)
    obtain ⟨u, hu, hru⟩ := (mem_levelRows p frontier r).1 hr
    exact ⟨u, hu, r, hru, h1, h2⟩

/-- Old entries are never overwritten by a level. -/
theorem levelStep_find_old (p : Pass ρ ν ε) (d : Nat) (frontier : List String) (acc : Acc ν ε)
    (k : String) (n : ν) (h : NodeMap.find acc.nodeMap k = some n) :
    NodeMap.find (levelStep p d frontier acc).2.nodeMap k = some n := by
  simp [levelStep, NodeMap.find_append, h]

/-- Every identifier returned at a level is in the map afterwards. -/
theorem levelStep_covers (p : Pass ρ ν ε) (d : Nat) (frontier : List String) (acc : Acc ν ε)
    (u : String) (hu : u ∈ frontier) (r : ρ) (hr : r ∈ rowsOf p u) :
    ∃ n, NodeMap.find (levelStep p d frontier acc).2.nodeMap (p.rowID r) = some n := by
  have h1 := newEntries_covers p d (levelRows p frontier) acc.nodeMap r
    ((mem_levelRows p frontier r).2 ⟨u, hu, hr⟩)
  have h2 : NodeMap.find (levelStep p d frontier acc).2.nodeMap (p.rowID r) ≠ none := by
    rw [Ne, NodeMap.find_eq_none_iff, not_not]
    exact h1
  exact Option.ne_none_iff_exists'.1 h2

/-- The next frontier consists of the keys added at this level. -/
theorem levelStep_frontier (p : Pass ρ ν ε) (d : Nat) (frontier : List String) (acc : Acc ν ε)
    (k : String) (hk : k ∈ (levelStep p d frontier acc).1) :
    NodeMap.find acc.nodeMap k = none ∧
      ∃ u ∈ frontier, ∃ r ∈ rowsOf p u, p.rowID r = k ∧
        NodeMap.find (levelStep p d frontier acc).2.nodeMap k = some (p.mkNode r d) := by
  have hfresh := newEntries_fresh p d _ _ k hk
  have hnone : NodeMap.find acc.nodeMap k = none := (NodeMap.find_eq_none_iff _ _).2 hfresh
  refine ⟨hnone, ?_⟩
  have h2 : NodeMap.find (levelStep p d frontier acc).2.nodeMap k ≠ none := by
    rw [Ne, NodeMap.find_eq_none_iff, not_not]
    simp only [levelStep, NodeMap.keys_append]
    exact List.mem_append_right _ hk
  obtain ⟨n, hn⟩ := Option.ne_none_iff_exists'.1 h2
  rcases levelStep_find p d frontier acc k n hn with h3 | ⟨_, u, hu, r, hr, h4, h5⟩
  · rw [hnone] at h3
    cases h3
  · exact ⟨u, hu, r, hr, h4, by rw [hn, h5]⟩

theorem levelStep_edges (p : Pass ρ ν ε) (d : Nat) (frontier : List String) (acc : Acc ν ε)
    (e : ε) (he : e ∈ (levelStep p d frontier acc).2.edges) :
    e ∈ acc.edges ∨ ∃ u ∈ frontier, ∃ r ∈ rowsOf p u, e = p.mkEdge u (p.rowID r) := by
  simp only [levelStep, List.mem_append, List.mem_flatMap, edgesOf, List.mem_map] at he
  rcases he with h | ⟨u, hu, r, hr, h⟩
  · exact Or.inl h
  · exact Or.inr ⟨u, hu, r, hr, h.symm⟩

theorem levelStep_edges_new (p : Pass ρ ν ε) (d : Nat) (frontier : List String) (acc : Acc ν ε)
    (u : String) (hu : u ∈ frontier) (r : ρ) (hr : r ∈ rowsOf p u) :
    p.mkEdge u (p.rowID r) ∈ (levelStep p d frontier acc).2.edges := by
  simp only [levelStep, List.mem_append, List.mem_flatMap, edgesOf, List.mem_map]
  exact Or.inr ⟨u, hu, r, hr, rfl⟩

theorem levelStep_edges_old (p : Pass ρ ν ε) (d : Nat) (frontier : List String) (acc : Acc ν ε)
    (e : ε) (he : e ∈ acc.edges) : e ∈ (levelStep p d frontier acc).2.edges := by
  simp only [levelStep, List.mem_append]
  exact Or.inl he

theorem levelStep_WF (p : Pass ρ ν ε) (nodeID : ν → String)
    (hid : ∀ r d, nodeID (p.mkNode r d) = p.rowID r) (d : Nat) (frontier : List String)
    (acc : Acc ν ε) (h : Acc.WF nodeID acc) :
    Acc.WF nodeID (levelStep p d frontier acc).2 := by
  refine ⟨?_, ?_⟩
  · simp only [levelStep, NodeMap.keys_append]
    refine List.nodup_append.2 ⟨h.1, newEntries_nodup p d _ _, ?_⟩
    intro k hk1 hk2
    exact newEntries_fresh p d _ _ k hk2 hk1
  · intro k n hf
    rcases levelStep_find p d frontier acc k n hf with h1 | ⟨_, u, _, r, _, h2, h3⟩
    · exact h.2 k n h1
    · rw [h3, hid, h2]

theorem bfsPass_WF (p : Pass ρ ν ε) (nodeID : ν → String)
    (hid : ∀ r d, nodeID (p.mkNode r d) = p.rowID r) (rootID : String) (maxDepth : Nat)
    (acc : Acc ν ε) (h : Acc.WF nodeID acc) :
    Acc.WF nodeID (bfsPass p rootID maxDepth acc) := by
  rw [bfsPass_eq_bfsLevels]
  exact bfsLevels_induct p (fun _ _ a => Acc.WF nodeID a)
    (fun d fr a ha => levelStep_WF p nodeID hid d fr a ha) maxDepth 1 [rootID] acc h

theorem seed_nodeMap (stmt : Stmt) (id : String) (rootNode : ν) :
    (seed stmt id rootNode : Acc ν ε).nodeMap = [(id, rootNode)] := rfl

theorem seed_WF (nodeID : ν → String) (stmt : Stmt) (id : String) (rootNode : ν)
    (h : nodeID rootNode = id) : Acc.WF nodeID (seed stmt id rootNode : Acc ν ε) := by
  refine ⟨by simp [seed_nodeMap, NodeMap.keys], ?_⟩
  intro k n hf
  rw [seed_nodeMap, NodeMap.find_cons] at hf
  by_cases hk : id = k
  · simp only [hk, if_true, Option.some.injEq] at hf
    rw [← hf, h, hk]
  · simp [hk, NodeMap.find_nil] at hf

theorem callGraph_seed_WF (id : String) (rn : CallGraphNode) (h : rn.ID = id) :
    Acc.WF CallGraphNode.ID
      (seed Stmt.fetchCallGraphNode id rn : Acc CallGraphNode CallGraphEdge) :=
  seed_WF CallGraphNode.ID Stmt.fetchCallGraphNode id rn h

theorem dataFlow_seed_WF (id : String) (rn : DataFlowNode) (h : rn.ID = id) :
    Acc.WF DataFlowNode.ID (seed Stmt.fetchDFGNode id rn : Acc DataFlowNode DataFlowEdge) :=
  seed_WF DataFlowNode.ID Stmt.fetchDFGNode id rn h

theorem fetchCallGraphNode_some (db : DB) (id : String) (depth : Nat) (isRoot : Bool)
    (n : CallGraphNode) (h : fetchCallGraphNode db id depth isRoot = some n) :
    n.ID = id ∧ n.Depth = depth ∧ n.IsRoot = isRoot := by
  unfold fetchCallGraphNode at h
  split at h
  · cases h
  · split at h
    · cases h
    · simp only [Option.some.injEq] at h
      subst h
      exact ⟨rfl, rfl, rfl⟩

theorem fetchDFGNode_some (db : DB) (id : String) (depth : Nat)
    (n : DataFlowNode) (h : fetchDFGNode db id depth = some n) :
    n.ID = id ∧ n.Depth = depth := by
  unfold fetchDFGNode at h
  split at h
  · cases h
  · split at h
    · cases h
    · simp only [Option.some.injEq] at h
      subst h
      exact ⟨rfl, rfl⟩

/-- A property kept by both call-graph passes is kept by `CallGraph` whatever
the direction. -/
theorem callGraphPasses_keeps (db : DB) (id : String) (depth : Nat) (direction : String)
    (P : Acc CallGraphNode CallGraphEdge → Prop)
    (h1 : ∀ acc, P acc → P (bfsCallees db id depth acc))
    (h2 : ∀ acc, P acc → P (bfsCallers db id depth acc))
    (acc : Acc CallGraphNode CallGraphEdge) (h : P acc) :
    P (callGraphPasses db id depth direction acc) := by
  unfold callGraphPasses
  by_cases c1 : direction = "callees" ∨ direction = "both" <;>
    by_cases c2 : direction = "callers" ∨ direction = "both" <;>
    simp only [c1, c2, if_true, if_false]
  · exact h2 _ (h1 _ h)
  · exact h1 _ h
  · exact h2 _ h
  · exact h

/-- A property kept by both data-flow passes is kept by `DataFlow` whatever the
direction. -/
theorem dataFlowPasses_keeps (db : DB) (id : String) (depth : Nat) (direction : String)
    (P : Acc DataFlowNode DataFlowEdge → Prop)
    (h1 : ∀ acc, P acc → P (bfsDFGForward db id depth acc))
    (h2 : ∀ acc, P acc → P (bfsDFGBackward db id depth acc))
    (acc : Acc DataFlowNode DataFlowEdge) (h : P acc) :
    P (dataFlowPasses db id depth direction acc) := by
  unfold dataFlowPasses
  split
  · exact h1 _ h
  · split
    · exact h2 _ h
    · split
      · exact h2 _ (h1 _ h)
      · exact h

theorem callGraphPasses_WF (db : DB) (id : String) (depth : Nat) (direction : String)
    (acc : Acc CallGraphNode CallGraphEdge) (h : Acc.WF CallGraphNode.ID acc) :
    Acc.WF CallGraphNode.ID (callGraphPasses db id depth direction acc) :=
  callGraphPasses_keeps db id depth direction (Acc.WF CallGraphNode.ID)
    (fun a ha => bfsPass_WF (calleesPass db) _ (fun _ _ => rfl) id depth a ha)
    (fun a ha => bfsPass_WF (callersPass db) _ (fun _ _ => rfl) id depth a ha) acc h

theorem dataFlowPasses_WF (db : DB) (id : String) (depth : Nat) (direction : String)
    (acc : Acc DataFlowNode DataFlowEdge) (h : Acc.WF DataFlowNode.ID acc) :
    Acc.WF DataFlowNode.ID (dataFlowPasses db id depth direction acc) :=
  dataFlowPasses_keeps db id depth direction (Acc.WF DataFlowNode.ID)
    (fun a ha => bfsPass_WF (dfgForwardPass db) _ (fun _ _ => rfl) id depth a ha)
    (fun a ha => bfsPass_WF (dfgBackwardPass db) _ (fun _ _ => rfl) id depth a ha) acc h

/-- A successful `CallGraph` answer is the flattened accumulator of the passes
run on the seeded root. -/
theorem callGraphTraverse_graph (db : DB) (id : String) (depth : Nat) (direction : String)
    (nodes : List CallGraphNode) (edges : List CallGraphEdge) (log : List (Stmt × String))
    (h : callGraphTraverse db id depth direction = (Response.graph nodes edges, log)) :
    ∃ rootNode, fetchCallGraphNode db id 0 true = some rootNode ∧
      nodes = NodeMap.values
        (callGraphPasses db id depth direction
          (seed Stmt.fetchCallGraphNode id rootNode)).nodeMap ∧
      edges = (callGraphPasses db id depth direction
          (seed Stmt.fetchCallGraphNode id rootNode)).edges ∧
      log = (callGraphPasses db id depth direction
          (seed Stmt.fetchCallGraphNode id rootNode)).log := by
  unfold callGraphTraverse at h
  split at h
  · simp at h
  · rename_i rootNode hf
    simp only [Prod.mk.injEq, Response.graph.injEq] at h
    exact ⟨rootNode, hf, h.1.1.symm, h.1.2.symm, h.2.symm⟩

/-- A successful `DataFlow` answer is the flattened accumulator of the passes
run on the seeded root. -/
theorem dataFlowTraverse_graph (db : DB) (id : String) (depth : Nat) (direction : String)
    (nodes : List DataFlowNode) (edges : List DataFlowEdge) (log : List (Stmt × String))
    (h : dataFlowTraverse db id depth direction = (Response.graph nodes edges, log)) :
    ∃ root, fetchDFGNode db id 0 = some root ∧
      nodes = NodeMap.values
        (dataFlowPasses db id depth direction (seed Stmt.fetchDFGNode id root)).nodeMap ∧
      edges = (dataFlowPasses db id depth direction (seed Stmt.fetchDFGNode id root)).edges ∧
      log = (dataFlowPasses db id depth direction (seed Stmt.fetchDFGNode id root)).log := by
  unfold dataFlowTraverse at h
  split at h
  · simp at h
  · rename_i root hf
    simp only [Prod.mk.injEq, Response.graph.injEq] at h
    exact ⟨root, hf, h.1.1.symm, h.1.2.symm, h.2.symm⟩

/-- In a well-formed accumulator the node list and the map hold the same
nodes, each under its identifier. -/
theorem mem_values_find {ν ε : Type} (nodeID : ν → String) (acc : Acc ν ε)
    (h : Acc.WF nodeID acc) (n : ν) :
    n ∈ NodeMap.values acc.nodeMap ↔ NodeMap.find acc.nodeMap (nodeID n) = some n := by
  rw [NodeMap.mem_values_iff _ h.1]
  constructor
  · rintro ⟨k, hk⟩
    rw [h.2 k n hk]
    exact hk
  · intro hk
    exact ⟨_, hk⟩

theorem chain_mono {origin dest : ε → String} {es es' : List ε} (hsub : ∀ e ∈ es, e ∈ es')
    {a b : String} {len : Nat} (h : Chain origin dest es a b len) :
    Chain origin dest es' a b len := by
  induction h with
  | nil => exact Chain.nil _
  | snoc e _ he ho hd ih => exact Chain.snoc e ih (hsub e he) ho hd

theorem minInv_step (p : Pass ρ ν ε) (origin dest : ε → String) (depthOf : ν → Nat)
    (ho : ∀ u v, origin (p.mkEdge u v) = u) (hd : ∀ u v, dest (p.mkEdge u v) = v)
    (hdep : ∀ r d, depthOf (p.mkNode r d) = d) (root : String)
    (d : Nat) (frontier : List String) (acc : Acc ν ε)
    (h : MinInv origin dest depthOf root d frontier acc) :
    MinInv origin dest depthOf root (d + 1) (levelStep p d frontier acc).1
      (levelStep p d frontier acc).2 := by
  obtain ⟨⟨rn, hrn, hrn0⟩, hb, hc, hd', he⟩ := h
  have hdepth : ∀ k n, NodeMap.find (levelStep p d frontier acc).2.nodeMap k = some n →
      depthOf n + 1 ≤ d + 1 := by
    intro k n hf
    rcases levelStep_find p d frontier acc k n hf with h1 | ⟨_, u, _, r, _, _, h3⟩
    · have := hb k n h1
      omega
    · rw [h3, hdep]
  refine ⟨⟨rn, levelStep_find_old p d frontier acc root rn hrn, hrn0⟩, hdepth, ?_, ?_, ?_⟩
  · intro u hu
    obtain ⟨_, u', _, r, _, _, hf⟩ := levelStep_frontier p d frontier acc u hu
    exact ⟨_, hf, by rw [hdep]⟩
  · intro e hmem
    rcases levelStep_edges p d frontier acc e hmem with h1 | ⟨u, hu, r, hr, h2⟩
    · obtain ⟨no, nd, h3, h4, h5⟩ := hd' e h1
      exact ⟨no, nd, levelStep_find_old p d frontier acc _ _ h3,
        levelStep_find_old p d frontier acc _ _ h4, h5⟩
    · obtain ⟨no, hno, hnod⟩ := hc u hu
      obtain ⟨nd, hnd⟩ := levelStep_covers p d frontier acc u hu r hr
      refine ⟨no, nd, ?_, ?_, ?_⟩
      · rw [h2, ho]
        exact levelStep_find_old p d frontier acc _ _ hno
      · rw [h2, hd]
        exact hnd
      · have := hdepth _ _ hnd
        omega
  · intro k n hf
    rcases levelStep_find p d frontier acc k n hf with h1 | ⟨_, u, hu, r, hr, h2, h3⟩
    · exact chain_mono (levelStep_edges_old p d frontier acc) (he k n h1)
    · obtain ⟨no, hno, hnod⟩ := hc u hu
      have hch := chain_mono (levelStep_edges_old p d frontier acc) (he u no hno)
      have hedge := levelStep_edges_new p d frontier acc u hu r hr
      have hstep : Chain origin dest (levelStep p d frontier acc).2.edges root k
          (depthOf no + 1) := Chain.snoc _ hch hedge (ho _ _) (by rw [hd, h2])
      rw [h3, hdep, ← hnod]
      exact hstep

/-- Along recorded edges the stored depth grows by at most one per hop. -/
theorem minInv_lower (origin dest : ε → String) (depthOf : ν → Nat) (root : String)
    (d : Nat) (frontier : List String) (acc : Acc ν ε)
    (h : MinInv origin dest depthOf root d frontier acc) (k : String) (l : Nat)
    (hch : Chain origin dest acc.edges root k l) :
    ∃ n, NodeMap.find acc.nodeMap k = some n ∧ depthOf n ≤ l := by
  obtain ⟨⟨rn, hrn, hrn0⟩, _, _, hd', _⟩ := h
  induction hch with
  | nil => exact ⟨rn, hrn, by omega⟩
  | snoc e _ hmem ho hd ih =>
    obtain ⟨n, hn, hnl⟩ := ih
    obtain ⟨no, nd, h1, h2, h3⟩ := hd' e hmem
    rw [ho, hn] at h1
    cases h1
    rw [hd] at h2
    exact ⟨nd, h2, by omega⟩

/-- BFS minimality of one pass run on the seeded root alone. -/
theorem bfsPass_shortest (p : Pass ρ ν ε) (origin dest : ε → String) (depthOf : ν → Nat)
    (ho : ∀ u v, origin (p.mkEdge u v) = u) (hd : ∀ u v, dest (p.mkEdge u v) = v)
    (hdep : ∀ r d, depthOf (p.mkNode r d) = d) (stmt : Stmt) (root : String) (rn : ν)
    (hrn : depthOf rn = 0) (maxDepth : Nat) (k : String) (n : ν)
    (hf : NodeMap.find (bfsPass p root maxDepth (seed stmt root rn)).nodeMap k = some n) :
    ShortestChain origin dest (bfsPass p root maxDepth (seed stmt root rn)).edges root k
      (depthOf n) := by
  have h0 : MinInv origin dest depthOf root 1 [root] (seed stmt root rn : Acc ν ε) := by
    have hfind : ∀ k n, NodeMap.find (seed stmt root rn : Acc ν ε).nodeMap k = some n →
        k = root ∧ n = rn := by
      intro k n h
      rw [seed_nodeMap, NodeMap.find_cons] at h
      by_cases hk : root = k
      · simp only [hk, if_true, Option.some.injEq] at h
        exact ⟨hk.symm ▸ rfl, h.symm⟩
      · simp [hk, NodeMap.find_nil] at h
    have hroot : NodeMap.find (seed stmt root rn : Acc ν ε).nodeMap root = some rn := by
      simp [seed_nodeMap, NodeMap.find_cons]
    refine ⟨⟨rn, hroot, hrn⟩, ?_, ?_, ?_, ?_⟩
    · intro k n h
      rw [(hfind k n h).2, hrn]
    · intro u hu
      simp only [List.mem_singleton] at hu
      exact ⟨rn, hu ▸ hroot, by rw [hrn]⟩
    · intro e he
      simp [seed] at he
    · intro k n h
      obtain ⟨h1, h2⟩ := hfind k n h
      rw [h1, h2, hrn]
      exact Chain.nil root
  have hinv := bfsLevels_induct p (MinInv origin dest depthOf root)
    (fun d fr a ha => minInv_step p origin dest depthOf ho hd hdep root d fr a ha)
    maxDepth 1 [root] _ h0
  rw [bfsPass_eq_bfsLevels] at hf ⊢
  refine ⟨hinv.2.2.2.2 k n hf, ?_⟩
  intro l hl
  obtain ⟨n', hn', hle⟩ := minInv_lower origin dest depthOf root _ _ _ hinv k l hl
  rw [hf] at hn'
  cases hn'
  exact hle

theorem parentInv_step (p : Pass ρ ν ε) (src tgt : ε → String) (depthOf : ν → Nat)
    (hconn : ∀ u v, Connects src tgt (p.mkEdge u v) v u)
    (hdep : ∀ r d, depthOf (p.mkNode r d) = d) (root : String)
    (d : Nat) (frontier : List String) (acc : Acc ν ε)
    (h : ParentInv src tgt depthOf root d frontier acc) :
    ParentInv src tgt depthOf root (d + 1) (levelStep p d frontier acc).1
      (levelStep p d frontier acc).2 := by
  obtain ⟨⟨⟨rn, hrn, hrn0⟩, hP⟩, hc⟩ := h
  refine ⟨⟨⟨rn, levelStep_find_old p d frontier acc root rn hrn, hrn0⟩, ?_⟩, ?_⟩
  · intro k n hf hk
    rcases levelStep_find p d frontier acc k n hf with h1 | ⟨_, u, hu, r, hr, h2, h3⟩
    · obtain ⟨e, he, k', n', h4, h5, h6⟩ := hP k n h1 hk
      exact ⟨e, levelStep_edges_old p d frontier acc e he, k', n',
        levelStep_find_old p d frontier acc _ _ h4, h5, h6⟩
    · obtain ⟨no, hno, hnod⟩ := hc u hu
      refine ⟨_, levelStep_edges_new p d frontier acc u hu r hr, u, no,
        levelStep_find_old p d frontier acc _ _ hno, ?_, ?_⟩
      · rw [h3, hdep]
        omega
      · rw [← h2]
        exact hconn u (p.rowID r)
  · intro u hu
    obtain ⟨_, u', _, r, _, _, hf⟩ := levelStep_frontier p d frontier acc u hu
    exact ⟨_, hf, by rw [hdep]⟩

theorem bfsPass_hasParents (p : Pass ρ ν ε) (src tgt : ε → String) (depthOf : ν → Nat)
    (hconn : ∀ u v, Connects src tgt (p.mkEdge u v) v u)
    (hdep : ∀ r d, depthOf (p.mkNode r d) = d) (root : String) (maxDepth : Nat)
    (acc : Acc ν ε) (h : HasParents src tgt depthOf root acc) :
    HasParents src tgt depthOf root (bfsPass p root maxDepth acc) := by
  rw [bfsPass_eq_bfsLevels]
  have h0 : ParentInv src tgt depthOf root 1 [root] acc := by
    refine ⟨h, ?_⟩
    intro u hu
    simp only [List.mem_singleton] at hu
    obtain ⟨rn, hrn, hrn0⟩ := h.1
    exact ⟨rn, hu ▸ hrn, by rw [hrn0]⟩
  exact (bfsLevels_induct p (ParentInv src tgt depthOf root)
    (fun d fr a ha => parentInv_step p src tgt depthOf hconn hdep root d fr a ha)
    maxDepth 1 [root] acc h0).1

theorem seed_find {ν ε : Type} (stmt : Stmt) (root : String) (rn : ν) (k : String) (n : ν)
    (h : NodeMap.find (seed stmt root rn : Acc ν ε).nodeMap k = some n) :
    k = root ∧ n = rn := by
  rw [seed_nodeMap, NodeMap.find_cons] at h
  by_cases hk : root = k
  · simp only [hk, if_true, Option.some.injEq] at h
    exact ⟨hk.symm ▸ rfl, h.symm⟩
  · simp [hk, NodeMap.find_nil] at h

theorem seed_find_root {ν ε : Type} (stmt : Stmt) (root : String) (rn : ν) :
    NodeMap.find (seed stmt root rn : Acc ν ε).nodeMap root = some rn := by
  simp [seed_nodeMap, NodeMap.find_cons]

theorem seed_hasParents (src tgt : ε → String) (depthOf : ν → Nat) (stmt : Stmt)
    (root : String) (rn : ν) (h : depthOf rn = 0) :
    HasParents src tgt depthOf root (seed stmt root rn : Acc ν ε) := by
  refine ⟨⟨rn, seed_find_root stmt root rn, h⟩, ?_⟩
  intro k n hf hk
  exact absurd (seed_find stmt root rn k n hf).1 hk

theorem bfsPass_rootKept (p : Pass ρ ν ε) (isRoot : ν → Bool) (depthOf : ν → Nat)
    (hflag : ∀ r d, isRoot (p.mkNode r d) = false)
    (hdep : ∀ r d, depthOf (p.mkNode r d) = d) (root : String) (rn : ν) (maxDepth : Nat)
    (acc : Acc ν ε) (h : RootKept isRoot depthOf root rn maxDepth acc) :
    RootKept isRoot depthOf root rn maxDepth (bfsPass p root maxDepth acc) := by
  rw [bfsPass_eq_bfsLevels]
  have key := bfsLevels_induct p
    (fun d _ a => 1 ≤ d ∧ NodeMap.find a.nodeMap root = some rn ∧
      ∀ k n, NodeMap.find a.nodeMap k = some n → k ≠ root →
        isRoot n = false ∧ 1 ≤ depthOf n ∧ (depthOf n ≤ maxDepth ∨ depthOf n + 1 ≤ d))
    (by
      intro d fr a ⟨hd1, hroot, hrest⟩
      refine ⟨by omega, levelStep_find_old p d fr a root rn hroot, ?_⟩
      intro k n hf hk
      rcases levelStep_find p d fr a k n hf with h1 | ⟨_, u, _, r, _, _, h3⟩
      · obtain ⟨h4, h5, h6⟩ := hrest k n h1 hk
        exact ⟨h4, h5, by omega⟩
      · rw [h3, hflag, hdep]
        exact ⟨rfl, hd1, Or.inr (le_refl _)⟩)
    maxDepth 1 [root] acc
    ⟨le_refl _, h.1, fun k n hf hk => ⟨(h.2 k n hf hk).1, (h.2 k n hf hk).2.1,
      Or.inl (h.2 k n hf hk).2.2⟩⟩
  refine ⟨key.2.1, ?_⟩
  intro k n hf hk
  obtain ⟨h4, h5, h6⟩ := key.2.2 k n hf hk
  exact ⟨h4, h5, by omega⟩

theorem callGraphPasses_rootKept (db : DB) (id : String) (depth : Nat) (direction : String) (rn : CallGraphNode)
    (_h : fetchCallGraphNode db id 0 true = some rn) :
    RootKept CallGraphNode.IsRoot CallGraphNode.Depth id rn depth
      (callGraphPasses db id depth direction (seed Stmt.fetchCallGraphNode id rn)) :=
  callGraphPasses_keeps db id depth direction
    (RootKept CallGraphNode.IsRoot CallGraphNode.Depth id rn depth)
    (fun a ha => bfsPass_rootKept (calleesPass db) _ _ (fun _ _ => rfl) (fun _ _ => rfl)
      id rn depth a ha)
    (fun a ha => bfsPass_rootKept (callersPass db) _ _ (fun _ _ => rfl) (fun _ _ => rfl)
      id rn depth a ha)
    (seed Stmt.fetchCallGraphNode id rn)
    ⟨seed_find_root _ id rn, fun k n hf hk => absurd (seed_find _ id rn k n hf).1 hk⟩

theorem dataFlowPasses_rootKept (db : DB) (id : String) (depth : Nat) (direction : String)
    (rn : DataFlowNode) :
    RootKept (fun _ => false) DataFlowNode.Depth id rn depth
      (dataFlowPasses db id depth direction (seed Stmt.fetchDFGNode id rn)) :=
  dataFlowPasses_keeps db id depth direction
    (RootKept (fun _ => false) DataFlowNode.Depth id rn depth)
    (fun a ha => bfsPass_rootKept (dfgForwardPass db) _ _ (fun _ _ => rfl) (fun _ _ => rfl)
      id rn depth a ha)
    (fun a ha => bfsPass_rootKept (dfgBackwardPass db) _ _ (fun _ _ => rfl) (fun _ _ => rfl)
      id rn depth a ha)
    (seed Stmt.fetchDFGNode id rn)
    ⟨seed_find_root _ id rn, fun k n hf hk => absurd (seed_find _ id rn k n hf).1 hk⟩

theorem bfsLevels_succ (p : Pass ρ ν ε) (n d : Nat) (frontier : List String) (acc : Acc ν ε) :
    bfsLevels p (n + 1) d frontier acc
      = levelStep p (d + n) (bfsLevels p n d frontier acc).1 (bfsLevels p n d frontier acc).2 := by
  induction n generalizing d frontier acc with
  | zero => rfl
  | succ n ih =>
    rw [bfsLevels, ih]
    have e : d + 1 + n = d + (n + 1) := by omega
    rw [e]
    rfl

theorem returnedAt_succ (p : Pass ρ ν ε) (root : String) (acc0 : Acc ν ε) (n : Nat) :
    returnedAt p root acc0 (n + 1)
      = (levelRows p (bfsLevels p n 1 [root] acc0).1).map p.rowID := rfl

/-- The state after `n` levels: entries of the start stay; every other entry
sits at the first level that returned its key; every returned key is stored. -/
theorem bfsLevels_discovery (p : Pass ρ ν ε) (depthOf : ν → Nat)
    (hdep : ∀ r d, depthOf (p.mkNode r d) = d) (root : String) (acc0 : Acc ν ε) (n : Nat) :
    (∀ k v, NodeMap.find acc0.nodeMap k = some v →
      NodeMap.find (bfsLevels p n 1 [root] acc0).2.nodeMap k = some v) ∧
    (∀ k v, NodeMap.find (bfsLevels p n 1 [root] acc0).2.nodeMap k = some v →
      NodeMap.find acc0.nodeMap k = some v ∨
        (NodeMap.find acc0.nodeMap k = none ∧ FirstReturnedAt p root acc0 n k (depthOf v))) ∧
    (∀ d, 1 ≤ d → d ≤ n → ∀ k ∈ returnedAt p root acc0 d,
      k ∈ NodeMap.keys (bfsLevels p n 1 [root] acc0).2.nodeMap) := by
  induction n with
  | zero =>
    refine ⟨fun k v h => h, fun k v h => Or.inl h, ?_⟩
    intro d h1 h2
    omega
  | succ n ih =>
    obtain ⟨hmono, hfirst, hcov⟩ := ih
    rw [bfsLevels_succ]
    refine ⟨?_, ?_, ?_⟩
    · intro k v h
      exact levelStep_find_old p _ _ _ k v (hmono k v h)
    · intro k v h
      rcases levelStep_find p _ _ _ k v h with h1 | ⟨h1, u, hu, r, hr, h2, h3⟩
      · rcases hfirst k v h1 with h4 | ⟨h4, ⟨h5, h6, h7⟩, h8⟩
        · exact Or.inl h4
        · refine Or.inr ⟨h4, ⟨h5, by omega, h7⟩, ?_⟩
          intro d' hd1 hd2 hd3
          by_cases hle : d' ≤ n
          · exact h8 d' hd1 hle hd3
          · omega
      · have h0 : NodeMap.find acc0.nodeMap k = none := by
          cases h9 : NodeMap.find acc0.nodeMap k with
          | none => rfl
          | some w =>
            rw [hmono k w h9] at h1
            cases h1
        have hret : k ∈ returnedAt p root acc0 (n + 1) := by
          rw [returnedAt_succ]
          exact List.mem_map.2 ⟨r, (mem_levelRows p _ r).2 ⟨u, hu, hr⟩, h2⟩
        have hdv : depthOf v = n + 1 := by
          rw [h3, hdep]
          omega
        rw [hdv]
        refine Or.inr ⟨h0, ⟨by omega, le_refl _, hret⟩, ?_⟩
        · intro d' hd1 hd2 hd3
          by_contra hlt
          have hin := hcov d' hd1 (by omega) k hd3
          rw [NodeMap.find_eq_none_iff] at h1
          exact h1 hin
    · intro d hd1 hd2 k hk
      by_cases hle : d ≤ n
      · have := hcov d hd1 hle k hk
        simp only [levelStep, NodeMap.keys_append]
        exact List.mem_append_left _ this
      · have hd : d = n + 1 := by omega
        subst hd
        rw [returnedAt_succ] at hk
        obtain ⟨r, hr, hrk⟩ := List.mem_map.1 hk
        have := newEntries_covers p (1 + n) (levelRows p (bfsLevels p n 1 [root] acc0).1)
          (bfsLevels p n 1 [root] acc0).2.nodeMap r hr
        rw [hrk] at this
        exact this

/-- One pass: entries of the start stay as they are; every other entry sits at
the first level that returned its key; every returned key is stored. -/
theorem bfsPass_discovery (p : Pass ρ ν ε) (depthOf : ν → Nat)
    (hdep : ∀ r d, depthOf (p.mkNode r d) = d) (root : String) (maxDepth : Nat)
    (acc0 : Acc ν ε) :
    (∀ k v, NodeMap.find (bfsPass p root maxDepth acc0).nodeMap k = some v →
      NodeMap.find acc0.nodeMap k = some v ∨
        (NodeMap.find acc0.nodeMap k = none ∧
          FirstReturnedAt p root acc0 maxDepth k (depthOf v))) ∧
    (∀ k, ReturnedBy p root acc0 maxDepth k →
      k ∈ NodeMap.keys (bfsPass p root maxDepth acc0).nodeMap) := by
  rw [bfsPass_eq_bfsLevels]
  obtain ⟨_, h2, h3⟩ := bfsLevels_discovery p depthOf hdep root acc0 maxDepth
  exact ⟨h2, fun k ⟨d, hd1, hd2, hk⟩ => h3 d hd1 hd2 k hk⟩

/-- Two passes in a row on the seeded root: a node the first pass got back
sits at the first level of the first pass that returned it; any other node
sits at the first level of the second pass that returned it. -/
theorem twoPasses_discovery (p1 p2 : Pass ρ ν ε) (depthOf : ν → Nat)
    (hdep1 : ∀ r d, depthOf (p1.mkNode r d) = d) (hdep2 : ∀ r d, depthOf (p2.mkNode r d) = d)
    (stmt : Stmt) (root : String) (rn : ν) (maxDepth : Nat) (k : String) (v : ν)
    (hk : k ≠ root)
    (hf : NodeMap.find
      (bfsPass p2 root maxDepth (bfsPass p1 root maxDepth (seed stmt root rn))).nodeMap k
        = some v) :
    (ReturnedBy p1 root (seed stmt root rn) maxDepth k →
      FirstReturnedAt p1 root (seed stmt root rn) maxDepth k (depthOf v)) ∧
    (¬ ReturnedBy p1 root (seed stmt root rn) maxDepth k →
      FirstReturnedAt p2 root (bfsPass p1 root maxDepth (seed stmt root rn)) maxDepth k
        (depthOf v)) := by
  obtain ⟨a1, b1⟩ := bfsPass_discovery p1 depthOf hdep1 root maxDepth (seed stmt root rn)
  obtain ⟨a2, _⟩ := bfsPass_discovery p2 depthOf hdep2 root maxDepth
    (bfsPass p1 root maxDepth (seed stmt root rn))
  rcases a2 k v hf with h1 | ⟨h1, h2⟩
  · rcases a1 k v h1 with h3 | ⟨_, h4⟩
    · exact absurd (seed_find stmt root rn k v h3).1 hk
    · exact ⟨fun _ => h4, fun hnot => absurd ⟨_, h4.1⟩ hnot⟩
  · refine ⟨fun hret => ?_, fun _ => h2⟩
    have := b1 k hret
    rw [NodeMap.find_eq_none_iff] at h1
    exact absurd this h1

theorem values_map_id (nodeID : ν → String) (acc : Acc ν ε) (h : Acc.WF nodeID acc) :
    (NodeMap.values acc.nodeMap).map nodeID = NodeMap.keys acc.nodeMap := by
  simp only [NodeMap.values, NodeMap.keys, List.map_map]
  apply List.map_congr_left
  intro kv hkv
  exact h.2 kv.1 kv.2 (NodeMap.find_of_mem _ h.1 kv.1 kv.2 hkv)

theorem sublist_flatMap {α β : Type} (f : α → List β) {l1 l2 : List α} (h : l1.Sublist l2) :
    (l1.flatMap f).Sublist (l2.flatMap f) := by
  induction h with
  | slnil => simp
  | cons a _ ih =>
    rw [List.flatMap_cons]
    exact ih.trans (List.sublist_append_right _ _)
  | cons₂ a _ ih =>
    rw [List.flatMap_cons, List.flatMap_cons]
    exact List.Sublist.append (List.Sublist.refl _) ih

theorem subperm_flatMap {α β : Type} (f : α → List β) {l1 l2 : List α} (h : l1.Subperm l2) :
    (l1.flatMap f).Subperm (l2.flatMap f) := by
  obtain ⟨l, hperm, hsub⟩ := h
  exact ⟨l.flatMap f, hperm.flatMap_right f, sublist_flatMap f hsub⟩

/-- The state after `n` levels in terms of the expanded nodes. -/
theorem bfsLevels_expanded (p : Pass ρ ν ε) (root : String) (acc0 : Acc ν ε)
    (hroot : root ∈ NodeMap.keys acc0.nodeMap) (n : Nat) :
    (expanded p root acc0 n ++ (bfsLevels p n 1 [root] acc0).1).Nodup ∧
    (∀ u ∈ expanded p root acc0 n ++ (bfsLevels p n 1 [root] acc0).1,
      u ∈ NodeMap.keys (bfsLevels p n 1 [root] acc0).2.nodeMap) ∧
    (bfsLevels p n 1 [root] acc0).2.log
      = acc0.log ++ (expanded p root acc0 n).map (fun u => (p.stmt, u)) ∧
    (bfsLevels p n 1 [root] acc0).2.edges
      = acc0.edges ++ (expanded p root acc0 n).flatMap (edgesOf p) := by
  induction n with
  | zero =>
    refine ⟨by simp [expanded, bfsLevels], ?_, by simp [expanded, bfsLevels],
      by simp [expanded, bfsLevels]⟩
    intro u hu
    simp only [expanded, bfsLevels, List.nil_append, List.mem_singleton] at hu
    rw [hu]
    exact hroot
  | succ n ih =>
    obtain ⟨hnd, hmem, hlog, hedges⟩ := ih
    rw [bfsLevels_succ]
    refine ⟨?_, ?_, ?_, ?_⟩
    · simp only [expanded]
      refine List.nodup_append.2 ⟨hnd, newEntries_nodup p _ _ _, ?_⟩
      intro k hk1 hk2
      exact newEntries_fresh p _ _ _ k hk2 (hmem k hk1)
    · intro u hu
      simp only [expanded] at hu
      simp only [levelStep, NodeMap.keys_append]
      rcases List.mem_append.1 hu with h1 | h1
      · exact List.mem_append_left _ (hmem u h1)
      · exact List.mem_append_right _ h1
    · simp [levelStep, expanded, hlog]
    · simp [levelStep, expanded, hedges]

/-- The same pass started on the bare root (`B`) and on a larger accumulator
(`A`): whatever `A` expands, `B` expands, and whatever `A` adds, `B` stores. -/
theorem bfsLevels_blocked (p : Pass ρ ν ε) (stmt : Stmt) (root : String) (rn : ν)
    (accA : Acc ν ε) (n : Nat) :
    (∀ u ∈ (bfsLevels p n 1 [root] accA).1,
      u ∈ expanded p root (seed stmt root rn) n ++
        (bfsLevels p n 1 [root] (seed stmt root rn)).1) ∧
    (∀ k ∈ NodeMap.keys (bfsLevels p n 1 [root] (seed stmt root rn)).2.nodeMap,
      k ∈ expanded p root (seed stmt root rn) n ++
        (bfsLevels p n 1 [root] (seed stmt root rn)).1) ∧
    (∀ u ∈ expanded p root accA n, u ∈ expanded p root (seed stmt root rn) n) ∧
    (∀ u ∈ expanded p root (seed stmt root rn) n, ∀ r ∈ rowsOf p u,
      p.rowID r ∈ NodeMap.keys (bfsLevels p n 1 [root] (seed stmt root rn)).2.nodeMap) ∧
    (∀ k ∈ NodeMap.keys (bfsLevels p n 1 [root] accA).2.nodeMap,
      k ∈ NodeMap.keys accA.nodeMap ∨
        k ∈ NodeMap.keys (bfsLevels p n 1 [root] (seed stmt root rn)).2.nodeMap) := by
  induction n with
  | zero =>
    refine ⟨?_, ?_, ?_, ?_, ?_⟩
    · intro u hu
      simpa [bfsLevels, expanded] using hu
    · intro k hk
      simpa [bfsLevels, expanded, seed_nodeMap, NodeMap.keys] using hk
    · intro u hu
      simp [expanded] at hu
    · intro u hu
      simp [expanded] at hu
    · intro k hk
      exact Or.inl hk
  | succ n ih =>
    obtain ⟨h1, h2, h4, h5, h6⟩ := ih
    -- every key returned to `A` at this level is stored by `B` afterwards
    have hret : ∀ u ∈ (bfsLevels p n 1 [root] accA).1, ∀ r ∈ rowsOf p u,
        p.rowID r ∈ NodeMap.keys
          (bfsLevels p (n + 1) 1 [root] (seed stmt root rn)).2.nodeMap := by
      intro u hu r hr
      rw [bfsLevels_succ]
      rcases List.mem_append.1 (h1 u hu) with h | h
      · simp only [levelStep, NodeMap.keys_append]
        exact List.mem_append_left _ (h5 u h r hr)
      · exact newEntries_covers p _ _ _ r ((mem_levelRows p _ r).2 ⟨u, h, hr⟩)
    have hnewA : ∀ k ∈ (bfsLevels p (n + 1) 1 [root] accA).1,
        k ∈ NodeMap.keys (bfsLevels p (n + 1) 1 [root] (seed stmt root rn)).2.nodeMap := by
      intro k hk
      rw [bfsLevels_succ] at hk
      obtain ⟨_, u, hu, r, hr, hrk, _⟩ := levelStep_frontier p _ _ _ k hk
      exact hrk ▸ hret u hu r hr
    have h2' : ∀ k ∈ NodeMap.keys (bfsLevels p (n + 1) 1 [root] (seed stmt root rn)).2.nodeMap,
        k ∈ expanded p root (seed stmt root rn) (n + 1) ++
          (bfsLevels p (n + 1) 1 [root] (seed stmt root rn)).1 := by
      intro k hk
      rw [bfsLevels_succ] at hk ⊢
      simp only [levelStep, NodeMap.keys_append] at hk ⊢
      simp only [expanded]
      rcases List.mem_append.1 hk with h | h
      · exact List.mem_append_left _ (h2 k h)
      · exact List.mem_append_right _ h
    refine ⟨fun k hk => h2' k (hnewA k hk), h2', ?_, ?_, ?_⟩
    · intro u hu
      simp only [expanded] at hu ⊢
      rcases List.mem_append.1 hu with h | h
      · exact List.mem_append_left _ (h4 u h)
      · exact h1 u h
    · intro u hu r hr
      simp only [expanded] at hu
      rw [bfsLevels_succ]
      rcases List.mem_append.1 hu with h | h
      · simp only [levelStep, NodeMap.keys_append]
        exact List.mem_append_left _ (h5 u h r hr)
      · exact newEntries_covers p _ _ _ r ((mem_levelRows p _ r).2 ⟨u, h, hr⟩)
    · intro k hk
      rw [bfsLevels_succ] at hk
      simp only [levelStep, NodeMap.keys_append] at hk
      rcases List.mem_append.1 hk with h | h
      · rcases h6 k h with h' | h'
        · exact Or.inl h'
        · right
          rw [bfsLevels_succ]
          simp only [levelStep, NodeMap.keys_append]
          exact List.mem_append_left _ h'
      · right
        apply hnewA
        rw [bfsLevels_succ]
        exact h

/-- A pass run after another pass stores and records no more than the same
pass run on the bare root. -/
theorem bfsPass_blocked (p : Pass ρ ν ε) (stmt : Stmt) (root : String) (rn : ν)
    (maxDepth : Nat) (accA : Acc ν ε) (hroot : root ∈ NodeMap.keys accA.nodeMap) :
    (∀ k ∈ NodeMap.keys (bfsPass p root maxDepth accA).nodeMap,
      k ∈ NodeMap.keys accA.nodeMap ∨
        k ∈ NodeMap.keys (bfsPass p root maxDepth (seed stmt root rn)).nodeMap) ∧
    (bfsPass p root maxDepth accA).edges.Subperm
      (accA.edges ++ (bfsPass p root maxDepth (seed stmt root rn)).edges) := by
  rw [bfsPass_eq_bfsLevels, bfsPass_eq_bfsLevels]
  obtain ⟨_, _, h4, _, h6⟩ := bfsLevels_blocked p stmt root rn accA maxDepth
  refine ⟨h6, ?_⟩
  obtain ⟨hndA, _, _, hedgesA⟩ := bfsLevels_expanded p root accA hroot maxDepth
  obtain ⟨_, _, _, hedgesB⟩ := bfsLevels_expanded p root (seed stmt root rn : Acc ν ε)
    (by simp [seed_nodeMap, NodeMap.keys]) maxDepth
  rw [hedgesA, hedgesB]
  simp only [seed, List.nil_append]
  rw [List.subperm_append_left]
  exact subperm_flatMap _ (List.subperm_of_subset (List.nodup_append.1 hndA).1 h4)

theorem bfsPass_keys_mono {ρ ν ε : Type} (p : Pass ρ ν ε) (root : String) (maxDepth : Nat)
    (acc : Acc ν ε) (k : String) (h : k ∈ NodeMap.keys acc.nodeMap) :
    k ∈ NodeMap.keys (bfsPass p root maxDepth acc).nodeMap := by
  rw [bfsPass_eq_bfsLevels]
  exact bfsLevels_induct p (fun _ _ a => k ∈ NodeMap.keys a.nodeMap)
    (fun d fr a ha => by
      simp only [levelStep, NodeMap.keys_append]
      exact List.mem_append_left _ ha)
    maxDepth 1 [root] acc h

theorem callGraphPasses_callees (db : DB) (id : String) (depth : Nat)
    (acc : Acc CallGraphNode CallGraphEdge) :
    callGraphPasses db id depth "callees" acc = bfsPass (calleesPass db) id depth acc := by
  simp [callGraphPasses, bfsCallees]

theorem callGraphPasses_callers (db : DB) (id : String) (depth : Nat)
    (acc : Acc CallGraphNode CallGraphEdge) :
    callGraphPasses db id depth "callers" acc = bfsPass (callersPass db) id depth acc := by
  simp [callGraphPasses, bfsCallers]

theorem callGraphPasses_both (db : DB) (id : String) (depth : Nat)
    (acc : Acc CallGraphNode CallGraphEdge) :
    callGraphPasses db id depth "both" acc
      = bfsPass (callersPass db) id depth (bfsPass (calleesPass db) id depth acc) := by
  simp [callGraphPasses, bfsCallers, bfsCallees]

theorem dataFlowPasses_forward (db : DB) (id : String) (depth : Nat)
    (acc : Acc DataFlowNode DataFlowEdge) :
    dataFlowPasses db id depth "forward" acc = bfsPass (dfgForwardPass db) id depth acc := by
  simp [dataFlowPasses, bfsDFGForward]

theorem dataFlowPasses_backward (db : DB) (id : String) (depth : Nat)
    (acc : Acc DataFlowNode DataFlowEdge) :
    dataFlowPasses db id depth "backward" acc = bfsPass (dfgBackwardPass db) id depth acc := by
  simp [dataFlowPasses, bfsDFGBackward]

theorem dataFlowPasses_both (db : DB) (id : String) (depth : Nat)
    (acc : Acc DataFlowNode DataFlowEdge) :
    dataFlowPasses db id depth "both" acc
      = bfsPass (dfgBackwardPass db) id depth (bfsPass (dfgForwardPass db) id depth acc) := by
  simp [dataFlowPasses, bfsDFGBackward, bfsDFGForward]

/-- Two passes against one shared accumulator give no more than the two passes
run separately on the bare root. -/
theorem twoPasses_within_merge {ρ ν ε : Type} (p1 p2 : Pass ρ ν ε) (nodeID : ν → String)
    (hid1 : ∀ r d, nodeID (p1.mkNode r d) = p1.rowID r)
    (hid2 : ∀ r d, nodeID (p2.mkNode r d) = p2.rowID r)
    (stmt : Stmt) (root : String) (rn : ν) (hrn : nodeID rn = root) (maxDepth : Nat) :
    (∀ n ∈ NodeMap.values
        (bfsPass p2 root maxDepth (bfsPass p1 root maxDepth (seed stmt root rn))).nodeMap,
      nodeID n ∈ (NodeMap.values (bfsPass p1 root maxDepth (seed stmt root rn)).nodeMap).map
          nodeID ∨
        nodeID n ∈ (NodeMap.values (bfsPass p2 root maxDepth (seed stmt root rn)).nodeMap).map
          nodeID) ∧
    (bfsPass p2 root maxDepth (bfsPass p1 root maxDepth (seed stmt root rn))).edges.Subperm
      ((bfsPass p1 root maxDepth (seed stmt root rn)).edges ++
        (bfsPass p2 root maxDepth (seed stmt root rn)).edges) := by
  have hseed : Acc.WF nodeID (seed stmt root rn : Acc ν ε) := seed_WF nodeID stmt root rn hrn
  have hwf1 := bfsPass_WF p1 nodeID hid1 root maxDepth _ hseed
  have hwf2 := bfsPass_WF p2 nodeID hid2 root maxDepth _ hseed
  have hwf12 := bfsPass_WF p2 nodeID hid2 root maxDepth _ hwf1
  have hroot : root ∈ NodeMap.keys (bfsPass p1 root maxDepth (seed stmt root rn)).nodeMap :=
    bfsPass_keys_mono p1 root maxDepth _ root (by simp [seed_nodeMap, NodeMap.keys])
  obtain ⟨hkeys, hedges⟩ := bfsPass_blocked p2 stmt root rn maxDepth
    (bfsPass p1 root maxDepth (seed stmt root rn)) hroot
  refine ⟨?_, hedges⟩
  intro n hn
  rw [values_map_id nodeID _ hwf1, values_map_id nodeID _ hwf2]
  apply hkeys
  rw [← values_map_id nodeID _ hwf12]
  exact List.mem_map_of_mem _ hn

theorem filter_origin_flatMap_nil (p : Pass ρ ν ε) (origin : ε → String)
    (ho : ∀ u v, origin (p.mkEdge u v) = u) (u : String) (X : List String) (hu : u ∉ X) :
    (X.flatMap (edgesOf p)).filter (fun e => origin e == u) = [] := by
  rw [List.filter_eq_nil_iff]
  intro e he
  simp only [List.mem_flatMap, edgesOf, List.mem_map] at he
  obtain ⟨x, hx, r, _, hr⟩ := he
  rw [← hr, ho]
  simp only [beq_iff_eq]
  intro hxu
  exact hu (hxu ▸ hx)

/-- With every node expanded at most once, the edges recorded from one node
are at most the rows of one query. -/
theorem filter_origin_flatMap_le (p : Pass ρ ν ε) (origin : ε → String)
    (ho : ∀ u v, origin (p.mkEdge u v) = u) (cap : Nat)
    (hcap : ∀ u, (rowsOf p u).length ≤ cap) (u : String) (X : List String) (hnd : X.Nodup) :
    ((X.flatMap (edgesOf p)).filter (fun e => origin e == u)).length ≤ cap := by
  induction X with
  | nil => simp
  | cons x xs ih =>
    rw [List.nodup_cons] at hnd
    simp only [List.flatMap_cons, List.filter_append, List.length_append]
    by_cases hx : x = u
    · subst hx
      rw [filter_origin_flatMap_nil p origin ho x xs hnd.1]
      have h1 := List.length_filter_le (fun e => origin e == x) (edgesOf p x)
      have h2 : (edgesOf p x).length = (rowsOf p x).length := by simp [edgesOf]
      have h3 := hcap x
      simp only [List.length_nil]
      omega
    · have h1 : (edgesOf p x).filter (fun e => origin e == u) = [] := by
        rw [List.filter_eq_nil_iff]
        intro e he
        simp only [edgesOf, List.mem_map] at he
        obtain ⟨r, _, hr⟩ := he
        rw [← hr, ho]
        simpa using hx
      rw [h1]
      simpa using ih hnd.2

/-- A single pass on the seeded root: every statement is sent at most once and
at most `cap` edges are recorded from any one node. -/
theorem bfsPass_fanOut (p : Pass ρ ν ε) (origin : ε → String)
    (ho : ∀ u v, origin (p.mkEdge u v) = u) (cap : Nat)
    (hcap : ∀ u, (rowsOf p u).length ≤ cap) (stmt : Stmt) (hstmt : stmt ≠ p.stmt)
    (root : String) (rn : ν) (maxDepth : Nat) :
    (bfsPass p root maxDepth (seed stmt root rn)).log.Nodup ∧
    ∀ u, ((bfsPass p root maxDepth (seed stmt root rn)).edges.filter
      (fun e => origin e == u)).length ≤ cap := by
  obtain ⟨hnd', _, hlog, hedges⟩ := bfsLevels_expanded p root
    (seed stmt root rn : Acc ν ε) (by simp [seed_nodeMap, NodeMap.keys]) maxDepth
  have hnd := (List.nodup_append.1 hnd').1
  rw [bfsPass_eq_bfsLevels]
  refine ⟨?_, ?_⟩
  · rw [hlog]
    simp only [seed, List.singleton_append, List.nodup_cons, List.mem_map, Prod.mk.injEq,
      not_exists, not_and]
    refine ⟨fun x _ h => absurd h.symm hstmt, ?_⟩
    exact hnd.map (fun a b hab => by simpa using hab)
  · intro u
    rw [hedges]
    simp only [seed, List.nil_append]
    exact filter_origin_flatMap_le p origin ho cap hcap u _ hnd

theorem newEntries_length (p : Pass ρ ν ε) (d : Nat) (rows : List ρ) (m : NodeMap ν)
    (hnd : (rows.map p.rowID).Nodup) (hnew : ∀ r ∈ rows, p.rowID r ∉ NodeMap.keys m) :
    (newEntries p d rows m).length = rows.length := by
  induction rows generalizing m with
  | nil => rfl
  | cons r rs ih =>
    rw [List.map_cons, List.nodup_cons] at hnd
    have hr : NodeMap.has m (p.rowID r) = false := by
      have := hnew r (List.mem_cons_self _ _)
      rw [← NodeMap.has_iff] at this
      simpa using this
    simp only [newEntries, hr, Bool.false_eq_true, if_false, List.length_cons]
    rw [ih _ hnd.2]
    intro r' hr' hmem
    rw [NodeMap.keys_append] at hmem
    rcases List.mem_append.1 hmem with h | h
    · exact hnew r' (List.mem_cons_of_mem _ hr') h
    · simp only [NodeMap.keys, List.map_cons, List.map_nil, List.mem_singleton] at h
      exact hnd.1 (h ▸ List.mem_map_of_mem _ hr')

/-- A pass of depth 1 on the seeded root whose query returns rows with distinct
identifiers other than the root: one edge and one new node per row. -/
theorem bfsPass_one_level (p : Pass ρ ν ε) (stmt : Stmt) (root : String) (rn : ν)
    (hnd : ((rowsOf p root).map p.rowID).Nodup)
    (hroot : root ∉ (rowsOf p root).map p.rowID) :
    (NodeMap.values (bfsPass p root 1 (seed stmt root rn)).nodeMap).length
        = (rowsOf p root).length + 1 ∧
      (bfsPass p root 1 (seed stmt root rn)).edges.length = (rowsOf p root).length := by
  rw [bfsPass_eq_bfsLevels]
  have hrows : levelRows p [root] = rowsOf p root := by simp [levelRows]
  have hlen := newEntries_length p 1 (rowsOf p root) [(root, rn)] hnd (by
    intro r hr hmem
    simp only [NodeMap.keys, List.map_cons, List.map_nil, List.mem_singleton] at hmem
    have hin : p.rowID r ∈ (rowsOf p root).map p.rowID := List.mem_map_of_mem _ hr
    rw [hmem] at hin
    exact hroot hin)
  refine ⟨?_, ?_⟩
  · simp only [bfsLevels, levelStep, hrows, seed_nodeMap, NodeMap.values, List.length_map,
      List.length_append, hlen]
    simp [Nat.add_comm]
  · simp [bfsLevels, levelStep, seed, edgesOf]

theorem rowsOf_runQuery_length (db : DB) (stmt : Stmt) (select : DB → String → List ρ)
    (cap : Nat) (h : ∀ u, (select db u).length ≤ cap) (u : String) :
    ((runQuery db stmt select u).getD []).length ≤ cap := by
  unfold runQuery
  split
  · simp
  · simp only [Option.getD_some, deliver]
    split
    · exact h u
    · rw [List.length_take]
      exact le_trans (Nat.min_le_right _ _) (h u)

theorem leftJoinMetrics_ne_nil (db : DB) (n : NodeRow) : leftJoinMetrics db n ≠ [] := by
  unfold leftJoinMetrics
  split
  · simp
  · rename_i h
    simpa using h

/-- Without a database error, `fetchCallGraphNode` fails exactly when table
`nodes` has no row with the identifier. -/
theorem fetchCallGraphNode_none_iff (db : DB) (id : String) (depth : Nat) (isRoot : Bool)
    (herr : db.queryErr Stmt.fetchCallGraphNode id = false) :
    fetchCallGraphNode db id depth isRoot = none ↔ ∀ n ∈ db.nodes, n.id ≠ id := by
  unfold fetchCallGraphNode
  simp only [herr, Bool.false_eq_true, if_false]
  constructor
  · intro h n hn hid
    split at h
    · rename_i heq
      have hmem : n ∈ db.nodes.filter fun n => n.id == id := by
        simp [List.mem_filter, hn, hid]
      obtain ⟨m, rest, hm⟩ := List.exists_cons_of_ne_nil (leftJoinMetrics_ne_nil db n)
      have : callRow id n m ∈ (db.nodes.filter fun n => n.id == id).flatMap fun n =>
          (leftJoinMetrics db n).map (callRow id n) := by
        rw [List.mem_flatMap]
        exact ⟨n, hmem, by simp [hm]⟩
      rw [heq] at this
      simp at this
    · cases h
  · intro h
    have hnil : (db.nodes.filter fun n => n.id == id) = [] := by
      rw [List.filter_eq_nil_iff]
      intro n hn
      simpa using h n hn
    simp [hnil]

/-- Without a database error, `fetchDFGNode` fails exactly when table `nodes`
has no row with the identifier. -/
theorem fetchDFGNode_none_iff (db : DB) (id : String) (depth : Nat)
    (herr : db.queryErr Stmt.fetchDFGNode id = false) :
    fetchDFGNode db id depth = none ↔ ∀ n ∈ db.nodes, n.id ≠ id := by
  unfold fetchDFGNode
  simp only [herr, Bool.false_eq_true, if_false]
  constructor
  · intro h n hn hid
    split at h
    · rename_i heq
      have hmem : n ∈ db.nodes.filter fun n => n.id == id := by
        simp [List.mem_filter, hn, hid]
      have : dfgRow id n ∈ (db.nodes.filter fun n => n.id == id).map (dfgRow id) :=
        List.mem_map.2 ⟨n, hmem, rfl⟩
      rw [heq] at this
      simp at this
    · cases h
  · intro h
    have hnil : (db.nodes.filter fun n => n.id == id) = [] := by
      rw [List.filter_eq_nil_iff]
      intro n hn
      simpa using h n hn
    simp [hnil]

theorem callGraphTraverse_some (db : DB) (id : String) (depth : Nat) (direction : String)
    (rn : CallGraphNode) (h : fetchCallGraphNode db id 0 true = some rn) :
    ∃ nodes edges, (callGraphTraverse db id depth direction).1 = Response.graph nodes edges ∧
      rn ∈ nodes := by
  have hrn := fetchCallGraphNode_some db id 0 true rn h
  have hwf := callGraphPasses_WF db id depth direction _
    (callGraph_seed_WF id rn hrn.1)
  have hkept := callGraphPasses_keeps db id depth direction
    (RootKept CallGraphNode.IsRoot CallGraphNode.Depth id rn depth)
    (fun a ha => bfsPass_rootKept (calleesPass db) _ _ (fun _ _ => rfl) (fun _ _ => rfl)
      id rn depth a ha)
    (fun a ha => bfsPass_rootKept (callersPass db) _ _ (fun _ _ => rfl) (fun _ _ => rfl)
      id rn depth a ha)
    (seed Stmt.fetchCallGraphNode id rn)
    ⟨seed_find_root _ id rn, fun k n hf hk => absurd (seed_find _ id rn k n hf).1 hk⟩
  have hresp : (callGraphTraverse db id depth direction).1
      = Response.graph
          (NodeMap.values (callGraphPasses db id depth direction
            (seed Stmt.fetchCallGraphNode id rn)).nodeMap)
          (callGraphPasses db id depth direction (seed Stmt.fetchCallGraphNode id rn)).edges := by
    simp only [callGraphTraverse, h]
  refine ⟨_, _, hresp, ?_⟩
  rw [mem_values_find CallGraphNode.ID _ hwf, hrn.1]
  exact hkept.1

theorem dataFlowTraverse_some (db : DB) (id : String) (depth : Nat) (direction : String)
    (rn : DataFlowNode) (h : fetchDFGNode db id 0 = some rn) :
    ∃ nodes edges, (dataFlowTraverse db id depth direction).1 = Response.graph nodes edges ∧
      rn ∈ nodes := by
  have hrn := fetchDFGNode_some db id 0 rn h
  have hwf := dataFlowPasses_WF db id depth direction _
    (dataFlow_seed_WF id rn hrn.1)
  have hkept := dataFlowPasses_keeps db id depth direction
    (RootKept (fun _ => false) DataFlowNode.Depth id rn depth)
    (fun a ha => bfsPass_rootKept (dfgForwardPass db) _ _ (fun _ _ => rfl) (fun _ _ => rfl)
      id rn depth a ha)
    (fun a ha => bfsPass_rootKept (dfgBackwardPass db) _ _ (fun _ _ => rfl) (fun _ _ => rfl)
      id rn depth a ha)
    (seed Stmt.fetchDFGNode id rn)
    ⟨seed_find_root _ id rn, fun k n hf hk => absurd (seed_find _ id rn k n hf).1 hk⟩
  have hresp : (dataFlowTraverse db id depth direction).1
      = Response.graph
          (NodeMap.values (dataFlowPasses db id depth direction
            (seed Stmt.fetchDFGNode id rn)).nodeMap)
          (dataFlowPasses db id depth direction (seed Stmt.fetchDFGNode id rn)).edges := by
    simp only [dataFlowTraverse, h]
  refine ⟨_, _, hresp, ?_⟩
  rw [mem_values_find DataFlowNode.ID _ hwf, hrn.1]
  exact hkept.1

theorem rowsOf_totalised (p : Pass ρ ν ε) (u : String) :
    rowsOf (totalised p) u = rowsOf p u := rfl

theorem newEntries_totalised (p : Pass ρ ν ε) (d : Nat) (rows : List ρ) (m : NodeMap ν) :
    newEntries (totalised p) d rows m = newEntries p d rows m := by
  induction rows generalizing m with
  | nil => rfl
  | cons r rs ih =>
    simp only [newEntries]
    rw [ih, ih]
    rfl

theorem levelStep_totalised (p : Pass ρ ν ε) (d : Nat) (frontier : List String)
    (acc : Acc ν ε) :
    levelStep (totalised p) d frontier acc = levelStep p d frontier acc := by
  have h1 : levelRows (totalised p) frontier = levelRows p frontier := rfl
  have h2 : edgesOf (totalised p) = edgesOf p := rfl
  simp only [levelStep, h1, h2, newEntries_totalised]
  rfl

/-- A failed neighbour query has the effect of a query returning no rows. -/
theorem bfsPass_totalised (p : Pass ρ ν ε) (rootID : String) (maxDepth : Nat)
    (acc : Acc ν ε) :
    bfsPass (totalised p) rootID maxDepth acc = bfsPass p rootID maxDepth acc := by
  rw [bfsPass_eq_bfsLevels, bfsPass_eq_bfsLevels]
  generalize ([rootID] : List String) = fr
  generalize (1 : Nat) = d
  induction maxDepth generalizing d fr acc with
  | zero => rfl
  | succ n ih =>
    simp only [bfsLevels, levelStep_totalised]
    exact ih _ _ _

theorem selectCallees_function (db : DB) (u : String) (r : CallRow)
    (h : r ∈ selectCallees db u) : isFunctionID db r.id = true := by
  unfold selectCallees at h
  have h1 := List.mem_of_mem_take h
  simp only [List.mem_flatMap, List.mem_filter, List.mem_map] at h1
  obtain ⟨e, _, n, ⟨hn, hk⟩, m, _, hr⟩ := h1
  simp only [Bool.and_eq_true, beq_iff_eq] at hk
  unfold isFunctionID
  rw [List.any_eq_true]
  refine ⟨n, hn, ?_⟩
  rw [← hr]
  simp [callRow, hk.1, hk.2]

theorem selectCallers_function (db : DB) (u : String) (r : CallRow)
    (h : r ∈ selectCallers db u) : isFunctionID db r.id = true := by
  unfold selectCallers at h
  have h1 := List.mem_of_mem_take h
  simp only [List.mem_flatMap, List.mem_filter, List.mem_map] at h1
  obtain ⟨e, _, n, ⟨hn, hk⟩, m, _, hr⟩ := h1
  simp only [Bool.and_eq_true, beq_iff_eq] at hk
  unfold isFunctionID
  rw [List.any_eq_true]
  refine ⟨n, hn, ?_⟩
  rw [← hr]
  simp [callRow, hk.1, hk.2]

theorem rowsOf_runQuery (db : DB) (stmt : Stmt) (select : DB → String → List ρ) (u : String)
    (r : ρ) (h : r ∈ (runQuery db stmt select u).getD []) : r ∈ select db u := by
  unfold runQuery at h
  split at h
  · simp at h
  · simp only [Option.getD_some, deliver] at h
    split at h
    · exact h
    · exact List.mem_of_mem_take h

theorem bfsPass_rootOrGood (p : Pass ρ ν ε) (src tgt : ε → String) (good : String → Prop)
    (hconn : ∀ u v, Connects src tgt (p.mkEdge u v) v u)
    (hrows : ∀ u, ∀ r ∈ rowsOf p u, good (p.rowID r)) (root : String) (maxDepth : Nat)
    (acc : Acc ν ε) (h : RootOrGood src tgt good root acc) :
    RootOrGood src tgt good root (bfsPass p root maxDepth acc) := by
  rw [bfsPass_eq_bfsLevels]
  have key := bfsLevels_induct p
    (fun _ fr a => RootOrGood src tgt good root a ∧ ∀ u ∈ fr, u = root ∨ good u)
    (by
      intro d fr a ⟨⟨hn, he⟩, hfr⟩
      refine ⟨⟨?_, ?_⟩, ?_⟩
      · intro k n hf
        rcases levelStep_find p d fr a k n hf with h1 | ⟨_, u, _, r, hr, h2, _⟩
        · exact hn k n h1
        · exact Or.inr (h2 ▸ hrows u r hr)
      · intro e hmem
        rcases levelStep_edges p d fr a e hmem with h1 | ⟨u, hu, r, hr, h2⟩
        · exact he e h1
        · have hu' := hfr u hu
          have hv : good (p.rowID r) := hrows u r hr
          rcases hconn u (p.rowID r) with ⟨h3, h4⟩ | ⟨h3, h4⟩
          · rw [h2, h3, h4]
            exact ⟨Or.inr hv, hu'⟩
          · rw [h2, h3, h4]
            exact ⟨hu', Or.inr hv⟩
      · intro u hu
        obtain ⟨_, u', _, r, hr, h2, _⟩ := levelStep_frontier p d fr a u hu
        exact Or.inr (h2 ▸ hrows u' r hr))
    maxDepth 1 [root] acc
    ⟨h, fun u hu => Or.inl (List.mem_singleton.1 hu)⟩
  exact key.1

theorem find_newEntries_depth (p : Pass ρ ν ε) (depthOf : ν → Nat)
    (hdep : ∀ r d, depthOf (p.mkNode r d) = d) (d : Nat) (rows : List ρ) (m : NodeMap ν)
    (k : String) :
    (NodeMap.find (newEntries p d rows m) k).map depthOf
      = if k ∈ NodeMap.keys (newEntries p d rows m) then some d else none := by
  by_cases hk : k ∈ NodeMap.keys (newEntries p d rows m)
  · simp only [hk, if_true]
    have hne : NodeMap.find (newEntries p d rows m) k ≠ none := by
      rw [Ne, NodeMap.find_eq_none_iff, not_not]
      exact hk
    obtain ⟨n, hn⟩ := Option.ne_none_iff_exists'.1 hne
    obtain ⟨r, _, _, h2⟩ := newEntries_mem p d rows m k n (NodeMap.find_some_mem _ _ _ hn)
    rw [hn, h2]
    simp [hdep]
  · simp only [hk, if_false]
    rw [(NodeMap.find_eq_none_iff _ _).2 hk]
    rfl

theorem mem_keys_iff_depth (depthOf : ν → Nat) (m : NodeMap ν) (k : String) :
    k ∈ NodeMap.keys m ↔ (NodeMap.find m k).map depthOf ≠ none := by
  rw [← not_iff_not, not_not, ← NodeMap.find_eq_none_iff]
  cases NodeMap.find m k <;> simp

theorem levelRows_perm (p1 p2 : Pass ρ ν ε)
    (hperm : ∀ u, (rowsOf p1 u).Perm (rowsOf p2 u)) (fr1 fr2 : List String)
    (hfr : fr1.Perm fr2) : (levelRows p1 fr1).Perm (levelRows p2 fr2) :=
  (hfr.flatMap_right (rowsOf p1)).trans (List.Perm.flatMap_left fr2 fun u _ => hperm u)

/-- One level keeps `SameGraph` and the frontiers equal up to order. -/
theorem levelStep_sameGraph (p1 p2 : Pass ρ ν ε) (depthOf : ν → Nat)
    (hrow : p1.rowID = p2.rowID) (hedge : p1.mkEdge = p2.mkEdge)
    (hdep1 : ∀ r d, depthOf (p1.mkNode r d) = d) (hdep2 : ∀ r d, depthOf (p2.mkNode r d) = d)
    (hperm : ∀ u, (rowsOf p1 u).Perm (rowsOf p2 u)) (d : Nat) (fr1 fr2 : List String)
    (acc1 acc2 : Acc ν ε) (hfr : fr1.Perm fr2) (h : SameGraph depthOf acc1 acc2) :
    (levelStep p1 d fr1 acc1).1.Perm (levelStep p2 d fr2 acc2).1 ∧
      SameGraph depthOf (levelStep p1 d fr1 acc1).2 (levelStep p2 d fr2 acc2).2 := by
  have hrows := levelRows_perm p1 p2 hperm fr1 fr2 hfr
  have hkeys : ∀ k, k ∈ NodeMap.keys acc1.nodeMap ↔ k ∈ NodeMap.keys acc2.nodeMap := by
    intro k
    rw [mem_keys_iff_depth depthOf, mem_keys_iff_depth depthOf, h.1 k]
  have hnew : ∀ k, k ∈ NodeMap.keys (newEntries p1 d (levelRows p1 fr1) acc1.nodeMap) ↔
      k ∈ NodeMap.keys (newEntries p2 d (levelRows p2 fr2) acc2.nodeMap) := by
    intro k
    rw [mem_newEntries_keys_iff, mem_newEntries_keys_iff, hkeys k, hrow]
    exact and_congr_right fun _ => (hrows.map p2.rowID).mem_iff
  refine ⟨?_, ?_, ?_⟩
  · exact (List.perm_ext_iff_of_nodup (newEntries_nodup p1 d _ _)
      (newEntries_nodup p2 d _ _)).2 hnew
  · intro k
    simp only [levelStep, NodeMap.find_append]
    have h1 := h.1 k
    cases hf1 : NodeMap.find acc1.nodeMap k with
    | some v1 =>
      rw [hf1] at h1
      cases hf2 : NodeMap.find acc2.nodeMap k with
      | some v2 =>
        rw [hf2] at h1
        simpa using h1
      | none =>
        rw [hf2] at h1
        simp at h1
    | none =>
      rw [hf1] at h1
      cases hf2 : NodeMap.find acc2.nodeMap k with
      | some v2 =>
        rw [hf2] at h1
        simp at h1
      | none =>
        simp only [Option.orElse]
        rw [find_newEntries_depth p1 depthOf hdep1, find_newEntries_depth p2 depthOf hdep2]
        simp only [hnew k]
  · simp only [levelStep]
    refine h.2.append ?_
    refine (hfr.flatMap_right (edgesOf p1)).trans (List.Perm.flatMap_left fr2 fun u _ => ?_)
    simp only [edgesOf, hrow, hedge]
    exact (hperm u).map _

/-- A pass keeps `SameGraph` when the two stores return, for every node, the
same neighbour rows up to order. -/
theorem bfsPass_sameGraph (p1 p2 : Pass ρ ν ε) (depthOf : ν → Nat)
    (hrow : p1.rowID = p2.rowID) (hedge : p1.mkEdge = p2.mkEdge)
    (hdep1 : ∀ r d, depthOf (p1.mkNode r d) = d) (hdep2 : ∀ r d, depthOf (p2.mkNode r d) = d)
    (hperm : ∀ u, (rowsOf p1 u).Perm (rowsOf p2 u)) (root : String) (maxDepth : Nat)
    (acc1 acc2 : Acc ν ε) (h : SameGraph depthOf acc1 acc2) :
    SameGraph depthOf (bfsPass p1 root maxDepth acc1) (bfsPass p2 root maxDepth acc2) := by
  rw [bfsPass_eq_bfsLevels, bfsPass_eq_bfsLevels]
  have key : ∀ n d (fr1 fr2 : List String) (a1 a2 : Acc ν ε), fr1.Perm fr2 →
      SameGraph depthOf a1 a2 →
      SameGraph depthOf (bfsLevels p1 n d fr1 a1).2 (bfsLevels p2 n d fr2 a2).2 := by
    intro n
    induction n with
    | zero =>
      intro d fr1 fr2 a1 a2 _ ha
      exact ha
    | succ n ih =>
      intro d fr1 fr2 a1 a2 hfr ha
      obtain ⟨h1, h2⟩ := levelStep_sameGraph p1 p2 depthOf hrow hedge hdep1 hdep2 hperm d
        fr1 fr2 a1 a2 hfr ha
      exact ih (d + 1) _ _ _ _ h1 h2
  exact key maxDepth 1 [root] [root] acc1 acc2 (List.Perm.refl _) h

/-- In a well-formed accumulator, the node list has a node `k` at depth `d`
exactly when the map stores depth `d` under `k`. -/
theorem node_at_depth_iff (nodeID : ν → String) (depthOf : ν → Nat) (acc : Acc ν ε)
    (hwf : Acc.WF nodeID acc) (k : String) (d : Nat) :
    (∃ n ∈ NodeMap.values acc.nodeMap, nodeID n = k ∧ depthOf n = d) ↔
      (NodeMap.find acc.nodeMap k).map depthOf = some d := by
  constructor
  · rintro ⟨n, hn, hk, hd⟩
    rw [mem_values_find nodeID acc hwf, hk] at hn
    rw [hn]
    simp [hd]
  · intro h
    cases hf : NodeMap.find acc.nodeMap k with
    | none =>
      rw [hf] at h
      simp at h
    | some n =>
      rw [hf] at h
      simp only [Option.map_some', Option.some.injEq] at h
      have hk := hwf.2 k n hf
      refine ⟨n, ?_, hk, h⟩
      rw [mem_values_find nodeID acc hwf, hk]
      exact hf

theorem callGraphPasses_related (db1 db2 : DB) (id : String) (depth : Nat) (direction : String)
    (R : Acc CallGraphNode CallGraphEdge → Acc CallGraphNode CallGraphEdge → Prop)
    (h1 : ∀ a b, R a b → R (bfsCallees db1 id depth a) (bfsCallees db2 id depth b))
    (h2 : ∀ a b, R a b → R (bfsCallers db1 id depth a) (bfsCallers db2 id depth b))
    (a b : Acc CallGraphNode CallGraphEdge) (h : R a b) :
    R (callGraphPasses db1 id depth direction a) (callGraphPasses db2 id depth direction b) := by
  unfold callGraphPasses
  by_cases c1 : direction = "callees" ∨ direction = "both" <;>
    by_cases c2 : direction = "callers" ∨ direction = "both" <;>
    simp only [c1, c2, if_true, if_false]
  · exact h2 _ _ (h1 _ _ h)
  · exact h1 _ _ h
  · exact h2 _ _ h
  · exact h

theorem dataFlowPasses_related (db1 db2 : DB) (id : String) (depth : Nat) (direction : String)
    (R : Acc DataFlowNode DataFlowEdge → Acc DataFlowNode DataFlowEdge → Prop)
    (h1 : ∀ a b, R a b → R (bfsDFGForward db1 id depth a) (bfsDFGForward db2 id depth b))
    (h2 : ∀ a b, R a b → R (bfsDFGBackward db1 id depth a) (bfsDFGBackward db2 id depth b))
    (a b : Acc DataFlowNode DataFlowEdge) (h : R a b) :
    R (dataFlowPasses db1 id depth direction a) (dataFlowPasses db2 id depth direction b) := by
  unfold dataFlowPasses
  split
  · exact h1 _ _ h
  · split
    · exact h2 _ _ h
    · split
      · exact h2 _ _ (h1 _ _ h)
      · exact h

theorem callGraphTraverse_of_fetch (db : DB) (id : String) (depth : Nat) (direction : String)
    (rn : CallGraphNode) (h : fetchCallGraphNode db id 0 true = some rn) :
    callGraphTraverse db id depth direction
      = (Response.graph
          (NodeMap.values (callGraphPasses db id depth direction
            (seed Stmt.fetchCallGraphNode id rn)).nodeMap)
          (callGraphPasses db id depth direction (seed Stmt.fetchCallGraphNode id rn)).edges,
         (callGraphPasses db id depth direction (seed Stmt.fetchCallGraphNode id rn)).log) := by
  simp only [callGraphTraverse, h]

theorem dataFlowTraverse_of_fetch (db : DB) (id : String) (depth : Nat) (direction : String)
    (rn : DataFlowNode) (h : fetchDFGNode db id 0 = some rn) :
    dataFlowTraverse db id depth direction
      = (Response.graph
          (NodeMap.values (dataFlowPasses db id depth direction
            (seed Stmt.fetchDFGNode id rn)).nodeMap)
          (dataFlowPasses db id depth direction (seed Stmt.fetchDFGNode id rn)).edges,
         (dataFlowPasses db id depth direction (seed Stmt.fetchDFGNode id rn)).log) := by
  simp only [dataFlowTraverse, h]

/-- The statements and edges a pass adds, in terms of the nodes it expanded. -/
theorem bfsPass_expanded {ρ ν ε : Type} (p : Pass ρ ν ε) (root : String) (maxDepth : Nat)
    (acc0 : Acc ν ε) :
    (bfsPass p root maxDepth acc0).log
        = acc0.log ++ (expanded p root acc0 maxDepth).map (fun u => (p.stmt, u)) ∧
      (bfsPass p root maxDepth acc0).edges
        = acc0.edges ++ (expanded p root acc0 maxDepth).flatMap (edgesOf p) := by
  rw [bfsPass_eq_bfsLevels]
  induction maxDepth with
  | zero => simp [bfsLevels, expanded]
  | succ n ih =>
    rw [bfsLevels_succ]
    simp [levelStep, expanded, ih.1, ih.2]

theorem frontierAt_subset_expanded (p : Pass ρ ν ε) (root : String) (acc0 : Acc ν ε)
    (n d : Nat) (hd1 : 1 ≤ d) (hd2 : d ≤ n) (v : String) (hv : v ∈ frontierAt p root acc0 d) :
    v ∈ expanded p root acc0 n := by
  induction n with
  | zero => omega
  | succ n ih =>
    simp only [expanded, List.mem_append]
    by_cases hle : d ≤ n
    · exact Or.inl (ih hle)
    · have hdn : d = n + 1 := by omega
      subst hdn
      exact Or.inr hv

/-- A pass queries every node of every frontier and records every row it gets
back. -/
theorem bfsPass_expands (p : Pass ρ ν ε) (depthOf : ν → Nat)
    (hdep : ∀ r d, depthOf (p.mkNode r d) = d) (root : String) (maxDepth : Nat)
    (acc0 : Acc ν ε) :
    Expands p root acc0 maxDepth (NodeMap.keys (bfsPass p root maxDepth acc0).nodeMap)
      (bfsPass p root maxDepth acc0).edges (bfsPass p root maxDepth acc0).log := by
  intro d hd1 hd2 v hv
  have hx := frontierAt_subset_expanded p root acc0 maxDepth d hd1 hd2 v hv
  obtain ⟨hlog, hedges⟩ := bfsPass_expanded p root maxDepth acc0
  refine ⟨?_, ?_⟩
  · rw [hlog]
    exact List.mem_append_right _ (List.mem_map.2 ⟨v, hx, rfl⟩)
  · intro r hr
    refine ⟨?_, ?_⟩
    · rw [hedges]
      refine List.mem_append_right _ (List.mem_flatMap.2 ⟨v, hx, ?_⟩)
      exact List.mem_map.2 ⟨r, hr, rfl⟩
    · rw [bfsPass_eq_bfsLevels]
      refine (bfsLevels_discovery p depthOf hdep root acc0 maxDepth).2.2 d hd1 hd2 _ ?_
      exact List.mem_map.2 ⟨r, (mem_levelRows p _ r).2 ⟨v, hv, hr⟩, rfl⟩

theorem Expands_mono (p : Pass ρ ν ε) (root : String) (acc0 : Acc ν ε) (maxDepth : Nat)
    (ids ids2 : List String) (edges edges2 : List ε) (log log2 : List (Stmt × String))
    (h : Expands p root acc0 maxDepth ids edges log) (h1 : ∀ k ∈ ids, k ∈ ids2)
    (h2 : ∀ e ∈ edges, e ∈ edges2) (h3 : ∀ s ∈ log, s ∈ log2) :
    Expands p root acc0 maxDepth ids2 edges2 log2 := by
  intro d hd1 hd2 v hv
  obtain ⟨ha, hb⟩ := h d hd1 hd2 v hv
  exact ⟨h3 _ ha, fun r hr => ⟨h2 _ (hb r hr).1, h1 _ (hb r hr).2⟩⟩

/-- What an earlier pass queried and recorded is still there after a later
pass on the same accumulator. -/
theorem Expands_after (p q : Pass ρ ν ε) (root : String) (acc0 acc : Acc ν ε)
    (maxDepth : Nat)
    (h : Expands p root acc0 maxDepth (NodeMap.keys acc.nodeMap) acc.edges acc.log) :
    Expands p root acc0 maxDepth (NodeMap.keys (bfsPass q root maxDepth acc).nodeMap)
      (bfsPass q root maxDepth acc).edges (bfsPass q root maxDepth acc).log := by
  obtain ⟨hlog, hedges⟩ := bfsPass_expanded q root maxDepth acc
  refine Expands_mono p root acc0 maxDepth _ _ _ _ _ _ h
    (fun k hk => bfsPass_keys_mono q root maxDepth acc k hk) ?_ ?_
  · intro e he
    rw [hedges]
    exact List.mem_append_left _ he
  · intro s hs
    rw [hlog]
    exact List.mem_append_left _ hs

theorem callGraphPasses_eq_with (db : DB) (id : String) (depth : Nat) (direction : String)
    (acc : Acc CallGraphNode CallGraphEdge) :
    callGraphPasses db id depth direction acc
      = callGraphPassesWith (calleesPass db) (callersPass db) id depth direction acc := rfl

theorem callGraphTraverse_eq_with (db : DB) (id : String) (depth : Nat) (direction : String) :
    callGraphTraverse db id depth direction
      = callGraphTraverseWith (fetchCallGraphNode db id 0 true) (calleesPass db)
          (callersPass db) id depth direction := by
  unfold callGraphTraverse callGraphTraverseWith
  cases fetchCallGraphNode db id 0 true <;> rfl

theorem dataFlowPasses_eq_with (db : DB) (id : String) (depth : Nat) (direction : String)
    (acc : Acc DataFlowNode DataFlowEdge) :
    dataFlowPasses db id depth direction acc
      = dataFlowPassesWith (dfgForwardPass db) (dfgBackwardPass db) id depth direction acc := rfl

theorem dataFlowTraverse_eq_with (db : DB) (id : String) (depth : Nat) (direction : String) :
    dataFlowTraverse db id depth direction
      = dataFlowTraverseWith (fetchDFGNode db id 0) (dfgForwardPass db)
          (dfgBackwardPass db) id depth direction := by
  unfold dataFlowTraverse dataFlowTraverseWith
  cases fetchDFGNode db id 0 <;> rfl

/-- Replacing the failed queries of the two passes by queries without rows
changes nothing in `CallGraph`. -/
theorem callGraphTraverseWith_totalised (root : Option CallGraphNode)
    (pOut pIn : Pass CallRow CallGraphNode CallGraphEdge) (id : String) (depth : Nat)
    (direction : String) :
    callGraphTraverseWith root (totalised pOut) (totalised pIn) id depth direction
      = callGraphTraverseWith root pOut pIn id depth direction := by
  unfold callGraphTraverseWith callGraphPassesWith
  simp only [bfsPass_totalised]

/-- Replacing the failed queries of the two passes by queries without rows
changes nothing in `DataFlow`. -/
theorem dataFlowTraverseWith_totalised (root : Option DataFlowNode)
    (pOut pIn : Pass DFGRow DataFlowNode DataFlowEdge) (id : String) (depth : Nat)
    (direction : String) :
    dataFlowTraverseWith root (totalised pOut) (totalised pIn) id depth direction
      = dataFlowTraverseWith root pOut pIn id depth direction := by
  unfold dataFlowTraverseWith dataFlowPassesWith
  simp only [bfsPass_totalised]

theorem filter_filter_keep {α : Type} (l : List α) (p q : α → Bool)
    (h : ∀ a, p a = true → q a = true) : (l.filter q).filter p = l.filter p := by
  induction l with
  | nil => rfl
  | cons a l ih =>
    by_cases hq : q a = true
    · rw [List.filter_cons_of_pos hq]
      by_cases hp : p a = true
      · rw [List.filter_cons_of_pos hp, List.filter_cons_of_pos hp, ih]
      · rw [List.filter_cons_of_neg hp, List.filter_cons_of_neg hp, ih]
    · have hp : ¬ p a = true := fun hp => hq (h a hp)
      rw [List.filter_cons_of_neg hq, List.filter_cons_of_neg hp, ih]

theorem filter_filter_drop {α : Type} (l : List α) (p q : α → Bool)
    (h : ∀ a, p a = true → q a = false) : (l.filter q).filter p = [] := by
  induction l with
  | nil => rfl
  | cons a l ih =>
    by_cases hq : q a = true
    · have hp : ¬ p a = true := fun hp => by
        have := h a hp
        rw [hq] at this
        exact Bool.noConfusion this
      rw [List.filter_cons_of_pos hq, List.filter_cons_of_neg hp, ih]
    · rw [List.filter_cons_of_neg hq, ih]

/-- The edges a neighbour statement matches in `withoutFailed`: none for a
node whose query fails on `db`, those of `db` for the others. -/
theorem withoutFailed_edges (db : DB) (stmt : Stmt) (near : EdgeRow → String) (kind u : String) :
    (withoutFailed db stmt near kind).edges.filter (fun e => near e == u && e.kind == kind)
      = if db.queryErr stmt u then []
        else db.edges.filter (fun e => near e == u && e.kind == kind) := by
  show (db.edges.filter fun e => !(db.queryErr stmt (near e) && e.kind == kind)).filter
      (fun e => near e == u && e.kind == kind) = _
  by_cases hq : db.queryErr stmt u = true
  · rw [if_pos hq]
    apply filter_filter_drop
    intro a ha
    simp only [Bool.and_eq_true, beq_iff_eq] at ha
    simp [ha.1, ha.2, hq]
  · rw [if_neg hq]
    apply filter_filter_keep
    intro a ha
    simp only [Bool.and_eq_true, beq_iff_eq] at ha
    simp [ha.1, hq]

theorem deliver_nil {ρ : Type} (db : DB) (stmt : Stmt) (u : String) :
    deliver db stmt u ([] : List ρ) = [] := by
  unfold deliver
  split <;> simp

theorem selectCallees_withoutFailed (db : DB) (u : String) :
    selectCallees (withoutFailed db Stmt.callees EdgeRow.source "call") u
      = if db.queryErr Stmt.callees u then [] else selectCallees db u := by
  have h := withoutFailed_edges db Stmt.callees EdgeRow.source "call" u
  unfold selectCallees
  rw [h]
  split <;> rfl

theorem selectCallers_withoutFailed (db : DB) (u : String) :
    selectCallers (withoutFailed db Stmt.callers EdgeRow.target "call") u
      = if db.queryErr Stmt.callers u then [] else selectCallers db u := by
  have h := withoutFailed_edges db Stmt.callers EdgeRow.target "call" u
  unfold selectCallers
  rw [h]
  split <;> rfl

theorem selectDFGForward_withoutFailed (db : DB) (u : String) :
    selectDFGForward (withoutFailed db Stmt.dfgForward EdgeRow.source "dfg") u
      = if db.queryErr Stmt.dfgForward u then [] else selectDFGForward db u := by
  have h := withoutFailed_edges db Stmt.dfgForward EdgeRow.source "dfg" u
  unfold selectDFGForward
  rw [h]
  split <;> rfl

theorem selectDFGBackward_withoutFailed (db : DB) (u : String) :
    selectDFGBackward (withoutFailed db Stmt.dfgBackward EdgeRow.target "dfg") u
      = if db.queryErr Stmt.dfgBackward u then [] else selectDFGBackward db u := by
  have h := withoutFailed_edges db Stmt.dfgBackward EdgeRow.target "dfg" u
  unfold selectDFGBackward
  rw [h]
  split <;> rfl

/-- What a neighbour statement contributes: nothing when `db.Query` fails, the
rows read otherwise. -/
theorem rowsOf_runQuery_eq {ρ : Type} (db : DB) (stmt : Stmt) (select : DB → String → List ρ)
    (u : String) :
    (runQuery db stmt select u).getD []
      = if db.queryErr stmt u then [] else deliver db stmt u (select db u) := by
  unfold runQuery
  split <;> rfl

/-- On `withoutFailed` the neighbour statement answers as the totalised
statement of `db`. -/
theorem runQuery_withoutFailed {ρ : Type} (db : DB) (stmt : Stmt) (near : EdgeRow → String)
    (kind : String) (select : DB → String → List ρ)
    (hsel : ∀ u, select (withoutFailed db stmt near kind) u
      = if db.queryErr stmt u then [] else select db u) (u : String) :
    runQuery (withoutFailed db stmt near kind) stmt select u
      = some ((runQuery db stmt select u).getD []) := by
  rw [rowsOf_runQuery_eq]
  have hq : (withoutFailed db stmt near kind).queryErr stmt u = false := by
    show (if stmt = stmt then false else db.queryErr stmt u) = false
    rw [if_pos rfl]
  have hd : ∀ rows : List ρ, deliver (withoutFailed db stmt near kind) stmt u rows
      = deliver db stmt u rows := fun _ => rfl
  unfold runQuery
  rw [hq, hsel, hd]
  simp only [Bool.false_eq_true, if_false]
  split
  · rw [deliver_nil]
  · rfl

theorem calleesPass_withoutFailed (db : DB) :
    calleesPass (withoutFailed db Stmt.callees EdgeRow.source "call")
      = totalised (calleesPass db) := by
  simp only [calleesPass, totalised, rowsOf]
  congr 1
  funext u
  exact runQuery_withoutFailed db Stmt.callees EdgeRow.source "call" selectCallees
    (selectCallees_withoutFailed db) u

theorem callersPass_withoutFailed (db : DB) :
    callersPass (withoutFailed db Stmt.callers EdgeRow.target "call")
      = totalised (callersPass db) := by
  simp only [callersPass, totalised, rowsOf]
  congr 1
  funext u
  exact runQuery_withoutFailed db Stmt.callers EdgeRow.target "call" selectCallers
    (selectCallers_withoutFailed db) u

theorem dfgForwardPass_withoutFailed (db : DB) :
    dfgForwardPass (withoutFailed db Stmt.dfgForward EdgeRow.source "dfg")
      = totalised (dfgForwardPass db) := by
  simp only [dfgForwardPass, totalised, rowsOf]
  congr 1
  funext u
  exact runQuery_withoutFailed db Stmt.dfgForward EdgeRow.source "dfg" selectDFGForward
    (selectDFGForward_withoutFailed db) u

theorem dfgBackwardPass_withoutFailed (db : DB) :
    dfgBackwardPass (withoutFailed db Stmt.dfgBackward EdgeRow.target "dfg")
      = totalised (dfgBackwardPass db) := by
  simp only [dfgBackwardPass, totalised, rowsOf]
  congr 1
  funext u
  exact runQuery_withoutFailed db Stmt.dfgBackward EdgeRow.target "dfg" selectDFGBackward
    (selectDFGBackward_withoutFailed db) u

theorem fetchCallGraphNode_withoutFailed (db : DB) (stmt : Stmt) (near : EdgeRow → String)
    (kind : String) (hs : Stmt.fetchCallGraphNode ≠ stmt) (id : String) (depth : Nat)
    (isRoot : Bool) :
    fetchCallGraphNode (withoutFailed db stmt near kind) id depth isRoot
      = fetchCallGraphNode db id depth isRoot := by
  have hq : (withoutFailed db stmt near kind).queryErr Stmt.fetchCallGraphNode id
      = db.queryErr Stmt.fetchCallGraphNode id := by
    show (if Stmt.fetchCallGraphNode = stmt then false
      else db.queryErr Stmt.fetchCallGraphNode id) = _
    rw [if_neg hs]
  unfold fetchCallGraphNode
  rw [hq]
  rfl

theorem fetchDFGNode_withoutFailed (db : DB) (stmt : Stmt) (near : EdgeRow → String)
    (kind : String) (hs : Stmt.fetchDFGNode ≠ stmt) (id : String) (depth : Nat) :
    fetchDFGNode (withoutFailed db stmt near kind) id depth = fetchDFGNode db id depth := by
  have hq : (withoutFailed db stmt near kind).queryErr Stmt.fetchDFGNode id
      = db.queryErr Stmt.fetchDFGNode id := by
    show (if Stmt.fetchDFGNode = stmt then false else db.queryErr Stmt.fetchDFGNode id) = _
    rw [if_neg hs]
  unfold fetchDFGNode
  rw [hq]
  rfl

/-- A callees traversal answers on `db` as on the store whose failing nodes
have no callees. -/
theorem callGraphTraverse_callees_withoutFailed (db : DB) (id : String) (depth : Nat) :
    callGraphTraverse db id depth "callees"
      = callGraphTraverse (withoutFailed db Stmt.callees EdgeRow.source "call") id depth
          "callees" := by
  have hf := fetchCallGraphNode_withoutFailed db Stmt.callees EdgeRow.source "call"
    (fun hs => Stmt.noConfusion hs) id 0 true
  unfold callGraphTraverse
  rw [hf]
  simp only [callGraphPasses_callees, calleesPass_withoutFailed, bfsPass_totalised]

/-- A callers traversal answers on `db` as on the store whose failing nodes
have no callers. -/
theorem callGraphTraverse_callers_withoutFailed (db : DB) (id : String) (depth : Nat) :
    callGraphTraverse db id depth "callers"
      = callGraphTraverse (withoutFailed db Stmt.callers EdgeRow.target "call") id depth
          "callers" := by
  have hf := fetchCallGraphNode_withoutFailed db Stmt.callers EdgeRow.target "call"
    (fun hs => Stmt.noConfusion hs) id 0 true
  unfold callGraphTraverse
  rw [hf]
  simp only [callGraphPasses_callers, callersPass_withoutFailed, bfsPass_totalised]

/-- A forward traversal answers on `db` as on the store whose failing nodes
have no outgoing data-flow edge. -/
theorem dataFlowTraverse_forward_withoutFailed (db : DB) (id : String) (depth : Nat) :
    dataFlowTraverse db id depth "forward"
      = dataFlowTraverse (withoutFailed db Stmt.dfgForward EdgeRow.source "dfg") id depth
          "forward" := by
  have hf := fetchDFGNode_withoutFailed db Stmt.dfgForward EdgeRow.source "dfg"
    (fun hs => Stmt.noConfusion hs) id 0
  unfold dataFlowTraverse
  rw [hf]
  simp only [dataFlowPasses_forward, dfgForwardPass_withoutFailed, bfsPass_totalised]

/-- A backward traversal answers on `db` as on the store whose failing nodes
have no incoming data-flow edge. -/
theorem dataFlowTraverse_backward_withoutFailed (db : DB) (id : String) (depth : Nat) :
    dataFlowTraverse db id depth "backward"
      = dataFlowTraverse (withoutFailed db Stmt.dfgBackward EdgeRow.target "dfg") id depth
          "backward" := by
  have hf := fetchDFGNode_withoutFailed db Stmt.dfgBackward EdgeRow.target "dfg"
    (fun hs => Stmt.noConfusion hs) id 0
  unfold dataFlowTraverse
  rw [hf]
  simp only [dataFlowPasses_backward, dfgBackwardPass_withoutFailed, bfsPass_totalised]

/-- In a successful `CallGraph` answer every frontier node of every pass run
has been queried and its rows recorded. -/
theorem callGraphTraverse_expands (db : DB) (id : String) (depth : Nat) (direction : String)
    (rn : CallGraphNode) (nodes : List CallGraphNode) (edges : List CallGraphEdge)
    (log : List (Stmt × String)) (h : fetchCallGraphNode db id 0 true = some rn)
    (ht : callGraphTraverse db id depth direction = (Response.graph nodes edges, log)) :
    (direction = "callees" ∨ direction = "both" →
      Expands (calleesPass db) id (seed Stmt.fetchCallGraphNode id rn) depth
        (nodes.map CallGraphNode.ID) edges log) ∧
    (direction = "callers" →
      Expands (callersPass db) id (seed Stmt.fetchCallGraphNode id rn) depth
        (nodes.map CallGraphNode.ID) edges log) ∧
    (direction = "both" →
      Expands (callersPass db) id (bfsCallees db id depth (seed Stmt.fetchCallGraphNode id rn))
        depth (nodes.map CallGraphNode.ID) edges log) := by
  have hrn := fetchCallGraphNode_some db id 0 true rn h
  have hwf := callGraphPasses_WF db id depth direction _ (callGraph_seed_WF id rn hrn.1)
  rw [callGraphTraverse_of_fetch db id depth direction rn h] at ht
  simp only [Prod.mk.injEq, Response.graph.injEq] at ht
  obtain ⟨⟨hn, he⟩, hl⟩ := ht
  subst hn he hl
  rw [values_map_id CallGraphNode.ID _ hwf]
  refine ⟨?_, ?_, ?_⟩
  · rintro (hd | hd)
    · subst hd
      rw [callGraphPasses_callees]
      exact bfsPass_expands (calleesPass db) CallGraphNode.Depth (fun _ _ => rfl) id depth _
    · subst hd
      rw [callGraphPasses_both]
      exact Expands_after (calleesPass db) (callersPass db) id _ _ depth
        (bfsPass_expands (calleesPass db) CallGraphNode.Depth (fun _ _ => rfl) id depth _)
  · intro hd
    subst hd
    rw [callGraphPasses_callers]
    exact bfsPass_expands (callersPass db) CallGraphNode.Depth (fun _ _ => rfl) id depth _
  · intro hd
    subst hd
    rw [callGraphPasses_both]
    exact bfsPass_expands (callersPass db) CallGraphNode.Depth (fun _ _ => rfl) id depth _

/-- In a successful `DataFlow` answer every frontier node of every pass run
has been queried and its rows recorded. -/
theorem dataFlowTraverse_expands (db : DB) (id : String) (depth : Nat) (direction : String)
    (rn : DataFlowNode) (nodes : List DataFlowNode) (edges : List DataFlowEdge)
    (log : List (Stmt × String)) (h : fetchDFGNode db id 0 = some rn)
    (ht : dataFlowTraverse db id depth direction = (Response.graph nodes edges, log)) :
    (direction = "forward" ∨ direction = "both" →
      Expands (dfgForwardPass db) id (seed Stmt.fetchDFGNode id rn) depth
        (nodes.map DataFlowNode.ID) edges log) ∧
    (direction = "backward" →
      Expands (dfgBackwardPass db) id (seed Stmt.fetchDFGNode id rn) depth
        (nodes.map DataFlowNode.ID) edges log) ∧
    (direction = "both" →
      Expands (dfgBackwardPass db) id (bfsDFGForward db id depth (seed Stmt.fetchDFGNode id rn))
        depth (nodes.map DataFlowNode.ID) edges log) := by
  have hrn := fetchDFGNode_some db id 0 rn h
  have hwf := dataFlowPasses_WF db id depth direction _ (dataFlow_seed_WF id rn hrn.1)
  rw [dataFlowTraverse_of_fetch db id depth direction rn h] at ht
  simp only [Prod.mk.injEq, Response.graph.injEq] at ht
  obtain ⟨⟨hn, he⟩, hl⟩ := ht
  subst hn he hl
  rw [values_map_id DataFlowNode.ID _ hwf]
  refine ⟨?_, ?_, ?_⟩
  · rintro (hd | hd)
    · subst hd
      rw [dataFlowPasses_forward]
      exact bfsPass_expands (dfgForwardPass db) DataFlowNode.Depth (fun _ _ => rfl) id depth _
    · subst hd
      rw [dataFlowPasses_both]
      exact Expands_after (dfgForwardPass db) (dfgBackwardPass db) id _ _ depth
        (bfsPass_expands (dfgForwardPass db) DataFlowNode.Depth (fun _ _ => rfl) id depth _)
  · intro hd
    subst hd
    rw [dataFlowPasses_backward]
    exact bfsPass_expands (dfgBackwardPass db) DataFlowNode.Depth (fun _ _ => rfl) id depth _
  · intro hd
    subst hd
    rw [dataFlowPasses_both]
    exact bfsPass_expands (dfgBackwardPass db) DataFlowNode.Depth (fun _ _ => rfl) id depth _

/-! ## The claims -/

/-- C1. For every database, root and `maxDepth` (in particular `maxDepth ≥ 1`),
in each single-direction traversal (call-graph callees and callers, data-flow
forward and backward) the depth stored for a node of the answer (in particular
for every non-root node) is the length of a shortest chain of recorded edges
from the root to that node, followed source-to-target in the outgoing pass and
target-to-source in the incoming pass. -/
theorem C1_bfs_depth_is_shortest_chain (db : DB) (id : String) (maxDepth : Nat) :
    (∀ nodes edges log,
      callGraphTraverse db id maxDepth "callees" = (Response.graph nodes edges, log) →
      ∀ n ∈ nodes,
        ShortestChain CallGraphEdge.Source CallGraphEdge.Target edges id n.ID n.Depth) ∧
    (∀ nodes edges log,
      callGraphTraverse db id maxDepth "callers" = (Response.graph nodes edges, log) →
      ∀ n ∈ nodes,
        ShortestChain CallGraphEdge.Target CallGraphEdge.Source edges id n.ID n.Depth) ∧
    (∀ nodes edges log,
      dataFlowTraverse db id maxDepth "forward" = (Response.graph nodes edges, log) →
      ∀ n ∈ nodes,
        ShortestChain DataFlowEdge.Source DataFlowEdge.Target edges id n.ID n.Depth) ∧
    (∀ nodes edges log,
      dataFlowTraverse db id maxDepth "backward" = (Response.graph nodes edges, log) →
      ∀ n ∈ nodes,
        ShortestChain DataFlowEdge.Target DataFlowEdge.Source edges id n.ID n.Depth) := by
  refine ⟨?_, ?_, ?_, ?_⟩
  · intro nodes edges log h n hn
    obtain ⟨rn, hfetch, hnodes, hedges, _⟩ := callGraphTraverse_graph db id maxDepth _ _ _ _ h
    have hwf := callGraphPasses_WF db id maxDepth "callees" _
      (callGraph_seed_WF id rn
        (fetchCallGraphNode_some db id 0 true rn hfetch).1)
    rw [hnodes, mem_values_find CallGraphNode.ID _ hwf] at hn
    rw [hedges]
    have hp : callGraphPasses db id maxDepth "callees" (seed Stmt.fetchCallGraphNode id rn)
        = bfsPass (calleesPass db) id maxDepth (seed Stmt.fetchCallGraphNode id rn) := by
      simp [callGraphPasses, bfsCallees]
    rw [hp] at hn ⊢
    exact bfsPass_shortest (calleesPass db) CallGraphEdge.Source CallGraphEdge.Target
      CallGraphNode.Depth (fun _ _ => rfl) (fun _ _ => rfl) (fun _ _ => rfl) _ id rn
      (fetchCallGraphNode_some db id 0 true rn hfetch).2.1 maxDepth n.ID n hn
  · intro nodes edges log h n hn
    obtain ⟨rn, hfetch, hnodes, hedges, _⟩ := callGraphTraverse_graph db id maxDepth _ _ _ _ h
    have hwf := callGraphPasses_WF db id maxDepth "callers" _
      (callGraph_seed_WF id rn
        (fetchCallGraphNode_some db id 0 true rn hfetch).1)
    rw [hnodes, mem_values_find CallGraphNode.ID _ hwf] at hn
    rw [hedges]
    have hp : callGraphPasses db id maxDepth "callers" (seed Stmt.fetchCallGraphNode id rn)
        = bfsPass (callersPass db) id maxDepth (seed Stmt.fetchCallGraphNode id rn) := by
      simp [callGraphPasses, bfsCallers]
    rw [hp] at hn ⊢
    exact bfsPass_shortest (callersPass db) CallGraphEdge.Target CallGraphEdge.Source
      CallGraphNode.Depth (fun _ _ => rfl) (fun _ _ => rfl) (fun _ _ => rfl) _ id rn
      (fetchCallGraphNode_some db id 0 true rn hfetch).2.1 maxDepth n.ID n hn
  · intro nodes edges log h n hn
    obtain ⟨rn, hfetch, hnodes, hedges, _⟩ := dataFlowTraverse_graph db id maxDepth _ _ _ _ h
    have hwf := dataFlowPasses_WF db id maxDepth "forward" _
      (dataFlow_seed_WF id rn
        (fetchDFGNode_some db id 0 rn hfetch).1)
    rw [hnodes, mem_values_find DataFlowNode.ID _ hwf] at hn
    rw [hedges]
    have hp : dataFlowPasses db id maxDepth "forward" (seed Stmt.fetchDFGNode id rn)
        = bfsPass (dfgForwardPass db) id maxDepth (seed Stmt.fetchDFGNode id rn) := by
      simp [dataFlowPasses, bfsDFGForward]
    rw [hp] at hn ⊢
    exact bfsPass_shortest (dfgForwardPass db) DataFlowEdge.Source DataFlowEdge.Target
      DataFlowNode.Depth (fun _ _ => rfl) (fun _ _ => rfl) (fun _ _ => rfl) _ id rn
      (fetchDFGNode_some db id 0 rn hfetch).2 maxDepth n.ID n hn
  · intro nodes edges log h n hn
    obtain ⟨rn, hfetch, hnodes, hedges, _⟩ := dataFlowTraverse_graph db id maxDepth _ _ _ _ h
    have hwf := dataFlowPasses_WF db id maxDepth "backward" _
      (dataFlow_seed_WF id rn
        (fetchDFGNode_some db id 0 rn hfetch).1)
    rw [hnodes, mem_values_find DataFlowNode.ID _ hwf] at hn
    rw [hedges]
    have hp : dataFlowPasses db id maxDepth "backward" (seed Stmt.fetchDFGNode id rn)
        = bfsPass (dfgBackwardPass db) id maxDepth (seed Stmt.fetchDFGNode id rn) := by
      simp [dataFlowPasses, bfsDFGBackward]
    rw [hp] at hn ⊢
    exact bfsPass_shortest (dfgBackwardPass db) DataFlowEdge.Target DataFlowEdge.Source
      DataFlowNode.Depth (fun _ _ => rfl) (fun _ _ => rfl) (fun _ _ => rfl) _ id rn
      (fetchDFGNode_some db id 0 rn hfetch).2 maxDepth n.ID n hn

/-- C1 at the store `f1 → f2 → f3`: in the callees traversal from `f1` the node
`f3`, stored at depth 2, has a shortest chain of two recorded edges. -/
theorem C1_witness :
    ShortestChain CallGraphEdge.Source CallGraphEdge.Target
      [cgEdge "f1" "f2", cgEdge "f2" "f3"] "f1" (cgNode "f3" false 2).ID
      (cgNode "f3" false 2).Depth :=
  (C1_bfs_depth_is_shortest_chain chainDB "f1" 2).1
    [cgNode "f1" true 0, cgNode "f2" false 1, cgNode "f3" false 2]
    [cgEdge "f1" "f2", cgEdge "f2" "f3"]
    [(Stmt.fetchCallGraphNode, "f1"), (Stmt.callees, "f1"), (Stmt.callees, "f2")]
    (by rfl) (cgNode "f3" false 2) (by simp)

/-- C2. For every database, root, depth and direction value (callees / callers
/ both for the call graph, forward / backward / both for data flow, and any
other value), every node of a successful answer other than the root has a
recorded edge that joins it to a node of the answer of strictly smaller
depth. -/
theorem C2_non_root_has_shallower_neighbour (db : DB) (id : String) (depth : Nat)
    (direction : String) :
    (∀ nodes edges log,
      callGraphTraverse db id depth direction = (Response.graph nodes edges, log) →
      ∀ n ∈ nodes, n.ID ≠ id →
        ∃ e ∈ edges, ∃ n' ∈ nodes, n'.Depth < n.Depth ∧
          Connects CallGraphEdge.Source CallGraphEdge.Target e n.ID n'.ID) ∧
    (∀ nodes edges log,
      dataFlowTraverse db id depth direction = (Response.graph nodes edges, log) →
      ∀ n ∈ nodes, n.ID ≠ id →
        ∃ e ∈ edges, ∃ n' ∈ nodes, n'.Depth < n.Depth ∧
          Connects DataFlowEdge.Source DataFlowEdge.Target e n.ID n'.ID) := by
  refine ⟨?_, ?_⟩
  · intro nodes edges log h n hn hne
    obtain ⟨rn, hfetch, hnodes, hedges, _⟩ := callGraphTraverse_graph db id depth _ _ _ _ h
    have hrn := fetchCallGraphNode_some db id 0 true rn hfetch
    have hwf := callGraphPasses_WF db id depth direction _
      (callGraph_seed_WF id rn hrn.1)
    have hpar := callGraphPasses_keeps db id depth direction
      (HasParents CallGraphEdge.Source CallGraphEdge.Target CallGraphNode.Depth id)
      (fun a ha => bfsPass_hasParents (calleesPass db) _ _ _ (fun _ _ => Or.inr ⟨rfl, rfl⟩)
        (fun _ _ => rfl) id depth a ha)
      (fun a ha => bfsPass_hasParents (callersPass db) _ _ _ (fun _ _ => Or.inl ⟨rfl, rfl⟩)
        (fun _ _ => rfl) id depth a ha)
      _ (seed_hasParents _ _ _ Stmt.fetchCallGraphNode id rn hrn.2.1)
    rw [hnodes, mem_values_find CallGraphNode.ID _ hwf] at hn
    obtain ⟨e, he, k', n', h1, h2, h3⟩ := hpar.2 n.ID n hn hne
    have hk' : n'.ID = k' := hwf.2 k' n' h1
    refine ⟨e, hedges ▸ he, n', ?_, h2, hk'.symm ▸ h3⟩
    rw [hnodes, mem_values_find CallGraphNode.ID _ hwf, hk']
    exact h1
  · intro nodes edges log h n hn hne
    obtain ⟨rn, hfetch, hnodes, hedges, _⟩ := dataFlowTraverse_graph db id depth _ _ _ _ h
    have hrn := fetchDFGNode_some db id 0 rn hfetch
    have hwf := dataFlowPasses_WF db id depth direction _
      (dataFlow_seed_WF id rn hrn.1)
    have hpar := dataFlowPasses_keeps db id depth direction
      (HasParents DataFlowEdge.Source DataFlowEdge.Target DataFlowNode.Depth id)
      (fun a ha => bfsPass_hasParents (dfgForwardPass db) _ _ _ (fun _ _ => Or.inr ⟨rfl, rfl⟩)
        (fun _ _ => rfl) id depth a ha)
      (fun a ha => bfsPass_hasParents (dfgBackwardPass db) _ _ _ (fun _ _ => Or.inl ⟨rfl, rfl⟩)
        (fun _ _ => rfl) id depth a ha)
      _ (seed_hasParents _ _ _ Stmt.fetchDFGNode id rn hrn.2)
    rw [hnodes, mem_values_find DataFlowNode.ID _ hwf] at hn
    obtain ⟨e, he, k', n', h1, h2, h3⟩ := hpar.2 n.ID n hn hne
    have hk' : n'.ID = k' := hwf.2 k' n' h1
    refine ⟨e, hedges ▸ he, n', ?_, h2, hk'.symm ▸ h3⟩
    rw [hnodes, mem_values_find DataFlowNode.ID _ hwf, hk']
    exact h1

/-- C2 at the store `f1 → f2 → f3`: in the callees traversal from `f1` the node
`f3` has a recorded edge to a node of smaller depth. -/
theorem C2_witness :
    ∃ e ∈ [cgEdge "f1" "f2", cgEdge "f2" "f3"],
      ∃ n' ∈ [cgNode "f1" true 0, cgNode "f2" false 1, cgNode "f3" false 2],
        n'.Depth < (cgNode "f3" false 2).Depth ∧
          Connects CallGraphEdge.Source CallGraphEdge.Target e (cgNode "f3" false 2).ID n'.ID :=
  (C2_non_root_has_shallower_neighbour chainDB "f1" 2 "callees").1
    [cgNode "f1" true 0, cgNode "f2" false 1, cgNode "f3" false 2]
    [cgEdge "f1" "f2", cgEdge "f2" "f3"]
    [(Stmt.fetchCallGraphNode, "f1"), (Stmt.callees, "f1"), (Stmt.callees, "f2")]
    (by rfl) (cgNode "f3" false 2) (by simp) (by decide)

/-- C3. For every database, root and depth, the "both" traversal (second pass
run on the accumulator the first pass left) returns no more than the two
single-direction traversals run separately: every node identifier of its
answer is a node identifier of the outgoing-only or of the incoming-only
answer, and its edge list is, as a multiset, contained in the concatenation of
their edge lists; this for the call graph and for data flow.  And on the store
`R → A`, `A → R`, `X → A` the separate traversals return strictly more: the
node `X` and two more edges. -/
theorem C3_both_within_merge_of_single_directions (db : DB) (id : String) (maxDepth : Nat) :
    (∀ nb eb lb no eo lo ni ei li,
      callGraphTraverse db id maxDepth "both" = (Response.graph nb eb, lb) →
      callGraphTraverse db id maxDepth "callees" = (Response.graph no eo, lo) →
      callGraphTraverse db id maxDepth "callers" = (Response.graph ni ei, li) →
      (∀ n ∈ nb, n.ID ∈ no.map CallGraphNode.ID ∨ n.ID ∈ ni.map CallGraphNode.ID) ∧
      eb.Subperm (eo ++ ei)) ∧
    (∀ nb eb lb no eo lo ni ei li,
      dataFlowTraverse db id maxDepth "both" = (Response.graph nb eb, lb) →
      dataFlowTraverse db id maxDepth "forward" = (Response.graph no eo, lo) →
      dataFlowTraverse db id maxDepth "backward" = (Response.graph ni ei, li) →
      (∀ n ∈ nb, n.ID ∈ no.map DataFlowNode.ID ∨ n.ID ∈ ni.map DataFlowNode.ID) ∧
      eb.Subperm (eo ++ ei)) ∧
    ("X" ∈ (callGraphTraverse blockedDB "R" 2 "callers").1.nodes.map CallGraphNode.ID ∧
      "X" ∉ (callGraphTraverse blockedDB "R" 2 "both").1.nodes.map CallGraphNode.ID ∧
      (callGraphTraverse blockedDB "R" 2 "both").1.edges.length + 2
        = ((callGraphTraverse blockedDB "R" 2 "callees").1.edges ++
            (callGraphTraverse blockedDB "R" 2 "callers").1.edges).length) := by
  refine ⟨?_, ?_, ?_⟩
  · intro nb eb lb no eo lo ni ei li hb ho hi
    obtain ⟨rn, hfetch, hnb, heb, _⟩ := callGraphTraverse_graph db id maxDepth _ _ _ _ hb
    obtain ⟨rn1, hfetch1, hno, heo, _⟩ := callGraphTraverse_graph db id maxDepth _ _ _ _ ho
    obtain ⟨rn2, hfetch2, hni, hei, _⟩ := callGraphTraverse_graph db id maxDepth _ _ _ _ hi
    rw [hfetch] at hfetch1 hfetch2
    cases hfetch1
    cases hfetch2
    rw [callGraphPasses_both] at hnb heb
    rw [callGraphPasses_callees] at hno heo
    rw [callGraphPasses_callers] at hni hei
    have := twoPasses_within_merge (calleesPass db) (callersPass db) CallGraphNode.ID
      (fun _ _ => rfl) (fun _ _ => rfl) Stmt.fetchCallGraphNode id rn
      (fetchCallGraphNode_some db id 0 true rn hfetch).1 maxDepth
    rw [hnb, heb, hno, heo, hni, hei]
    exact this
  · intro nb eb lb no eo lo ni ei li hb ho hi
    obtain ⟨rn, hfetch, hnb, heb, _⟩ := dataFlowTraverse_graph db id maxDepth _ _ _ _ hb
    obtain ⟨rn1, hfetch1, hno, heo, _⟩ := dataFlowTraverse_graph db id maxDepth _ _ _ _ ho
    obtain ⟨rn2, hfetch2, hni, hei, _⟩ := dataFlowTraverse_graph db id maxDepth _ _ _ _ hi
    rw [hfetch] at hfetch1 hfetch2
    cases hfetch1
    cases hfetch2
    rw [dataFlowPasses_both] at hnb heb
    rw [dataFlowPasses_forward] at hno heo
    rw [dataFlowPasses_backward] at hni hei
    have := twoPasses_within_merge (dfgForwardPass db) (dfgBackwardPass db) DataFlowNode.ID
      (fun _ _ => rfl) (fun _ _ => rfl) Stmt.fetchDFGNode id rn
      (fetchDFGNode_some db id 0 rn hfetch).1 maxDepth
    rw [hnb, heb, hno, heo, hni, hei]
    exact this
  · refine ⟨by decide, by decide, by decide⟩

/-- C3 at the store `R → A`, `A → R`, `X → A`: the three edges of the "both"
traversal from `R` are among the five of the two separate traversals. -/
theorem C3_witness :
    [cgEdge "R" "A", cgEdge "A" "R", cgEdge "A" "R"].Subperm
      ([cgEdge "R" "A", cgEdge "A" "R"] ++
        [cgEdge "A" "R", cgEdge "R" "A", cgEdge "X" "A"]) :=
  ((C3_both_within_merge_of_single_directions blockedDB "R" 2).1
    [cgNode "R" true 0, cgNode "A" false 1]
    [cgEdge "R" "A", cgEdge "A" "R", cgEdge "A" "R"]
    [(Stmt.fetchCallGraphNode, "R"), (Stmt.callees, "R"), (Stmt.callees, "A"),
      (Stmt.callers, "R")]
    [cgNode "R" true 0, cgNode "A" false 1]
    [cgEdge "R" "A", cgEdge "A" "R"]
    [(Stmt.fetchCallGraphNode, "R"), (Stmt.callees, "R"), (Stmt.callees, "A")]
    [cgNode "R" true 0, cgNode "A" false 1, cgNode "X" false 2]
    [cgEdge "A" "R", cgEdge "R" "A", cgEdge "X" "A"]
    [(Stmt.fetchCallGraphNode, "R"), (Stmt.callers, "R"), (Stmt.callers, "A")]
    (by rfl) (by rfl) (by rfl)).2

/-- C4 (as amended). In every traversal each node identifier occurs once in the
node list and the root has depth 0; the depth of any other node is the level
at which it was first stored: in a single-direction traversal the first level
at which the pass gets it back as a neighbour; in a "both" traversal the first
such level of the outgoing pass when the outgoing pass gets it back at all,
and otherwise the first such level of the incoming pass. -/
theorem C4_depth_is_first_storing_level (db : DB) (id : String) (maxDepth : Nat)
    (direction : String) :
    (∀ rn nodes edges log, fetchCallGraphNode db id 0 true = some rn →
      callGraphTraverse db id maxDepth direction = (Response.graph nodes edges, log) →
      (nodes.map CallGraphNode.ID).Nodup ∧
      (∀ n ∈ nodes, n.ID = id → n.Depth = 0) ∧
      ∀ n ∈ nodes, n.ID ≠ id →
        (direction = "callees" →
          FirstReturnedAt (calleesPass db) id (seed Stmt.fetchCallGraphNode id rn) maxDepth
            n.ID n.Depth) ∧
        (direction = "callers" →
          FirstReturnedAt (callersPass db) id (seed Stmt.fetchCallGraphNode id rn) maxDepth
            n.ID n.Depth) ∧
        (direction = "both" →
          (ReturnedBy (calleesPass db) id (seed Stmt.fetchCallGraphNode id rn) maxDepth n.ID →
            FirstReturnedAt (calleesPass db) id (seed Stmt.fetchCallGraphNode id rn) maxDepth
              n.ID n.Depth) ∧
          (¬ ReturnedBy (calleesPass db) id (seed Stmt.fetchCallGraphNode id rn) maxDepth n.ID →
            FirstReturnedAt (callersPass db) id
              (bfsCallees db id maxDepth (seed Stmt.fetchCallGraphNode id rn)) maxDepth
              n.ID n.Depth))) ∧
    (∀ rn nodes edges log, fetchDFGNode db id 0 = some rn →
      dataFlowTraverse db id maxDepth direction = (Response.graph nodes edges, log) →
      (nodes.map DataFlowNode.ID).Nodup ∧
      (∀ n ∈ nodes, n.ID = id → n.Depth = 0) ∧
      ∀ n ∈ nodes, n.ID ≠ id →
        (direction = "forward" →
          FirstReturnedAt (dfgForwardPass db) id (seed Stmt.fetchDFGNode id rn) maxDepth
            n.ID n.Depth) ∧
        (direction = "backward" →
          FirstReturnedAt (dfgBackwardPass db) id (seed Stmt.fetchDFGNode id rn) maxDepth
            n.ID n.Depth) ∧
        (direction = "both" →
          (ReturnedBy (dfgForwardPass db) id (seed Stmt.fetchDFGNode id rn) maxDepth n.ID →
            FirstReturnedAt (dfgForwardPass db) id (seed Stmt.fetchDFGNode id rn) maxDepth
              n.ID n.Depth) ∧
          (¬ ReturnedBy (dfgForwardPass db) id (seed Stmt.fetchDFGNode id rn) maxDepth n.ID →
            FirstReturnedAt (dfgBackwardPass db) id
              (bfsDFGForward db id maxDepth (seed Stmt.fetchDFGNode id rn)) maxDepth
              n.ID n.Depth))) := by
  refine ⟨?_, ?_⟩
  · intro rn nodes edges log hfetch h
    obtain ⟨rn', hfetch', hnodes, _, _⟩ := callGraphTraverse_graph db id maxDepth _ _ _ _ h
    rw [hfetch] at hfetch'
    cases hfetch'
    have hrn := fetchCallGraphNode_some db id 0 true rn hfetch
    have hwf := callGraphPasses_WF db id maxDepth direction _
      (callGraph_seed_WF id rn hrn.1)
    have h8 := callGraphPasses_rootKept db id maxDepth direction rn hfetch
    refine ⟨?_, ?_, ?_⟩
    · rw [hnodes, values_map_id CallGraphNode.ID _ hwf]
      exact hwf.1
    · intro n hn hid
      rw [hnodes, mem_values_find CallGraphNode.ID _ hwf, hid, h8.1] at hn
      rw [← Option.some.inj hn]
      exact hrn.2.1
    · intro n hn hne
      rw [hnodes, mem_values_find CallGraphNode.ID _ hwf] at hn
      refine ⟨?_, ?_, ?_⟩
      · intro hdir
        subst hdir
        have hp : callGraphPasses db id maxDepth "callees" (seed Stmt.fetchCallGraphNode id rn)
            = bfsPass (calleesPass db) id maxDepth (seed Stmt.fetchCallGraphNode id rn) := by
          simp [callGraphPasses, bfsCallees]
        rw [hp] at hn
        rcases (bfsPass_discovery (calleesPass db) CallGraphNode.Depth (fun _ _ => rfl) id
          maxDepth _).1 n.ID n hn with h1 | ⟨_, h1⟩
        · exact absurd (seed_find _ id rn _ _ h1).1 hne
        · exact h1
      · intro hdir
        subst hdir
        have hp : callGraphPasses db id maxDepth "callers" (seed Stmt.fetchCallGraphNode id rn)
            = bfsPass (callersPass db) id maxDepth (seed Stmt.fetchCallGraphNode id rn) := by
          simp [callGraphPasses, bfsCallers]
        rw [hp] at hn
        rcases (bfsPass_discovery (callersPass db) CallGraphNode.Depth (fun _ _ => rfl) id
          maxDepth _).1 n.ID n hn with h1 | ⟨_, h1⟩
        · exact absurd (seed_find _ id rn _ _ h1).1 hne
        · exact h1
      · intro hdir
        subst hdir
        have hp : callGraphPasses db id maxDepth "both" (seed Stmt.fetchCallGraphNode id rn)
            = bfsPass (callersPass db) id maxDepth
                (bfsPass (calleesPass db) id maxDepth (seed Stmt.fetchCallGraphNode id rn)) := by
          simp [callGraphPasses, bfsCallers, bfsCallees]
        rw [hp] at hn
        exact twoPasses_discovery (calleesPass db) (callersPass db) CallGraphNode.Depth
          (fun _ _ => rfl) (fun _ _ => rfl) _ id rn maxDepth n.ID n hne hn
  · intro rn nodes edges log hfetch h
    obtain ⟨rn', hfetch', hnodes, _, _⟩ := dataFlowTraverse_graph db id maxDepth _ _ _ _ h
    rw [hfetch] at hfetch'
    cases hfetch'
    have hrn := fetchDFGNode_some db id 0 rn hfetch
    have hwf := dataFlowPasses_WF db id maxDepth direction _
      (dataFlow_seed_WF id rn hrn.1)
    have h8 := dataFlowPasses_rootKept db id maxDepth direction rn
    refine ⟨?_, ?_, ?_⟩
    · rw [hnodes, values_map_id DataFlowNode.ID _ hwf]
      exact hwf.1
    · intro n hn hid
      rw [hnodes, mem_values_find DataFlowNode.ID _ hwf, hid, h8.1] at hn
      rw [← Option.some.inj hn]
      exact hrn.2
    · intro n hn hne
      rw [hnodes, mem_values_find DataFlowNode.ID _ hwf] at hn
      refine ⟨?_, ?_, ?_⟩
      · intro hdir
        subst hdir
        have hp : dataFlowPasses db id maxDepth "forward" (seed Stmt.fetchDFGNode id rn)
            = bfsPass (dfgForwardPass db) id maxDepth (seed Stmt.fetchDFGNode id rn) := by
          simp [dataFlowPasses, bfsDFGForward]
        rw [hp] at hn
        rcases (bfsPass_discovery (dfgForwardPass db) DataFlowNode.Depth (fun _ _ => rfl) id
          maxDepth _).1 n.ID n hn with h1 | ⟨_, h1⟩
        · exact absurd (seed_find _ id rn _ _ h1).1 hne
        · exact h1
      · intro hdir
        subst hdir
        have hp : dataFlowPasses db id maxDepth "backward" (seed Stmt.fetchDFGNode id rn)
            = bfsPass (dfgBackwardPass db) id maxDepth (seed Stmt.fetchDFGNode id rn) := by
          simp [dataFlowPasses, bfsDFGBackward]
        rw [hp] at hn
        rcases (bfsPass_discovery (dfgBackwardPass db) DataFlowNode.Depth (fun _ _ => rfl) id
          maxDepth _).1 n.ID n hn with h1 | ⟨_, h1⟩
        · exact absurd (seed_find _ id rn _ _ h1).1 hne
        · exact h1
      · intro hdir
        subst hdir
        have hp : dataFlowPasses db id maxDepth "both" (seed Stmt.fetchDFGNode id rn)
            = bfsPass (dfgBackwardPass db) id maxDepth
                (bfsPass (dfgForwardPass db) id maxDepth (seed Stmt.fetchDFGNode id rn)) := by
          simp [dataFlowPasses, bfsDFGBackward, bfsDFGForward]
        rw [hp] at hn
        exact twoPasses_discovery (dfgForwardPass db) (dfgBackwardPass db) DataFlowNode.Depth
          (fun _ _ => rfl) (fun _ _ => rfl) _ id rn maxDepth n.ID n hne hn

/-- C4 fails as stated: on the cycle `R → A → V → R` the "both" traversal from
`R` with depth 2 stores `V` at depth 2 (found by the outgoing pass at level 2),
although the incoming pass gets `V` back at level 1. -/
theorem C4_counterexample_depth_not_minimal_over_both_passes :
    (callGraphTraverse cycleDB "R" 2 "both").1.nodes
      = [cgNode "R" true 0, cgNode "A" false 1, cgNode "V" false 2] ∧
    ¬ FirstReturnedByEither (calleesPass cycleDB) (callersPass cycleDB) "R"
        (seed Stmt.fetchCallGraphNode "R" (cgNode "R" true 0)) 2 "V" 2 := by
  refine ⟨by rfl, ?_⟩
  intro h
  have h1 := h.2 1 (by decide) (by decide) (Or.inr (by decide))
  omega

/-- C4 (as amended) at the cycle `R → A → V → R`: in the "both" traversal from
`R` the depth 2 of `V` is the first level at which the outgoing pass gets `V`
back. -/
theorem C4_witness :
    FirstReturnedAt (calleesPass cycleDB) "R"
      (seed Stmt.fetchCallGraphNode "R" (cgNode "R" true 0)) 2 "V" 2 :=
  ((((C4_depth_is_first_storing_level cycleDB "R" 2 "both").1 (cgNode "R" true 0)
    [cgNode "R" true 0, cgNode "A" false 1, cgNode "V" false 2]
    [cgEdge "R" "A", cgEdge "A" "V", cgEdge "V" "R"]
    [(Stmt.fetchCallGraphNode, "R"), (Stmt.callees, "R"), (Stmt.callees, "A"),
      (Stmt.callers, "R")]
    (by rfl) (by rfl)).2.2 (cgNode "V" false 2) (by simp) (by decide)).2.2 rfl).1
    ⟨2, by decide, by decide, by decide⟩

/-- C5. In every single-direction traversal (callees, callers, forward,
backward) no statement is sent twice, so every node is expanded at most once,
and the edge list holds at most `cap` edges recorded from any one node `u`
(source `u` in an outgoing pass, target `u` in an incoming pass), `cap` being
30 for the call graph and 25 for data flow, the `LIMIT` of the statements.
With depth 1, a root whose callees statement returns its full 30 rows, with
distinct identifiers other than the root, gets exactly 31 nodes and 30 edges;
so does the root `r` of the store in which `r` calls forty distinct
functions. -/
theorem C5_fan_out_cap (db : DB) (id : String) (maxDepth : Nat) (u : String) :
    (∀ nodes edges log,
      callGraphTraverse db id maxDepth "callees" = (Response.graph nodes edges, log) →
      log.Nodup ∧ (edges.filter fun e => e.Source == u).length ≤ 30) ∧
    (∀ nodes edges log,
      callGraphTraverse db id maxDepth "callers" = (Response.graph nodes edges, log) →
      log.Nodup ∧ (edges.filter fun e => e.Target == u).length ≤ 30) ∧
    (∀ nodes edges log,
      dataFlowTraverse db id maxDepth "forward" = (Response.graph nodes edges, log) →
      log.Nodup ∧ (edges.filter fun e => e.Source == u).length ≤ 25) ∧
    (∀ nodes edges log,
      dataFlowTraverse db id maxDepth "backward" = (Response.graph nodes edges, log) →
      log.Nodup ∧ (edges.filter fun e => e.Target == u).length ≤ 25) ∧
    (∀ nodes edges log,
      callGraphTraverse db id 1 "callees" = (Response.graph nodes edges, log) →
      (rowsOf (calleesPass db) id).length = 30 →
      ((rowsOf (calleesPass db) id).map CallRow.id).Nodup →
      id ∉ (rowsOf (calleesPass db) id).map CallRow.id →
      nodes.length = 31 ∧ edges.length = 30) ∧
    ((callGraphTraverse hubDB "r" 1 "callees").1.nodes.length = 31 ∧
      (callGraphTraverse hubDB "r" 1 "callees").1.edges.length = 30) := by
  refine ⟨?_, ?_, ?_, ?_, ?_, ?_⟩
  · intro nodes edges log h
    obtain ⟨rn, _, _, hedges, hlog⟩ := callGraphTraverse_graph db id maxDepth _ _ _ _ h
    have hp : callGraphPasses db id maxDepth "callees" (seed Stmt.fetchCallGraphNode id rn)
        = bfsPass (calleesPass db) id maxDepth (seed Stmt.fetchCallGraphNode id rn) := by
      simp [callGraphPasses, bfsCallees]
    rw [hedges, hlog, hp]
    have := bfsPass_fanOut (calleesPass db) CallGraphEdge.Source (fun _ _ => rfl) 30
      (rowsOf_runQuery_length db _ _ 30 (fun v => List.length_take_le _ _))
      Stmt.fetchCallGraphNode (fun hs => Stmt.noConfusion hs) id rn maxDepth
    exact ⟨this.1, this.2 u⟩
  · intro nodes edges log h
    obtain ⟨rn, _, _, hedges, hlog⟩ := callGraphTraverse_graph db id maxDepth _ _ _ _ h
    have hp : callGraphPasses db id maxDepth "callers" (seed Stmt.fetchCallGraphNode id rn)
        = bfsPass (callersPass db) id maxDepth (seed Stmt.fetchCallGraphNode id rn) := by
      simp [callGraphPasses, bfsCallers]
    rw [hedges, hlog, hp]
    have := bfsPass_fanOut (callersPass db) CallGraphEdge.Target (fun _ _ => rfl) 30
      (rowsOf_runQuery_length db _ _ 30 (fun v => List.length_take_le _ _))
      Stmt.fetchCallGraphNode (fun hs => Stmt.noConfusion hs) id rn maxDepth
    exact ⟨this.1, this.2 u⟩
  · intro nodes edges log h
    obtain ⟨rn, _, _, hedges, hlog⟩ := dataFlowTraverse_graph db id maxDepth _ _ _ _ h
    have hp : dataFlowPasses db id maxDepth "forward" (seed Stmt.fetchDFGNode id rn)
        = bfsPass (dfgForwardPass db) id maxDepth (seed Stmt.fetchDFGNode id rn) := by
      simp [dataFlowPasses, bfsDFGForward]
    rw [hedges, hlog, hp]
    have := bfsPass_fanOut (dfgForwardPass db) DataFlowEdge.Source (fun _ _ => rfl) 25
      (rowsOf_runQuery_length db _ _ 25 (fun v => List.length_take_le _ _))
      Stmt.fetchDFGNode (fun hs => Stmt.noConfusion hs) id rn maxDepth
    exact ⟨this.1, this.2 u⟩
  · intro nodes edges log h
    obtain ⟨rn, _, _, hedges, hlog⟩ := dataFlowTraverse_graph db id maxDepth _ _ _ _ h
    have hp : dataFlowPasses db id maxDepth "backward" (seed Stmt.fetchDFGNode id rn)
        = bfsPass (dfgBackwardPass db) id maxDepth (seed Stmt.fetchDFGNode id rn) := by
      simp [dataFlowPasses, bfsDFGBackward]
    rw [hedges, hlog, hp]
    have := bfsPass_fanOut (dfgBackwardPass db) DataFlowEdge.Target (fun _ _ => rfl) 25
      (rowsOf_runQuery_length db _ _ 25 (fun v => List.length_take_le _ _))
      Stmt.fetchDFGNode (fun hs => Stmt.noConfusion hs) id rn maxDepth
    exact ⟨this.1, this.2 u⟩
  · intro nodes edges log h hlen hnd hroot
    obtain ⟨rn, _, hnodes, hedges, _⟩ := callGraphTraverse_graph db id 1 _ _ _ _ h
    have hp : callGraphPasses db id 1 "callees" (seed Stmt.fetchCallGraphNode id rn)
        = bfsPass (calleesPass db) id 1 (seed Stmt.fetchCallGraphNode id rn) := by
      simp [callGraphPasses, bfsCallees]
    have := bfsPass_one_level (calleesPass db) Stmt.fetchCallGraphNode id rn hnd hroot
    rw [hnodes, hedges, hp, this.1, this.2, hlen]
    exact ⟨rfl, rfl⟩
  · constructor <;> decide

/-- C5 at the store `f1 → f2 → f3`: the callees traversal from `f1` sends no
statement twice and records at most 30 edges from `f1`. -/
theorem C5_witness :
    [(Stmt.fetchCallGraphNode, "f1"), (Stmt.callees, "f1"), (Stmt.callees, "f2")].Nodup ∧
      ([cgEdge "f1" "f2", cgEdge "f2" "f3"].filter fun e => e.Source == "f1").length ≤ 30 :=
  (C5_fan_out_cap chainDB "f1" 2 "f1").1
    [cgNode "f1" true 0, cgNode "f2" false 1, cgNode "f3" false 2]
    [cgEdge "f1" "f2", cgEdge "f2" "f3"]
    [(Stmt.fetchCallGraphNode, "f1"), (Stmt.callees, "f1"), (Stmt.callees, "f2")]
    (by rfl)

/-- C6. For a request with a non-empty root id, `CallGraph` and `DataFlow`
answer 404 exactly when the root fetch yields no node (which, unless the
database itself reports an error, is when table `nodes` has no row with that
id); the 404 answer carries no node or edge and the only statement sent is
the root fetch; when the fetch yields a node the answer is a graph containing
that node. -/
theorem C6_not_found_iff_root_unresolved (atoi : String → Option Int) (db : DB) (r : Request)
    (hid : r.id ≠ "") :
    (((CallGraph atoi db r).1 = Response.error "function not found" 404 ↔
        fetchCallGraphNode db r.id 0 true = none) ∧
      (fetchCallGraphNode db r.id 0 true = none →
        CallGraph atoi db r
          = (Response.error "function not found" 404, [(Stmt.fetchCallGraphNode, r.id)])) ∧
      (∀ rn, fetchCallGraphNode db r.id 0 true = some rn →
        ∃ nodes edges, (CallGraph atoi db r).1 = Response.graph nodes edges ∧ rn ∈ nodes) ∧
      (db.queryErr Stmt.fetchCallGraphNode r.id = false →
        (fetchCallGraphNode db r.id 0 true = none ↔ ∀ n ∈ db.nodes, n.id ≠ r.id))) ∧
    (((DataFlow atoi db r).1 = Response.error "node not found" 404 ↔
        fetchDFGNode db r.id 0 = none) ∧
      (fetchDFGNode db r.id 0 = none →
        DataFlow atoi db r = (Response.error "node not found" 404, [(Stmt.fetchDFGNode, r.id)])) ∧
      (∀ rn, fetchDFGNode db r.id 0 = some rn →
        ∃ nodes edges, (DataFlow atoi db r).1 = Response.graph nodes edges ∧ rn ∈ nodes) ∧
      (db.queryErr Stmt.fetchDFGNode r.id = false →
        (fetchDFGNode db r.id 0 = none ↔ ∀ n ∈ db.nodes, n.id ≠ r.id))) := by
  have hcg : ∀ rn, fetchCallGraphNode db r.id 0 true = some rn →
      ∃ nodes edges, (CallGraph atoi db r).1 = Response.graph nodes edges ∧ rn ∈ nodes := by
    intro rn h
    simp only [CallGraph, hid, if_false]
    exact callGraphTraverse_some db r.id _ _ rn h
  have hcg0 : fetchCallGraphNode db r.id 0 true = none →
      CallGraph atoi db r
        = (Response.error "function not found" 404, [(Stmt.fetchCallGraphNode, r.id)]) := by
    intro h
    simp only [CallGraph, hid, if_false, callGraphTraverse, h]
  have hdf : ∀ rn, fetchDFGNode db r.id 0 = some rn →
      ∃ nodes edges, (DataFlow atoi db r).1 = Response.graph nodes edges ∧ rn ∈ nodes := by
    intro rn h
    simp only [DataFlow, hid, if_false]
    exact dataFlowTraverse_some db r.id _ _ rn h
  have hdf0 : fetchDFGNode db r.id 0 = none →
      DataFlow atoi db r = (Response.error "node not found" 404, [(Stmt.fetchDFGNode, r.id)]) := by
    intro h
    simp only [DataFlow, hid, if_false, dataFlowTraverse, h]
  refine ⟨⟨⟨?_, fun h => by rw [hcg0 h]⟩, hcg0, hcg,
      fetchCallGraphNode_none_iff db r.id 0 true⟩,
    ⟨⟨?_, fun h => by rw [hdf0 h]⟩, hdf0, hdf, fetchDFGNode_none_iff db r.id 0⟩⟩
  · intro h
    cases hf : fetchCallGraphNode db r.id 0 true with
    | none => rfl
    | some rn =>
      obtain ⟨nodes, edges, h1, _⟩ := hcg rn hf
      rw [h1] at h
      cases h
  · intro h
    cases hf : fetchDFGNode db r.id 0 with
    | none => rfl
    | some rn =>
      obtain ⟨nodes, edges, h1, _⟩ := hdf rn hf
      rw [h1] at h
      cases h

/-- C6 at the store `f1 → f2 → f3`: the request for the unknown id `g` is
answered 404 after the root fetch alone. -/
theorem C6_witness :
    CallGraph (fun _ => none) chainDB { id := "g", depth := "", direction := "" }
      = (Response.error "function not found" 404, [(Stmt.fetchCallGraphNode, "g")]) :=
  (C6_not_found_iff_root_unresolved (fun _ => none) chainDB
    { id := "g", depth := "", direction := "" } (by decide)).1.2.1 (by rfl)

/-- C7 (as amended). For every store, root, depth bound and direction value:
a neighbour query for which `db.Query` returns an error counts as a query
without rows and stops nothing. The answer of `CallGraph` and of `DataFlow`
(nodes, edges and statements sent) is the one the handler gives when each
pass has its failed queries replaced by queries returning no rows, where a
query contributes no rows when `db.Query` fails and the rows read otherwise;
for a traversal in a single direction it is also the answer on the store that
is identical except that the nodes whose query fails have no neighbours in that
direction and that query no longer fails. The traversal succeeds whenever the
root is found, and in its answer every node of every frontier of every level,
so also the other nodes of the level of a failing node, has its neighbour
statement sent and every row read for it recorded as an edge and a node. An
error met while the rows are read is no such failure: the rows read before it
are kept. -/
theorem C7_query_error_is_empty_neighbourhood (db : DB) (id : String) (depth : Nat)
    (direction : String) :
    callGraphTraverse db id depth direction
      = callGraphTraverseWith (fetchCallGraphNode db id 0 true) (totalised (calleesPass db))
          (totalised (callersPass db)) id depth direction ∧
    dataFlowTraverse db id depth direction
      = dataFlowTraverseWith (fetchDFGNode db id 0) (totalised (dfgForwardPass db))
          (totalised (dfgBackwardPass db)) id depth direction ∧
    (∀ u, rowsOf (calleesPass db) u
      = if db.queryErr Stmt.callees u then []
        else deliver db Stmt.callees u (selectCallees db u)) ∧
    (∀ u, rowsOf (callersPass db) u
      = if db.queryErr Stmt.callers u then []
        else deliver db Stmt.callers u (selectCallers db u)) ∧
    (∀ u, rowsOf (dfgForwardPass db) u
      = if db.queryErr Stmt.dfgForward u then []
        else deliver db Stmt.dfgForward u (selectDFGForward db u)) ∧
    (∀ u, rowsOf (dfgBackwardPass db) u
      = if db.queryErr Stmt.dfgBackward u then []
        else deliver db Stmt.dfgBackward u (selectDFGBackward db u)) ∧
    callGraphTraverse db id depth "callees"
      = callGraphTraverse (withoutFailed db Stmt.callees EdgeRow.source "call") id depth
          "callees" ∧
    callGraphTraverse db id depth "callers"
      = callGraphTraverse (withoutFailed db Stmt.callers EdgeRow.target "call") id depth
          "callers" ∧
    dataFlowTraverse db id depth "forward"
      = dataFlowTraverse (withoutFailed db Stmt.dfgForward EdgeRow.source "dfg") id depth
          "forward" ∧
    dataFlowTraverse db id depth "backward"
      = dataFlowTraverse (withoutFailed db Stmt.dfgBackward EdgeRow.target "dfg") id depth
          "backward" ∧
    (∀ rn, fetchCallGraphNode db id 0 true = some rn →
      ∃ nodes edges, (callGraphTraverse db id depth direction).1 = Response.graph nodes edges) ∧
    (∀ rn, fetchDFGNode db id 0 = some rn →
      ∃ nodes edges, (dataFlowTraverse db id depth direction).1 = Response.graph nodes edges) ∧
    (∀ rn nodes edges log, fetchCallGraphNode db id 0 true = some rn →
      callGraphTraverse db id depth direction = (Response.graph nodes edges, log) →
      (direction = "callees" ∨ direction = "both" →
        Expands (calleesPass db) id (seed Stmt.fetchCallGraphNode id rn) depth
          (nodes.map CallGraphNode.ID) edges log) ∧
      (direction = "callers" →
        Expands (callersPass db) id (seed Stmt.fetchCallGraphNode id rn) depth
          (nodes.map CallGraphNode.ID) edges log) ∧
      (direction = "both" →
        Expands (callersPass db) id
          (bfsCallees db id depth (seed Stmt.fetchCallGraphNode id rn)) depth
          (nodes.map CallGraphNode.ID) edges log)) ∧
    (∀ rn nodes edges log, fetchDFGNode db id 0 = some rn →
      dataFlowTraverse db id depth direction = (Response.graph nodes edges, log) →
      (direction = "forward" ∨ direction = "both" →
        Expands (dfgForwardPass db) id (seed Stmt.fetchDFGNode id rn) depth
          (nodes.map DataFlowNode.ID) edges log) ∧
      (direction = "backward" →
        Expands (dfgBackwardPass db) id (seed Stmt.fetchDFGNode id rn) depth
          (nodes.map DataFlowNode.ID) edges log) ∧
      (direction = "both" →
        Expands (dfgBackwardPass db) id
          (bfsDFGForward db id depth (seed Stmt.fetchDFGNode id rn)) depth
          (nodes.map DataFlowNode.ID) edges log)) := by
  refine ⟨?_, ?_, ?_, ?_, ?_, ?_, ?_, ?_, ?_, ?_, ?_, ?_, ?_, ?_⟩
  · rw [callGraphTraverseWith_totalised]
    exact callGraphTraverse_eq_with db id depth direction
  · rw [dataFlowTraverseWith_totalised]
    exact dataFlowTraverse_eq_with db id depth direction
  · exact fun u => rowsOf_runQuery_eq db Stmt.callees selectCallees u
  · exact fun u => rowsOf_runQuery_eq db Stmt.callers selectCallers u
  · exact fun u => rowsOf_runQuery_eq db Stmt.dfgForward selectDFGForward u
  · exact fun u => rowsOf_runQuery_eq db Stmt.dfgBackward selectDFGBackward u
  · exact callGraphTraverse_callees_withoutFailed db id depth
  · exact callGraphTraverse_callers_withoutFailed db id depth
  · exact dataFlowTraverse_forward_withoutFailed db id depth
  · exact dataFlowTraverse_backward_withoutFailed db id depth
  · intro rn h
    obtain ⟨nodes, edges, h5, _⟩ := callGraphTraverse_some db id depth direction rn h
    exact ⟨nodes, edges, h5⟩
  · intro rn h
    obtain ⟨nodes, edges, h5, _⟩ := dataFlowTraverse_some db id depth direction rn h
    exact ⟨nodes, edges, h5⟩
  · intro rn nodes edges log h ht
    exact callGraphTraverse_expands db id depth direction rn nodes edges log h ht
  · intro rn nodes edges log h ht
    exact dataFlowTraverse_expands db id depth direction rn nodes edges log h ht

/-- C7 fails as stated for an error met while the rows are read: on the store
`R → A`, `A → B`, `A → C` the statement for the callees of `A` is accepted and
reading its two rows ends on an error after the first: the callees traversal
from `R` keeps `B` and the edge `(A, B)`, whereas on the store in which `A` has
no neighbours, and with `A` treated as having none, it returns `R`, `A` and
the edge `(R, A)` only. -/
theorem C7_counterexample_rows_read_before_an_error_are_kept :
    brokenReadDB.queryErr Stmt.callees "A" = false ∧
    brokenReadDB.rowsErr Stmt.callees "A" = some 1 ∧
    (selectCallees brokenReadDB "A").map CallRow.id = ["B", "C"] ∧
    expansionFails brokenReadDB Stmt.callees "A" = true ∧
    callGraphTraverse brokenReadDB "R" 2 "callees"
      = (Response.graph [cgNode "R" true 0, cgNode "A" false 1, cgNode "B" false 2]
          [cgEdge "R" "A", cgEdge "A" "B"],
         [(Stmt.fetchCallGraphNode, "R"), (Stmt.callees, "R"), (Stmt.callees, "A")]) ∧
    callGraphTraverse brokenReadPrunedDB "R" 2 "callees"
      = (Response.graph [cgNode "R" true 0, cgNode "A" false 1] [cgEdge "R" "A"],
         [(Stmt.fetchCallGraphNode, "R"), (Stmt.callees, "R"), (Stmt.callees, "A")]) ∧
    callGraphTraverseWith (fetchCallGraphNode brokenReadDB "R" 0 true)
        (silenced brokenReadDB (calleesPass brokenReadDB))
        (silenced brokenReadDB (callersPass brokenReadDB)) "R" 2 "callees"
      = callGraphTraverse brokenReadPrunedDB "R" 2 "callees" ∧
    (callGraphTraverse brokenReadDB "R" 2 "callees").1
      ≠ (callGraphTraverse brokenReadPrunedDB "R" 2 "callees").1 := by
  have h1 : callGraphTraverse brokenReadDB "R" 2 "callees"
      = (Response.graph [cgNode "R" true 0, cgNode "A" false 1, cgNode "B" false 2]
          [cgEdge "R" "A", cgEdge "A" "B"],
         [(Stmt.fetchCallGraphNode, "R"), (Stmt.callees, "R"), (Stmt.callees, "A")]) := by rfl
  have h2 : callGraphTraverse brokenReadPrunedDB "R" 2 "callees"
      = (Response.graph [cgNode "R" true 0, cgNode "A" false 1] [cgEdge "R" "A"],
         [(Stmt.fetchCallGraphNode, "R"), (Stmt.callees, "R"), (Stmt.callees, "A")]) := by rfl
  refine ⟨by rfl, by rfl, by rfl, by rfl, h1, h2, by rfl, ?_⟩
  rw [h1, h2]
  intro h
  simp at h

/-- C7 (as amended) at the store `R → A`, `R → C`, `A → C`, `C → D` in which
only the query for the callees of `A` fails: the callees traversal from `R` to
depth 2 still sends the statement for `C`, the node after `A` in the frontier
of level 2, and records `D`; it answers as on the store without the edge
`A → C`. -/
theorem C7_witness :
    callGraphTraverse lostQueryDB "R" 2 "callees"
      = (Response.graph
          [cgNode "R" true 0, cgNode "A" false 1, cgNode "C" false 1, cgNode "D" false 2]
          [cgEdge "R" "A", cgEdge "R" "C", cgEdge "C" "D"],
         [(Stmt.fetchCallGraphNode, "R"), (Stmt.callees, "R"), (Stmt.callees, "A"),
          (Stmt.callees, "C")]) ∧
    callGraphTraverse lostQueryDB "R" 2 "callees"
      = callGraphTraverse lostQueryPrunedDB "R" 2 "callees" ∧
    frontierAt (calleesPass lostQueryDB) "R"
        (seed Stmt.fetchCallGraphNode "R" (cgNode "R" true 0)) 2 = ["A", "C"] ∧
    Expands (calleesPass lostQueryDB) "R"
      (seed Stmt.fetchCallGraphNode "R" (cgNode "R" true 0)) 2
      ["R", "A", "C", "D"] [cgEdge "R" "A", cgEdge "R" "C", cgEdge "C" "D"]
      [(Stmt.fetchCallGraphNode, "R"), (Stmt.callees, "R"), (Stmt.callees, "A"),
       (Stmt.callees, "C")] :=
  ⟨by rfl, by rfl, by rfl,
    ((C7_query_error_is_empty_neighbourhood lostQueryDB "R" 2
      "callees").2.2.2.2.2.2.2.2.2.2.2.2.1 (cgNode "R" true 0)
      [cgNode "R" true 0, cgNode "A" false 1, cgNode "C" false 1, cgNode "D" false 2]
      [cgEdge "R" "A", cgEdge "R" "C", cgEdge "C" "D"]
      [(Stmt.fetchCallGraphNode, "R"), (Stmt.callees, "R"), (Stmt.callees, "A"),
       (Stmt.callees, "C")] (by rfl) (by rfl)).1 (Or.inl rfl)⟩

/-- C8. In every successful call-graph traversal, whatever the direction
value, the node stored under the root id is the node fetched at the start
(depth 0, `IsRoot = true`; neither pass overwrites it), no other node has
`IsRoot = true`, and every other node has a depth from 1 to `maxDepth`. -/
theorem C8_root_flag_and_depth_range (db : DB) (id : String) (maxDepth : Nat)
    (direction : String) (nodes : List CallGraphNode) (edges : List CallGraphEdge)
    (log : List (Stmt × String))
    (h : callGraphTraverse db id maxDepth direction = (Response.graph nodes edges, log)) :
    (∃ rn, fetchCallGraphNode db id 0 true = some rn ∧ rn ∈ nodes ∧
      rn.Depth = 0 ∧ rn.IsRoot = true ∧ ∀ n ∈ nodes, n.ID = id → n = rn) ∧
    (∀ n ∈ nodes, n.ID ≠ id → n.IsRoot = false ∧ 1 ≤ n.Depth ∧ n.Depth ≤ maxDepth) := by
  obtain ⟨rn, hfetch, hnodes, _, _⟩ := callGraphTraverse_graph db id maxDepth _ _ _ _ h
  have hrn := fetchCallGraphNode_some db id 0 true rn hfetch
  have hwf := callGraphPasses_WF db id maxDepth direction _
    (callGraph_seed_WF id rn hrn.1)
  have hkept := callGraphPasses_keeps db id maxDepth direction
    (RootKept CallGraphNode.IsRoot CallGraphNode.Depth id rn maxDepth)
    (fun a ha => bfsPass_rootKept (calleesPass db) _ _ (fun _ _ => rfl) (fun _ _ => rfl)
      id rn maxDepth a ha)
    (fun a ha => bfsPass_rootKept (callersPass db) _ _ (fun _ _ => rfl) (fun _ _ => rfl)
      id rn maxDepth a ha)
    (seed Stmt.fetchCallGraphNode id rn)
    ⟨seed_find_root _ id rn, fun k n hf hk => absurd (seed_find _ id rn k n hf).1 hk⟩
  refine ⟨⟨rn, hfetch, ?_, hrn.2.1, hrn.2.2, ?_⟩, ?_⟩
  · rw [hnodes, mem_values_find CallGraphNode.ID _ hwf, hrn.1]
    exact hkept.1
  · intro n hn hid
    rw [hnodes, mem_values_find CallGraphNode.ID _ hwf, hid, hkept.1] at hn
    exact (Option.some.inj hn).symm
  · intro n hn hid
    rw [hnodes, mem_values_find CallGraphNode.ID _ hwf] at hn
    exact hkept.2 n.ID n hn hid

/-- C8 at the store `f1 → f2 → f3`: the callees traversal from `f1` with depth 2
flags `f1` alone and keeps the other depths within 1 and 2. -/
theorem C8_witness :
    (∃ rn, fetchCallGraphNode chainDB "f1" 0 true = some rn ∧
      rn ∈ [cgNode "f1" true 0, cgNode "f2" false 1, cgNode "f3" false 2] ∧
      rn.Depth = 0 ∧ rn.IsRoot = true ∧
      ∀ n ∈ [cgNode "f1" true 0, cgNode "f2" false 1, cgNode "f3" false 2],
        n.ID = "f1" → n = rn) ∧
    (∀ n ∈ [cgNode "f1" true 0, cgNode "f2" false 1, cgNode "f3" false 2],
      n.ID ≠ "f1" → n.IsRoot = false ∧ 1 ≤ n.Depth ∧ n.Depth ≤ 2) :=
  C8_root_flag_and_depth_range chainDB "f1" 2 "callees"
    [cgNode "f1" true 0, cgNode "f2" false 1, cgNode "f3" false 2]
    [cgEdge "f1" "f2", cgEdge "f2" "f3"]
    [(Stmt.fetchCallGraphNode, "f1"), (Stmt.callees, "f1"), (Stmt.callees, "f2")]
    (by rfl)

/-- C9 (as amended). In every successful call-graph traversal, whatever the
direction value, every node other than the root is a function node and every
endpoint of a recorded edge other than the root is a function node; the root
is returned whatever its kind, so when the root is a function node all nodes
and all edge endpoints are. -/
theorem C9_non_root_nodes_are_functions (db : DB) (id : String) (depth : Nat)
    (direction : String) (nodes : List CallGraphNode) (edges : List CallGraphEdge)
    (log : List (Stmt × String))
    (h : callGraphTraverse db id depth direction = (Response.graph nodes edges, log)) :
    (∀ n ∈ nodes, n.ID ≠ id → isFunctionID db n.ID = true) ∧
    (∀ e ∈ edges, (e.Source = id ∨ isFunctionID db e.Source = true) ∧
      (e.Target = id ∨ isFunctionID db e.Target = true)) ∧
    (isFunctionID db id = true → AllFunctions db nodes edges) := by
  obtain ⟨rn, hfetch, hnodes, hedges, _⟩ := callGraphTraverse_graph db id depth _ _ _ _ h
  have hrn := fetchCallGraphNode_some db id 0 true rn hfetch
  have hwf := callGraphPasses_WF db id depth direction _
    (callGraph_seed_WF id rn hrn.1)
  have hgood := callGraphPasses_keeps db id depth direction
    (RootOrGood CallGraphEdge.Source CallGraphEdge.Target
      (fun k => isFunctionID db k = true) id)
    (fun a ha => bfsPass_rootOrGood (calleesPass db) _ _ _ (fun _ _ => Or.inr ⟨rfl, rfl⟩)
      (fun u r hr => selectCallees_function db u r (rowsOf_runQuery db _ _ u r hr))
      id depth a ha)
    (fun a ha => bfsPass_rootOrGood (callersPass db) _ _ _ (fun _ _ => Or.inl ⟨rfl, rfl⟩)
      (fun u r hr => selectCallers_function db u r (rowsOf_runQuery db _ _ u r hr))
      id depth a ha)
    (seed Stmt.fetchCallGraphNode id rn)
    ⟨fun k n hf => Or.inl (seed_find _ id rn k n hf).1, fun e he => by simp [seed] at he⟩
  have hN : ∀ n ∈ nodes, n.ID = id ∨ isFunctionID db n.ID = true := by
    intro n hn
    rw [hnodes, mem_values_find CallGraphNode.ID _ hwf] at hn
    exact hgood.1 n.ID n hn
  have hE : ∀ e ∈ edges, (e.Source = id ∨ isFunctionID db e.Source = true) ∧
      (e.Target = id ∨ isFunctionID db e.Target = true) := by
    intro e he
    rw [hedges] at he
    exact hgood.2 e he
  refine ⟨fun n hn hne => (hN n hn).resolve_left hne, hE, ?_⟩
  intro hroot
  refine ⟨?_, ?_⟩
  · intro n hn
    rcases hN n hn with h1 | h1
    · rw [h1]
      exact hroot
    · exact h1
  · intro e he
    obtain ⟨h1, h2⟩ := hE e he
    refine ⟨?_, ?_⟩
    · rcases h1 with h3 | h3
      · rw [h3]
        exact hroot
      · exact h3
    · rcases h2 with h3 | h3
      · rw [h3]
        exact hroot
      · exact h3

/-- C9 fails as stated: with the type node `T` as root, the callees traversal
succeeds and returns `T` as a node and `T` as the source of an edge. -/
theorem C9_counterexample_type_root :
    callGraphTraverse typeRootDB "T" 1 "callees"
      = (Response.graph
          [{ ID := "T", Label := "T", Package := "", File := "", Line := 0, Complexity := 0,
             FanIn := 0, FanOut := 0, IsRoot := true, Depth := 0 },
           { ID := "f", Label := "f", Package := "", File := "", Line := 0, Complexity := 0,
             FanIn := 0, FanOut := 0, IsRoot := false, Depth := 1 }]
          [{ Source := "T", Target := "f", Kind := "call" }],
         [(Stmt.fetchCallGraphNode, "T"), (Stmt.callees, "T")]) ∧
    ¬ AllFunctions typeRootDB
        [{ ID := "T", Label := "T", Package := "", File := "", Line := 0, Complexity := 0,
           FanIn := 0, FanOut := 0, IsRoot := true, Depth := 0 },
         { ID := "f", Label := "f", Package := "", File := "", Line := 0, Complexity := 0,
           FanIn := 0, FanOut := 0, IsRoot := false, Depth := 1 }]
        [{ Source := "T", Target := "f", Kind := "call" }] := by
  refine ⟨by rfl, ?_⟩
  intro h
  have := h.1 _ (List.mem_cons_self _ _)
  revert this
  decide

/-- C9 (as amended) at the store `f1 → f2 → f3`: the root `f1` is a function,
so all nodes and edge endpoints of the callees traversal are. -/
theorem C9_witness :
    AllFunctions chainDB
      [{ ID := "f1", Label := "f1", Package := "", File := "", Line := 0, Complexity := 0,
         FanIn := 0, FanOut := 0, IsRoot := true, Depth := 0 },
       { ID := "f2", Label := "f2", Package := "", File := "", Line := 0, Complexity := 0,
         FanIn := 0, FanOut := 0, IsRoot := false, Depth := 1 }]
      [{ Source := "f1", Target := "f2", Kind := "call" }] :=
  (C9_non_root_nodes_are_functions chainDB "f1" 1 "callees" _ _
    [(Stmt.fetchCallGraphNode, "f1"), (Stmt.callees, "f1")] (by rfl)).2.2 (by decide)

/-- C10. Let two databases resolve every root to the same node and return, for
every node and each of the four neighbour statements, the same rows up to
order.  Then for every root, depth and direction value (single directions and
"both"), a traversal that succeeds on the first succeeds on the second, the
two answers hold the same node identifiers with the same depth for each, and
their edge lists are permutations of each other. -/
theorem C10_result_independent_of_row_order (db1 db2 : DB)
    (hf1 : ∀ id, fetchCallGraphNode db1 id 0 true = fetchCallGraphNode db2 id 0 true)
    (hf2 : ∀ id, fetchDFGNode db1 id 0 = fetchDFGNode db2 id 0)
    (h1 : ∀ u, (rowsOf (calleesPass db1) u).Perm (rowsOf (calleesPass db2) u))
    (h2 : ∀ u, (rowsOf (callersPass db1) u).Perm (rowsOf (callersPass db2) u))
    (h3 : ∀ u, (rowsOf (dfgForwardPass db1) u).Perm (rowsOf (dfgForwardPass db2) u))
    (h4 : ∀ u, (rowsOf (dfgBackwardPass db1) u).Perm (rowsOf (dfgBackwardPass db2) u))
    (id : String) (maxDepth : Nat) (direction : String) :
    (∀ n1 e1 l1, callGraphTraverse db1 id maxDepth direction = (Response.graph n1 e1, l1) →
      ∃ n2 e2 l2, callGraphTraverse db2 id maxDepth direction = (Response.graph n2 e2, l2) ∧
        (∀ k d, (∃ n ∈ n1, n.ID = k ∧ n.Depth = d) ↔ (∃ n ∈ n2, n.ID = k ∧ n.Depth = d)) ∧
        e1.Perm e2) ∧
    (∀ n1 e1 l1, dataFlowTraverse db1 id maxDepth direction = (Response.graph n1 e1, l1) →
      ∃ n2 e2 l2, dataFlowTraverse db2 id maxDepth direction = (Response.graph n2 e2, l2) ∧
        (∀ k d, (∃ n ∈ n1, n.ID = k ∧ n.Depth = d) ↔ (∃ n ∈ n2, n.ID = k ∧ n.Depth = d)) ∧
        e1.Perm e2) := by
  refine ⟨?_, ?_⟩
  · intro n1 e1 l1 h
    obtain ⟨rn, hfetch, hn1, he1, _⟩ := callGraphTraverse_graph db1 id maxDepth _ _ _ _ h
    have hfetch2 : fetchCallGraphNode db2 id 0 true = some rn := by rw [← hf1, hfetch]
    have hrn := fetchCallGraphNode_some db1 id 0 true rn hfetch
    have hseed := callGraph_seed_WF id rn hrn.1
    have hwf1 := callGraphPasses_WF db1 id maxDepth direction _ hseed
    have hwf2 := callGraphPasses_WF db2 id maxDepth direction _ hseed
    have hsame := callGraphPasses_related db1 db2 id maxDepth direction
      (SameGraph CallGraphNode.Depth)
      (fun a b hab => bfsPass_sameGraph (calleesPass db1) (calleesPass db2) _ rfl rfl
        (fun _ _ => rfl) (fun _ _ => rfl) h1 id maxDepth a b hab)
      (fun a b hab => bfsPass_sameGraph (callersPass db1) (callersPass db2) _ rfl rfl
        (fun _ _ => rfl) (fun _ _ => rfl) h2 id maxDepth a b hab)
      (seed Stmt.fetchCallGraphNode id rn) (seed Stmt.fetchCallGraphNode id rn)
      ⟨fun _ => rfl, List.Perm.refl _⟩
    refine ⟨_, _, _, callGraphTraverse_of_fetch db2 id maxDepth direction rn hfetch2, ?_, ?_⟩
    · intro k d
      rw [hn1, node_at_depth_iff CallGraphNode.ID CallGraphNode.Depth _ hwf1,
        node_at_depth_iff CallGraphNode.ID CallGraphNode.Depth _ hwf2, hsame.1 k]
    · rw [he1]
      exact hsame.2
  · intro n1 e1 l1 h
    obtain ⟨rn, hfetch, hn1, he1, _⟩ := dataFlowTraverse_graph db1 id maxDepth _ _ _ _ h
    have hfetch2 : fetchDFGNode db2 id 0 = some rn := by rw [← hf2, hfetch]
    have hrn := fetchDFGNode_some db1 id 0 rn hfetch
    have hseed := dataFlow_seed_WF id rn hrn.1
    have hwf1 := dataFlowPasses_WF db1 id maxDepth direction _ hseed
    have hwf2 := dataFlowPasses_WF db2 id maxDepth direction _ hseed
    have hsame := dataFlowPasses_related db1 db2 id maxDepth direction
      (SameGraph DataFlowNode.Depth)
      (fun a b hab => bfsPass_sameGraph (dfgForwardPass db1) (dfgForwardPass db2) _ rfl rfl
        (fun _ _ => rfl) (fun _ _ => rfl) h3 id maxDepth a b hab)
      (fun a b hab => bfsPass_sameGraph (dfgBackwardPass db1) (dfgBackwardPass db2) _ rfl rfl
        (fun _ _ => rfl) (fun _ _ => rfl) h4 id maxDepth a b hab)
      (seed Stmt.fetchDFGNode id rn) (seed Stmt.fetchDFGNode id rn)
      ⟨fun _ => rfl, List.Perm.refl _⟩
    refine ⟨_, _, _, dataFlowTraverse_of_fetch db2 id maxDepth direction rn hfetch2, ?_, ?_⟩
    · intro k d
      rw [hn1, node_at_depth_iff DataFlowNode.ID DataFlowNode.Depth _ hwf1,
        node_at_depth_iff DataFlowNode.ID DataFlowNode.Depth _ hwf2, hsame.1 k]
    · rw [he1]
      exact hsame.2

/-- C10 at two stores holding the edges `R → A`, `R → B`, `A → C`, `B → C` in
different row order: the "both" traversals from `R` agree on nodes, depths and
edges up to order. -/
theorem C10_witness :
    ∃ n2 e2 l2, callGraphTraverse orderDB2 "R" 2 "both" = (Response.graph n2 e2, l2) ∧
      (∀ k d, (∃ n ∈ [cgNode "R" true 0, cgNode "A" false 1, cgNode "B" false 1,
            cgNode "C" false 2], n.ID = k ∧ n.Depth = d) ↔
          (∃ n ∈ n2, n.ID = k ∧ n.Depth = d)) ∧
      [cgEdge "R" "A", cgEdge "R" "B", cgEdge "A" "C", cgEdge "B" "C"].Perm e2 :=
  (C10_result_independent_of_row_order orderDB1 orderDB2 (fun _ => rfl) (fun _ => rfl)
    (by
      intro u
      by_cases hR : u = "R"
      · subst hR
        exact List.Perm.swap _ _ _
      · by_cases hA : u = "A"
        · subst hA
          exact List.Perm.refl _
        · by_cases hB : u = "B"
          · subst hB
            exact List.Perm.refl _
          · simp [rowsOf, calleesPass, runQuery, deliver, selectCallees, orderDB1, orderDB2, callEdge,
              List.filter_cons, Ne.symm hR, Ne.symm hA, Ne.symm hB])
    (by
      intro u
      by_cases hC : u = "C"
      · subst hC
        exact List.Perm.swap _ _ _
      · by_cases hA : u = "A"
        · subst hA
          exact List.Perm.refl _
        · by_cases hB : u = "B"
          · subst hB
            exact List.Perm.refl _
          · simp [rowsOf, callersPass, runQuery, deliver, selectCallers, orderDB1, orderDB2, callEdge,
              List.filter_cons, Ne.symm hC, Ne.symm hA, Ne.symm hB])
    (by
      intro u
      simp [rowsOf, dfgForwardPass, runQuery, deliver, selectDFGForward, orderDB1, orderDB2, callEdge,
        List.filter_cons])
    (by
      intro u
      simp [rowsOf, dfgBackwardPass, runQuery, deliver, selectDFGBackward, orderDB1, orderDB2, callEdge,
        List.filter_cons])
    "R" 2 "both").1 _ _ [(Stmt.fetchCallGraphNode, "R"), (Stmt.callees, "R"),
      (Stmt.callees, "A"), (Stmt.callees, "B"), (Stmt.callers, "R")] (by rfl)

/-! ## The claims on the edge list, the request parameters and the scenarios,
each after the lemmas it uses -/

theorem bfsLevels_add {ρ ν ε : Type} (p : Pass ρ ν ε) (a b d : Nat) (frontier : List String)
    (acc : Acc ν ε) :
    bfsLevels p (a + b) d frontier acc
      = bfsLevels p b (d + a) (bfsLevels p a d frontier acc).1
          (bfsLevels p a d frontier acc).2 := by
  induction a generalizing d frontier acc with
  | zero => simp [bfsLevels]
  | succ a ih =>
    have e : a + 1 + b = (a + b) + 1 := by omega
    rw [e, bfsLevels, ih, bfsLevels]
    have e2 : d + 1 + a = d + (a + 1) := by omega
    rw [e2]

/-- Once the frontier is empty a larger depth bound changes nothing. -/
theorem bfsPass_of_exhausted {ρ ν ε : Type} (p : Pass ρ ν ε) (root : String) (n : Nat)
    (acc : Acc ν ε) (h : (bfsLevels p n 1 [root] acc).1 = []) (k : Nat) :
    bfsPass p root (n + k) acc = bfsPass p root n acc := by
  rw [bfsPass_eq_bfsLevels, bfsPass_eq_bfsLevels, bfsLevels_add, h, bfsLevels_nil]

theorem bfsPass_edgesFollowLog {ρ ν ε : Type} (p : Pass ρ ν ε)
    (rowsFor : Stmt × String → List ρ) (edgeFor : Stmt × String → ρ → ε)
    (hrows : ∀ u, rowsFor (p.stmt, u) = rowsOf p u)
    (hedge : ∀ u r, edgeFor (p.stmt, u) r = p.mkEdge u (p.rowID r))
    (root : String) (maxDepth : Nat) (acc : Acc ν ε) (h : EdgesFollowLog rowsFor edgeFor acc) :
    EdgesFollowLog rowsFor edgeFor (bfsPass p root maxDepth acc) := by
  obtain ⟨hlog, hedges⟩ := bfsPass_expanded p root maxDepth acc
  unfold EdgesFollowLog at h ⊢
  rw [hlog, hedges, List.flatMap_append, ← h]
  congr 1
  rw [List.flatMap_map]
  apply List.flatMap_congr
  intro u _
  simp only [edgesOf, hrows]
  apply List.map_congr_left
  intro r _
  exact (hedge u r).symm

theorem length_flatMap_map_eq_sum {α β γ : Type} (l : List α) (f : α → List β)
    (g : α → β → γ) :
    (l.flatMap fun s => (f s).map (g s)).length = (l.map fun s => (f s).length).sum := by
  induction l with
  | nil => rfl
  | cons a l ih => simp [List.flatMap_cons, ih]

theorem seed_edgesFollowLog {ρ ν ε : Type} (rowsFor : Stmt × String → List ρ)
    (edgeFor : Stmt × String → ρ → ε) (stmt : Stmt) (id : String) (rn : ν)
    (h : ∀ u, rowsFor (stmt, u) = []) :
    EdgesFollowLog rowsFor edgeFor (seed stmt id rn : Acc ν ε) := by
  simp [EdgesFollowLog, seed, h]

theorem twoCycle_depth_irrelevant (k : Nat) :
    callGraphTraverse twoCycleDB "R" (2 + k) "both"
      = callGraphTraverse twoCycleDB "R" 2 "both" := by
  have hf : fetchCallGraphNode twoCycleDB "R" 0 true = some (cgNode "R" true 0) := by rfl
  have h1 := bfsPass_of_exhausted (calleesPass twoCycleDB) "R" 2
    (seed Stmt.fetchCallGraphNode "R" (cgNode "R" true 0)) (by rfl) k
  have h2 := bfsPass_of_exhausted (callersPass twoCycleDB) "R" 2
    (bfsPass (calleesPass twoCycleDB) "R" 2
      (seed Stmt.fetchCallGraphNode "R" (cgNode "R" true 0))) (by rfl) k
  rw [callGraphTraverse_of_fetch _ _ _ _ _ hf, callGraphTraverse_of_fetch _ _ _ _ _ hf,
    callGraphPasses_both, callGraphPasses_both, h1, h2]

/-- C11. In every call-graph and data-flow traversal, whatever the direction
value, the edge list is the concatenation, in the order the statements were
sent (the expansion order), of one edge for every row each neighbour statement
returned, whether or not the neighbour was already stored; so its length is
the sum of the row counts.  On the store `R → A`, `R → B`, `A → B` the callees
traversal from `R` with depth 2 returns the edges `(R,A)`, `(R,B)`, `(A,B)`;
on the store `R → A`, `A → R` the "both" traversal from `R` with any depth of
at least 2 returns `(R,A)`, `(A,R)`, `(A,R)`, the edge `(A,R)` twice. -/
theorem C11_one_edge_per_returned_row (db : DB) (id : String) (maxDepth : Nat)
    (direction : String) :
    (∀ nodes edges log,
      callGraphTraverse db id maxDepth direction = (Response.graph nodes edges, log) →
      edges = log.flatMap (fun s => (callRowsFor db s).map (callEdgeFor s)) ∧
      edges.length = (log.map fun s => (callRowsFor db s).length).sum) ∧
    (∀ nodes edges log,
      dataFlowTraverse db id maxDepth direction = (Response.graph nodes edges, log) →
      edges = log.flatMap (fun s => (dfgRowsFor db s).map (dfgEdgeFor s)) ∧
      edges.length = (log.map fun s => (dfgRowsFor db s).length).sum) ∧
    (callGraphTraverse triangleDB "R" 2 "callees").1.edges
      = [cgEdge "R" "A", cgEdge "R" "B", cgEdge "A" "B"] ∧
    (∀ k, (callGraphTraverse twoCycleDB "R" (2 + k) "both").1.edges
        = [cgEdge "R" "A", cgEdge "A" "R", cgEdge "A" "R"] ∧
      ((callGraphTraverse twoCycleDB "R" (2 + k) "both").1.edges.count (cgEdge "A" "R")) = 2) := by
  refine ⟨?_, ?_, by rfl, ?_⟩
  · intro nodes edges log h
    obtain ⟨rn, _, _, hedges, hlog⟩ := callGraphTraverse_graph db id maxDepth _ _ _ _ h
    have key := callGraphPasses_keeps db id maxDepth direction
      (EdgesFollowLog (callRowsFor db) callEdgeFor)
      (fun a ha => bfsPass_edgesFollowLog (calleesPass db) _ _ (fun _ => rfl)
        (fun _ _ => rfl) id maxDepth a ha)
      (fun a ha => bfsPass_edgesFollowLog (callersPass db) _ _ (fun _ => rfl)
        (fun _ _ => rfl) id maxDepth a ha)
      (seed Stmt.fetchCallGraphNode id rn)
      (seed_edgesFollowLog _ _ _ id rn (fun _ => rfl))
    unfold EdgesFollowLog at key
    rw [← hedges, ← hlog] at key
    refine ⟨key, ?_⟩
    rw [key, length_flatMap_map_eq_sum]
  · intro nodes edges log h
    obtain ⟨rn, _, _, hedges, hlog⟩ := dataFlowTraverse_graph db id maxDepth _ _ _ _ h
    have key := dataFlowPasses_keeps db id maxDepth direction
      (EdgesFollowLog (dfgRowsFor db) dfgEdgeFor)
      (fun a ha => bfsPass_edgesFollowLog (dfgForwardPass db) _ _ (fun _ => rfl)
        (fun _ _ => rfl) id maxDepth a ha)
      (fun a ha => bfsPass_edgesFollowLog (dfgBackwardPass db) _ _ (fun _ => rfl)
        (fun _ _ => rfl) id maxDepth a ha)
      (seed Stmt.fetchDFGNode id rn)
      (seed_edgesFollowLog _ _ _ id rn (fun _ => rfl))
    unfold EdgesFollowLog at key
    rw [← hedges, ← hlog] at key
    refine ⟨key, ?_⟩
    rw [key, length_flatMap_map_eq_sum]
  · intro k
    rw [twoCycle_depth_irrelevant]
    exact ⟨by rfl, by decide⟩

/-- C11 at the store `R → A`, `R → B`, `A → B`: the three edges of the callees
traversal from `R` with depth 2 are the rows of the three statements sent, in
the order they were sent. -/
theorem C11_witness :
    [cgEdge "R" "A", cgEdge "R" "B", cgEdge "A" "B"]
        = [(Stmt.fetchCallGraphNode, "R"), (Stmt.callees, "R"), (Stmt.callees, "A"),
            (Stmt.callees, "B")].flatMap
            (fun s => (callRowsFor triangleDB s).map (callEdgeFor s)) ∧
      [cgEdge "R" "A", cgEdge "R" "B", cgEdge "A" "B"].length
        = ([(Stmt.fetchCallGraphNode, "R"), (Stmt.callees, "R"), (Stmt.callees, "A"),
            (Stmt.callees, "B")].map fun s => (callRowsFor triangleDB s).length).sum :=
  (C11_one_edge_per_returned_row triangleDB "R" 2 "callees").1
    [cgNode "R" true 0, cgNode "A" false 1, cgNode "B" false 1]
    [cgEdge "R" "A", cgEdge "R" "B", cgEdge "A" "B"]
    [(Stmt.fetchCallGraphNode, "R"), (Stmt.callees, "R"), (Stmt.callees, "A"),
      (Stmt.callees, "B")]
    (by rfl)

theorem taggedEdges_map_snd {ρ ν ε : Type} (p : Pass ρ ν ε) (root : String) (acc0 : Acc ν ε)
    (n : Nat) :
    (taggedEdges p root acc0 n).map Prod.snd = (expanded p root acc0 n).flatMap (edgesOf p) := by
  induction n with
  | zero => rfl
  | succ n ih =>
    simp only [taggedEdges, expanded, List.map_append, List.flatMap_append, ih, List.map_map]
    congr 1
    simp only [levelEdges, frontierAt, Nat.add_sub_cancel]
    induction (bfsLevels p n 1 [root] acc0).1.flatMap (edgesOf p) with
    | nil => rfl
    | cons e es ihe => simp [ihe]

theorem taggedEdges_level {ρ ν ε : Type} (p : Pass ρ ν ε) (root : String) (acc0 : Acc ν ε)
    (n : Nat) (x : Nat × ε) (hx : x ∈ taggedEdges p root acc0 n) : 1 ≤ x.1 ∧ x.1 ≤ n := by
  induction n with
  | zero => simp [taggedEdges] at hx
  | succ n ih =>
    simp only [taggedEdges, List.mem_append, List.mem_map] at hx
    rcases hx with h | ⟨e, _, he⟩
    · have := ih h
      omega
    · rw [← he]
      simp

/-- Within one pass the edges stand in the order of their levels. -/
theorem taggedEdges_sorted {ρ ν ε : Type} (p : Pass ρ ν ε) (root : String) (acc0 : Acc ν ε)
    (n : Nat) : LevelSorted (taggedEdges p root acc0 n) := by
  unfold LevelSorted
  induction n with
  | zero => simp [taggedEdges]
  | succ n ih =>
    simp only [taggedEdges, List.map_append, List.map_map]
    rw [List.pairwise_append]
    refine ⟨ih, ?_, ?_⟩
    · rw [List.pairwise_map]
      generalize levelEdges p root acc0 (n + 1) = es
      induction es with
      | nil => exact List.Pairwise.nil
      | cons e es ihe => exact List.Pairwise.cons (fun _ _ => le_refl _) ihe
    · intro a ha b hb
      obtain ⟨x, hx, hxa⟩ := List.mem_map.1 ha
      obtain ⟨e, _, heb⟩ := List.mem_map.1 hb
      have := taggedEdges_level p root acc0 n x hx
      simp only [Function.comp] at heb
      omega

/-- The edges a pass appends are its level-tagged edges. -/
theorem bfsPass_edges_tagged {ρ ν ε : Type} (p : Pass ρ ν ε) (root : String) (maxDepth : Nat)
    (acc0 : Acc ν ε) :
    (bfsPass p root maxDepth acc0).edges
      = acc0.edges ++ (taggedEdges p root acc0 maxDepth).map Prod.snd := by
  rw [(bfsPass_expanded p root maxDepth acc0).2, taggedEdges_map_snd]

theorem callGraph_edges_tagged (db : DB) (id : String) (depth : Nat) (direction : String)
    (rn : CallGraphNode) :
    (callGraphPasses db id depth direction (seed Stmt.fetchCallGraphNode id rn)).edges
      = (callGraphTagged db id depth direction rn).map Prod.snd := by
  unfold callGraphPasses callGraphTagged
  by_cases c1 : direction = "callees" ∨ direction = "both" <;>
    by_cases c2 : direction = "callers" ∨ direction = "both" <;>
    simp only [c1, c2, if_true, if_false, bfsCallees, bfsCallers, bfsPass_edges_tagged,
      List.map_append, List.append_nil, List.map_nil] <;>
    simp [seed]

theorem dataFlow_edges_tagged (db : DB) (id : String) (depth : Nat) (direction : String)
    (rn : DataFlowNode) :
    (dataFlowPasses db id depth direction (seed Stmt.fetchDFGNode id rn)).edges
      = (dataFlowTagged db id depth direction rn).map Prod.snd := by
  unfold dataFlowPasses dataFlowTagged
  by_cases c1 : direction = "forward"
  · simp [c1, bfsDFGForward, bfsPass_edges_tagged, seed]
  · by_cases c2 : direction = "backward"
    · simp [c1, c2, bfsDFGBackward, bfsPass_edges_tagged, seed]
    · by_cases c3 : direction = "both"
      · simp [c1, c2, c3, bfsDFGForward, bfsDFGBackward, bfsPass_edges_tagged, seed]
      · simp [c1, c2, c3, seed]

theorem levelSorted_nil {ε : Type} : LevelSorted ([] : List (Nat × ε)) := by
  simp [LevelSorted]

/-- C12 (as amended). In every traversal the edge list consists of the edges
of the passes that ran, each with the level at which it was recorded; within
one pass the edges of shallower levels stand before the edges of deeper
levels, so a single-direction traversal lists its edges in level order; in a
"both" traversal all edges of the outgoing pass stand before all edges of the
incoming pass, each of the two parts being in level order. -/
theorem C12_edges_in_level_order_within_each_pass (db : DB) (id : String) (depth : Nat)
    (direction : String) :
    (∀ rn nodes edges log, fetchCallGraphNode db id 0 true = some rn →
      callGraphTraverse db id depth direction = (Response.graph nodes edges, log) →
      edges = (callGraphTagged db id depth direction rn).map Prod.snd ∧
      (direction ≠ "both" → LevelSorted (callGraphTagged db id depth direction rn)) ∧
      (direction = "both" →
        callGraphTagged db id depth direction rn
          = taggedEdges (calleesPass db) id (seed Stmt.fetchCallGraphNode id rn) depth ++
            taggedEdges (callersPass db) id
              (bfsCallees db id depth (seed Stmt.fetchCallGraphNode id rn)) depth ∧
        LevelSorted
          (taggedEdges (calleesPass db) id (seed Stmt.fetchCallGraphNode id rn) depth) ∧
        LevelSorted
          (taggedEdges (callersPass db) id
            (bfsCallees db id depth (seed Stmt.fetchCallGraphNode id rn)) depth))) ∧
    (∀ rn nodes edges log, fetchDFGNode db id 0 = some rn →
      dataFlowTraverse db id depth direction = (Response.graph nodes edges, log) →
      edges = (dataFlowTagged db id depth direction rn).map Prod.snd ∧
      (direction ≠ "both" → LevelSorted (dataFlowTagged db id depth direction rn)) ∧
      (direction = "both" →
        dataFlowTagged db id depth direction rn
          = taggedEdges (dfgForwardPass db) id (seed Stmt.fetchDFGNode id rn) depth ++
            taggedEdges (dfgBackwardPass db) id
              (bfsDFGForward db id depth (seed Stmt.fetchDFGNode id rn)) depth ∧
        LevelSorted (taggedEdges (dfgForwardPass db) id (seed Stmt.fetchDFGNode id rn) depth) ∧
        LevelSorted
          (taggedEdges (dfgBackwardPass db) id
            (bfsDFGForward db id depth (seed Stmt.fetchDFGNode id rn)) depth))) := by
  refine ⟨?_, ?_⟩
  · intro rn nodes edges log hfetch h
    obtain ⟨rn', hfetch', _, hedges, _⟩ := callGraphTraverse_graph db id depth _ _ _ _ h
    rw [hfetch] at hfetch'
    cases hfetch'
    refine ⟨by rw [hedges, callGraph_edges_tagged], ?_, ?_⟩
    · intro hne
      unfold callGraphTagged
      by_cases c1 : direction = "callees"
      · subst c1
        simpa using taggedEdges_sorted _ _ _ _
      · by_cases c2 : direction = "callers"
        · subst c2
          simpa using taggedEdges_sorted _ _ _ _
        · simp only [c1, c2, hne, or_self, if_false, List.append_nil]
          exact levelSorted_nil
    · intro hb
      subst hb
      refine ⟨by simp [callGraphTagged], taggedEdges_sorted _ _ _ _, taggedEdges_sorted _ _ _ _⟩
  · intro rn nodes edges log hfetch h
    obtain ⟨rn', hfetch', _, hedges, _⟩ := dataFlowTraverse_graph db id depth _ _ _ _ h
    rw [hfetch] at hfetch'
    cases hfetch'
    refine ⟨by rw [hedges, dataFlow_edges_tagged], ?_, ?_⟩
    · intro hne
      unfold dataFlowTagged
      by_cases c1 : direction = "forward"
      · simp only [c1, if_true]
        exact taggedEdges_sorted _ _ _ _
      · by_cases c2 : direction = "backward"
        · simp only [c1, c2, if_true, if_false]
          exact taggedEdges_sorted _ _ _ _
        · simp only [c1, c2, hne, if_false]
          exact levelSorted_nil
    · intro hb
      subst hb
      refine ⟨by simp [dataFlowTagged], taggedEdges_sorted _ _ _ _, taggedEdges_sorted _ _ _ _⟩

/-- C12 fails as stated for "both": on the cycle `R → A → V → R` the "both"
traversal from `R` with depth 2 lists `(A,V)`, recorded by the outgoing pass
at level 2, before `(V,R)`, recorded by the incoming pass at level 1. -/
theorem C12_counterexample_both_not_in_level_order :
    (callGraphTraverse cycleDB "R" 2 "both").1.edges
      = [cgEdge "R" "A", cgEdge "A" "V", cgEdge "V" "R"] ∧
    callGraphTagged cycleDB "R" 2 "both" (cgNode "R" true 0)
      = [(1, cgEdge "R" "A"), (2, cgEdge "A" "V"), (1, cgEdge "V" "R")] ∧
    ¬ LevelSorted (callGraphTagged cycleDB "R" 2 "both" (cgNode "R" true 0)) := by
  have ht : callGraphTagged cycleDB "R" 2 "both" (cgNode "R" true 0)
      = [(1, cgEdge "R" "A"), (2, cgEdge "A" "V"), (1, cgEdge "V" "R")] := by rfl
  refine ⟨by rfl, ht, ?_⟩
  rw [ht]
  unfold LevelSorted
  decide

/-- C12 (as amended) at the store `f1 → f2 → f3`: the edges of the callees
traversal from `f1` with depth 2 stand in level order. -/
theorem C12_witness :
    LevelSorted (callGraphTagged chainDB "f1" 2 "callees" (cgNode "f1" true 0)) :=
  ((C12_edges_in_level_order_within_each_pass chainDB "f1" 2 "callees").1 (cgNode "f1" true 0)
    [cgNode "f1" true 0, cgNode "f2" false 1, cgNode "f3" false 2]
    [cgEdge "f1" "f2", cgEdge "f2" "f3"]
    [(Stmt.fetchCallGraphNode, "f1"), (Stmt.callees, "f1"), (Stmt.callees, "f2")]
    (by rfl) (by rfl)).2.1 (by decide)

theorem callGraphPasses_unrecognised (db : DB) (id : String) (depth : Nat) (direction : String)
    (h1 : direction ≠ "callees") (h2 : direction ≠ "callers") (h3 : direction ≠ "both")
    (acc : Acc CallGraphNode CallGraphEdge) :
    callGraphPasses db id depth direction acc = acc := by
  simp [callGraphPasses, h1, h2, h3]

/-- C13 (as amended). A call-graph request whose direction parameter is absent
(empty) is answered like the request with direction "both".  A request whose
direction is any other value than "callees", "callers" and "both" runs no pass:
when the root is found the answer is the root node alone, with no edge and no
neighbour statement sent. -/
theorem C13_absent_direction_is_both_unrecognised_is_root_only
    (atoi : String → Option Int) (db : DB) (r : Request) :
    (r.direction = "" →
      CallGraph atoi db r = CallGraph atoi db { r with direction := "both" }) ∧
    (∀ rn, r.id ≠ "" → r.direction ≠ "" → r.direction ≠ "callees" →
      r.direction ≠ "callers" → r.direction ≠ "both" →
      fetchCallGraphNode db r.id 0 true = some rn →
      CallGraph atoi db r = (Response.graph [rn] [], [(Stmt.fetchCallGraphNode, r.id)])) := by
  refine ⟨?_, ?_⟩
  · intro h
    simp [CallGraph, h]
  · intro rn hid h0 h1 h2 h3 hf
    simp only [CallGraph, hid, h0, if_false]
    rw [callGraphTraverse_of_fetch _ _ _ _ rn hf, callGraphPasses_unrecognised _ _ _ _ h1 h2 h3]
    rfl

/-- C13 fails as stated: on the store `f1 → f2 → f3` the request for `f1` with
the unrecognised direction `sideways` returns the root alone, the request with
direction "both" returns three nodes and two edges. -/
theorem C13_counterexample_unrecognised_direction :
    (CallGraph (fun _ => none) chainDB { id := "f1", depth := "", direction := "sideways" })
      = (Response.graph [cgNode "f1" true 0] [], [(Stmt.fetchCallGraphNode, "f1")]) ∧
    (CallGraph (fun _ => none) chainDB { id := "f1", depth := "", direction := "both" }).1
      = Response.graph [cgNode "f1" true 0, cgNode "f2" false 1, cgNode "f3" false 2]
          [cgEdge "f1" "f2", cgEdge "f2" "f3"] ∧
    (CallGraph (fun _ => none) chainDB { id := "f1", depth := "", direction := "sideways" }).1
      ≠ (CallGraph (fun _ => none) chainDB { id := "f1", depth := "", direction := "both" }).1 := by
  have h1 : (CallGraph (fun _ => none) chainDB
      { id := "f1", depth := "", direction := "sideways" })
      = (Response.graph [cgNode "f1" true 0] [], [(Stmt.fetchCallGraphNode, "f1")]) := by rfl
  have h2 : (CallGraph (fun _ => none) chainDB
      { id := "f1", depth := "", direction := "both" }).1
      = Response.graph [cgNode "f1" true 0, cgNode "f2" false 1, cgNode "f3" false 2]
          [cgEdge "f1" "f2", cgEdge "f2" "f3"] := by rfl
  refine ⟨h1, h2, ?_⟩
  rw [h1, h2]
  intro h
  simp at h

/-- C13 (as amended) at the store `f1 → f2 → f3`: the request for `f1` with
the direction `sideways` returns the root alone. -/
theorem C13_witness :
    CallGraph (fun _ => none) chainDB { id := "f1", depth := "", direction := "sideways" }
      = (Response.graph [cgNode "f1" true 0] [], [(Stmt.fetchCallGraphNode, "f1")]) :=
  (C13_absent_direction_is_both_unrecognised_is_root_only (fun _ => none) chainDB
    { id := "f1", depth := "", direction := "sideways" }).2 (cgNode "f1" true 0)
    (by decide) (by decide) (by decide) (by decide) (by decide) (by rfl)

theorem clampDepth_eq (v lo hi : Int) (h : lo ≤ hi) :
    clampDepth v lo hi = max lo (min hi v) ∧ lo ≤ clampDepth v lo hi ∧
      clampDepth v lo hi ≤ hi := by
  unfold clampDepth
  simp only
  split <;> split <;> omega

/-- C14. The depth `CallGraph` resp. `DataFlow` passes to the traversal is
`clamp(v, 1, 5)` resp. `clamp(v, 1, 6)` of the integer `v` parsed from the
depth parameter, and the default 2 resp. 3 when the parameter is absent
(empty) or `strconv.Atoi` rejects it; it always lies within `[1, 5]` resp.
`[1, 6]`. -/
theorem C14_depth_clamped (atoi : String → Option Int) (db : DB) (r : Request) :
    ((r.id ≠ "" →
        CallGraph atoi db r
          = callGraphTraverse db r.id (callGraphDepth atoi r).toNat
              (if r.direction = "" then "both" else r.direction)) ∧
      (r.depth = "" → callGraphDepth atoi r = 2) ∧
      (atoi r.depth = none → callGraphDepth atoi r = 2) ∧
      (∀ v, r.depth ≠ "" → atoi r.depth = some v →
        callGraphDepth atoi r = max 1 (min 5 v)) ∧
      1 ≤ callGraphDepth atoi r ∧ callGraphDepth atoi r ≤ 5) ∧
    ((r.id ≠ "" →
        DataFlow atoi db r
          = dataFlowTraverse db r.id (dataFlowDepth atoi r).toNat
              (if r.direction = "" then "forward" else r.direction)) ∧
      (r.depth = "" → dataFlowDepth atoi r = 3) ∧
      (atoi r.depth = none → dataFlowDepth atoi r = 3) ∧
      (∀ v, r.depth ≠ "" → atoi r.depth = some v →
        dataFlowDepth atoi r = max 1 (min 6 v)) ∧
      1 ≤ dataFlowDepth atoi r ∧ dataFlowDepth atoi r ≤ 6) := by
  refine ⟨⟨?_, ?_, ?_, ?_, ?_, ?_⟩, ⟨?_, ?_, ?_, ?_, ?_, ?_⟩⟩
  · intro hid
    simp only [CallGraph, hid, if_false, callGraphDepth]
  · intro h
    simp [callGraphDepth, queryInt, h, clampDepth]
  · intro h
    simp [callGraphDepth, queryInt, h, clampDepth]
  · intro v h hv
    simp only [callGraphDepth, queryInt, h, hv, if_false]
    exact (clampDepth_eq v 1 5 (by decide)).1
  · exact (clampDepth_eq _ 1 5 (by decide)).2.1
  · exact (clampDepth_eq _ 1 5 (by decide)).2.2
  · intro hid
    simp only [DataFlow, hid, if_false, dataFlowDepth]
  · intro h
    simp [dataFlowDepth, queryInt, h, clampDepth]
  · intro h
    simp [dataFlowDepth, queryInt, h, clampDepth]
  · intro v h hv
    simp only [dataFlowDepth, queryInt, h, hv, if_false]
    exact (clampDepth_eq v 1 6 (by decide)).1
  · exact (clampDepth_eq _ 1 6 (by decide)).2.1
  · exact (clampDepth_eq _ 1 6 (by decide)).2.2

/-- C14 at the depth parameter `9` (parsed as 9): `CallGraph` passes 5. -/
theorem C14_witness :
    callGraphDepth (fun s => if s = "9" then some 9 else none)
      { id := "f1", depth := "9", direction := "" } = max 1 (min 5 9) :=
  (C14_depth_clamped (fun s => if s = "9" then some 9 else none) chainDB
    { id := "f1", depth := "9", direction := "" }).1.2.2.2.1 9 (by decide) (by rfl)

/-- C15. On the store holding the functions `f1`, `f2`, `f3` (complexities 5, 2,
9) and the call edges `f1 → f2`, `f2 → f3`: the callees traversal from `f1`
with depth 2 returns `f1` at depth 0 as root, `f2` at depth 1, `f3` at depth 2
and the edges `(f1,f2)`, `(f2,f3)`; the callers traversal from `f3` with depth
5 returns `f3` at depth 0 as root, `f2` at depth 1, `f1` at depth 2 and the
edges `(f2,f3)`, `(f1,f2)`, caller as source and callee as target; it sends
three callers statements only, the frontier of level 4 being empty, and
returns what depth 3 returns. -/
theorem C15_chain_scenario :
    callGraphTraverse scenarioDB "f1" 2 "callees"
      = (Response.graph
          [scenarioNode "f1" 5 true 0, scenarioNode "f2" 2 false 1, scenarioNode "f3" 9 false 2]
          [cgEdge "f1" "f2", cgEdge "f2" "f3"],
         [(Stmt.fetchCallGraphNode, "f1"), (Stmt.callees, "f1"), (Stmt.callees, "f2")]) ∧
    callGraphTraverse scenarioDB "f3" 5 "callers"
      = (Response.graph
          [scenarioNode "f3" 9 true 0, scenarioNode "f2" 2 false 1, scenarioNode "f1" 5 false 2]
          [cgEdge "f2" "f3", cgEdge "f1" "f2"],
         [(Stmt.fetchCallGraphNode, "f3"), (Stmt.callers, "f3"), (Stmt.callers, "f2"),
          (Stmt.callers, "f1")]) ∧
    frontierAt (callersPass scenarioDB) "f3"
        (seed Stmt.fetchCallGraphNode "f3" (scenarioNode "f3" 9 true 0)) 4 = [] ∧
    callGraphTraverse scenarioDB "f3" 5 "callers"
      = callGraphTraverse scenarioDB "f3" 3 "callers" := by
  refine ⟨by rfl, by rfl, by rfl, by rfl⟩

/-- C16. On the diamond `A → B → D`, `A → C → D` the "both" traversal from `B`
with depth 2 returns exactly the nodes `B` (depth 0, root), `D` (depth 1) and
`A` (depth 1) and the edges `(B,D)`, `(A,B)`; `D` is what the outgoing pass
gets back at its level 1, `A` is not stored by the outgoing pass and is what
the incoming pass gets back at its level 1; `C` is not in the result. -/
theorem C16_diamond_both_from_B :
    callGraphTraverse diamondDB "B" 2 "both"
      = (Response.graph [cgNode "B" true 0, cgNode "D" false 1, cgNode "A" false 1]
          [cgEdge "B" "D", cgEdge "A" "B"],
         [(Stmt.fetchCallGraphNode, "B"), (Stmt.callees, "B"), (Stmt.callees, "D"),
          (Stmt.callers, "B"), (Stmt.callers, "A")]) ∧
    returnedAt (calleesPass diamondDB) "B"
        (seed Stmt.fetchCallGraphNode "B" (cgNode "B" true 0)) 1 = ["D"] ∧
    (callGraphTraverse diamondDB "B" 2 "callees").1.nodes
      = [cgNode "B" true 0, cgNode "D" false 1] ∧
    returnedAt (callersPass diamondDB) "B"
        (bfsCallees diamondDB "B" 2 (seed Stmt.fetchCallGraphNode "B" (cgNode "B" true 0))) 1
      = ["A"] ∧
    "C" ∉ (callGraphTraverse diamondDB "B" 2 "both").1.nodes.map CallGraphNode.ID := by
  refine ⟨by rfl, by rfl, by rfl, by rfl, by decide⟩

theorem mem_keys_of_find {ν : Type} (m : NodeMap ν) (k : String) (n : ν)
    (h : NodeMap.find m k = some n) : k ∈ NodeMap.keys m := by
  by_contra hk
  rw [← NodeMap.find_eq_none_iff, h] at hk
  cases hk

theorem levelStep_keys_mono {ρ ν ε : Type} (p : Pass ρ ν ε) (d : Nat) (frontier : List String)
    (acc : Acc ν ε) (k : String) (h : k ∈ NodeMap.keys acc.nodeMap) :
    k ∈ NodeMap.keys (levelStep p d frontier acc).2.nodeMap := by
  simp only [levelStep, NodeMap.keys_append]
  exact List.mem_append_left _ h

/-- A pass started on a closed accumulator that stores the root leaves a closed
accumulator. -/
theorem bfsPass_edgesClosed {ρ ν ε : Type} (p : Pass ρ ν ε) (src tgt : ε → String)
    (hconn : ∀ u v, Connects src tgt (p.mkEdge u v) v u) (root : String) (maxDepth : Nat)
    (acc : Acc ν ε)
    (h : root ∈ NodeMap.keys acc.nodeMap ∧ EdgesClosed src tgt acc) :
    root ∈ NodeMap.keys (bfsPass p root maxDepth acc).nodeMap ∧
      EdgesClosed src tgt (bfsPass p root maxDepth acc) := by
  refine ⟨bfsPass_keys_mono p root maxDepth acc root h.1, ?_⟩
  rw [bfsPass_eq_bfsLevels]
  have key := bfsLevels_induct p
    (fun _ fr a => EdgesClosed src tgt a ∧ ∀ u ∈ fr, u ∈ NodeMap.keys a.nodeMap)
    (by
      intro d fr a ⟨hc, hfr⟩
      refine ⟨?_, ?_⟩
      · intro e he
        rcases levelStep_edges p d fr a e he with h1 | ⟨u, hu, r, hr, h2⟩
        · exact ⟨levelStep_keys_mono p d fr a _ (hc e h1).1,
            levelStep_keys_mono p d fr a _ (hc e h1).2⟩
        · have hu' := levelStep_keys_mono p d fr a u (hfr u hu)
          obtain ⟨n, hn⟩ := levelStep_covers p d fr a u hu r hr
          have hv := mem_keys_of_find _ _ _ hn
          rcases hconn u (p.rowID r) with ⟨h3, h4⟩ | ⟨h3, h4⟩
          · rw [h2, h3, h4]
            exact ⟨hv, hu'⟩
          · rw [h2, h3, h4]
            exact ⟨hu', hv⟩
      · intro u hu
        simp only [levelStep, NodeMap.keys_append]
        exact List.mem_append_right _ hu)
    maxDepth 1 [root] acc
    ⟨h.2, fun u hu => by
      rw [List.mem_singleton.1 hu]
      exact h.1⟩
  exact key.1

/-- C17. In every successful call-graph and data-flow traversal, whatever the
direction value, the source and the target of every recorded edge are
identifiers of nodes of the answer. -/
theorem C17_edges_closed_over_nodes (db : DB) (id : String) (depth : Nat)
    (direction : String) :
    (∀ nodes edges log,
      callGraphTraverse db id depth direction = (Response.graph nodes edges, log) →
      ∀ e ∈ edges, e.Source ∈ nodes.map CallGraphNode.ID ∧
        e.Target ∈ nodes.map CallGraphNode.ID) ∧
    (∀ nodes edges log,
      dataFlowTraverse db id depth direction = (Response.graph nodes edges, log) →
      ∀ e ∈ edges, e.Source ∈ nodes.map DataFlowNode.ID ∧
        e.Target ∈ nodes.map DataFlowNode.ID) := by
  refine ⟨?_, ?_⟩
  · intro nodes edges log h e he
    obtain ⟨rn, hfetch, hnodes, hedges, _⟩ := callGraphTraverse_graph db id depth _ _ _ _ h
    have hrn := fetchCallGraphNode_some db id 0 true rn hfetch
    have hwf := callGraphPasses_WF db id depth direction _ (callGraph_seed_WF id rn hrn.1)
    have key := callGraphPasses_keeps db id depth direction
      (fun a => id ∈ NodeMap.keys a.nodeMap ∧
        EdgesClosed CallGraphEdge.Source CallGraphEdge.Target a)
      (fun a ha => bfsPass_edgesClosed (calleesPass db) _ _ (fun _ _ => Or.inr ⟨rfl, rfl⟩)
        id depth a ha)
      (fun a ha => bfsPass_edgesClosed (callersPass db) _ _ (fun _ _ => Or.inl ⟨rfl, rfl⟩)
        id depth a ha)
      (seed Stmt.fetchCallGraphNode id rn)
      ⟨by simp [seed_nodeMap, NodeMap.keys], fun e he => by simp [seed] at he⟩
    rw [hnodes, values_map_id CallGraphNode.ID _ hwf]
    rw [hedges] at he
    exact key.2 e he
  · intro nodes edges log h e he
    obtain ⟨rn, hfetch, hnodes, hedges, _⟩ := dataFlowTraverse_graph db id depth _ _ _ _ h
    have hrn := fetchDFGNode_some db id 0 rn hfetch
    have hwf := dataFlowPasses_WF db id depth direction _ (dataFlow_seed_WF id rn hrn.1)
    have key := dataFlowPasses_keeps db id depth direction
      (fun a => id ∈ NodeMap.keys a.nodeMap ∧
        EdgesClosed DataFlowEdge.Source DataFlowEdge.Target a)
      (fun a ha => bfsPass_edgesClosed (dfgForwardPass db) _ _ (fun _ _ => Or.inr ⟨rfl, rfl⟩)
        id depth a ha)
      (fun a ha => bfsPass_edgesClosed (dfgBackwardPass db) _ _ (fun _ _ => Or.inl ⟨rfl, rfl⟩)
        id depth a ha)
      (seed Stmt.fetchDFGNode id rn)
      ⟨by simp [seed_nodeMap, NodeMap.keys], fun e he => by simp [seed] at he⟩
    rw [hnodes, values_map_id DataFlowNode.ID _ hwf]
    rw [hedges] at he
    exact key.2 e he

/-- C17 at the cycle `R → A → V → R`: both endpoints of the edge `(V,R)` of
the "both" traversal from `R` are nodes of the answer. -/
theorem C17_witness :
    (cgEdge "V" "R").Source
        ∈ [cgNode "R" true 0, cgNode "A" false 1, cgNode "V" false 2].map CallGraphNode.ID ∧
      (cgEdge "V" "R").Target
        ∈ [cgNode "R" true 0, cgNode "A" false 1, cgNode "V" false 2].map CallGraphNode.ID :=
  (C17_edges_closed_over_nodes cycleDB "R" 2 "both").1
    [cgNode "R" true 0, cgNode "A" false 1, cgNode "V" false 2]
    [cgEdge "R" "A", cgEdge "A" "V", cgEdge "V" "R"]
    [(Stmt.fetchCallGraphNode, "R"), (Stmt.callees, "R"), (Stmt.callees, "A"),
      (Stmt.callers, "R")]
    (by rfl) (cgEdge "V" "R") (by simp)

/-- One more level only appends to the node map and to the edge list. -/
theorem bfsPass_succ_extends {ρ ν ε : Type} (p : Pass ρ ν ε) (root : String) (d : Nat)
    (acc : Acc ν ε) :
    ∃ E t, (bfsPass p root (d + 1) acc).nodeMap = (bfsPass p root d acc).nodeMap ++ E ∧
      (bfsPass p root (d + 1) acc).edges = (bfsPass p root d acc).edges ++ t := by
  rw [bfsPass_eq_bfsLevels, bfsPass_eq_bfsLevels, bfsLevels_succ]
  exact ⟨_, _, rfl, rfl⟩

/-- One more level of a pass on the seeded root: the nodes stay, with their
depths, and the edge list grows at its end. -/
theorem bfsPass_succ_result {ρ ν ε : Type} (p : Pass ρ ν ε) (nodeID : ν → String)
    (depthOf : ν → Nat) (hid : ∀ r d, nodeID (p.mkNode r d) = p.rowID r) (stmt : Stmt)
    (root : String) (rn : ν) (hrn : nodeID rn = root) (d : Nat) :
    (∀ n ∈ NodeMap.values (bfsPass p root d (seed stmt root rn)).nodeMap,
      n ∈ NodeMap.values (bfsPass p root (d + 1) (seed stmt root rn)).nodeMap ∧
      ∀ n' ∈ NodeMap.values (bfsPass p root (d + 1) (seed stmt root rn)).nodeMap,
        nodeID n' = nodeID n → depthOf n' = depthOf n) ∧
    ∃ t, (bfsPass p root (d + 1) (seed stmt root rn)).edges
      = (bfsPass p root d (seed stmt root rn)).edges ++ t := by
  obtain ⟨E, t, hE, ht⟩ := bfsPass_succ_extends p root d (seed stmt root rn : Acc ν ε)
  have hwf := bfsPass_WF p nodeID hid root (d + 1) _
    (seed_WF nodeID stmt root rn hrn : Acc.WF nodeID (seed stmt root rn : Acc ν ε))
  refine ⟨?_, t, ht⟩
  intro n hn
  have hin : n ∈ NodeMap.values (bfsPass p root (d + 1) (seed stmt root rn)).nodeMap := by
    rw [hE]
    simp only [NodeMap.values, List.map_append, List.mem_append]
    exact Or.inl hn
  refine ⟨hin, ?_⟩
  intro n' hn' hsame
  rw [mem_values_find nodeID _ hwf] at hin hn'
  rw [hsame, hin] at hn'
  rw [← Option.some.inj hn']

/-- C18. For every database, root and single-direction traversal (callees,
callers, forward, backward), raising `maxDepth` from `d` to `d + 1` only
extends the answer: every node of the depth-`d` answer is a node of the
depth-`d + 1` answer, where its identifier carries the same depth, and the
depth-`d` edge list is the beginning of the depth-`d + 1` edge list. -/
theorem C18_deeper_bound_extends_result (db : DB) (id : String) (d : Nat) :
    (∀ nodes edges log nodes2 edges2 log2,
      callGraphTraverse db id d "callees" = (Response.graph nodes edges, log) →
      callGraphTraverse db id (d + 1) "callees" = (Response.graph nodes2 edges2, log2) →
      (∀ n ∈ nodes, n ∈ nodes2 ∧ ∀ n' ∈ nodes2, n'.ID = n.ID → n'.Depth = n.Depth) ∧
      ∃ t, edges2 = edges ++ t) ∧
    (∀ nodes edges log nodes2 edges2 log2,
      callGraphTraverse db id d "callers" = (Response.graph nodes edges, log) →
      callGraphTraverse db id (d + 1) "callers" = (Response.graph nodes2 edges2, log2) →
      (∀ n ∈ nodes, n ∈ nodes2 ∧ ∀ n' ∈ nodes2, n'.ID = n.ID → n'.Depth = n.Depth) ∧
      ∃ t, edges2 = edges ++ t) ∧
    (∀ nodes edges log nodes2 edges2 log2,
      dataFlowTraverse db id d "forward" = (Response.graph nodes edges, log) →
      dataFlowTraverse db id (d + 1) "forward" = (Response.graph nodes2 edges2, log2) →
      (∀ n ∈ nodes, n ∈ nodes2 ∧ ∀ n' ∈ nodes2, n'.ID = n.ID → n'.Depth = n.Depth) ∧
      ∃ t, edges2 = edges ++ t) ∧
    (∀ nodes edges log nodes2 edges2 log2,
      dataFlowTraverse db id d "backward" = (Response.graph nodes edges, log) →
      dataFlowTraverse db id (d + 1) "backward" = (Response.graph nodes2 edges2, log2) →
      (∀ n ∈ nodes, n ∈ nodes2 ∧ ∀ n' ∈ nodes2, n'.ID = n.ID → n'.Depth = n.Depth) ∧
      ∃ t, edges2 = edges ++ t) := by
  refine ⟨?_, ?_, ?_, ?_⟩
  · intro nodes edges log nodes2 edges2 log2 h1 h2
    obtain ⟨rn, hfetch, hn1, he1, _⟩ := callGraphTraverse_graph db id d _ _ _ _ h1
    obtain ⟨rn2, hfetch2, hn2, he2, _⟩ := callGraphTraverse_graph db id (d + 1) _ _ _ _ h2
    rw [hfetch] at hfetch2
    cases hfetch2
    rw [callGraphPasses_callees] at hn1 he1 hn2 he2
    rw [hn1, he1, hn2, he2]
    exact bfsPass_succ_result (calleesPass db) CallGraphNode.ID CallGraphNode.Depth
      (fun _ _ => rfl) _ id rn (fetchCallGraphNode_some db id 0 true rn hfetch).1 d
  · intro nodes edges log nodes2 edges2 log2 h1 h2
    obtain ⟨rn, hfetch, hn1, he1, _⟩ := callGraphTraverse_graph db id d _ _ _ _ h1
    obtain ⟨rn2, hfetch2, hn2, he2, _⟩ := callGraphTraverse_graph db id (d + 1) _ _ _ _ h2
    rw [hfetch] at hfetch2
    cases hfetch2
    rw [callGraphPasses_callers] at hn1 he1 hn2 he2
    rw [hn1, he1, hn2, he2]
    exact bfsPass_succ_result (callersPass db) CallGraphNode.ID CallGraphNode.Depth
      (fun _ _ => rfl) _ id rn (fetchCallGraphNode_some db id 0 true rn hfetch).1 d
  · intro nodes edges log nodes2 edges2 log2 h1 h2
    obtain ⟨rn, hfetch, hn1, he1, _⟩ := dataFlowTraverse_graph db id d _ _ _ _ h1
    obtain ⟨rn2, hfetch2, hn2, he2, _⟩ := dataFlowTraverse_graph db id (d + 1) _ _ _ _ h2
    rw [hfetch] at hfetch2
    cases hfetch2
    rw [dataFlowPasses_forward] at hn1 he1 hn2 he2
    rw [hn1, he1, hn2, he2]
    exact bfsPass_succ_result (dfgForwardPass db) DataFlowNode.ID DataFlowNode.Depth
      (fun _ _ => rfl) _ id rn (fetchDFGNode_some db id 0 rn hfetch).1 d
  · intro nodes edges log nodes2 edges2 log2 h1 h2
    obtain ⟨rn, hfetch, hn1, he1, _⟩ := dataFlowTraverse_graph db id d _ _ _ _ h1
    obtain ⟨rn2, hfetch2, hn2, he2, _⟩ := dataFlowTraverse_graph db id (d + 1) _ _ _ _ h2
    rw [hfetch] at hfetch2
    cases hfetch2
    rw [dataFlowPasses_backward] at hn1 he1 hn2 he2
    rw [hn1, he1, hn2, he2]
    exact bfsPass_succ_result (dfgBackwardPass db) DataFlowNode.ID DataFlowNode.Depth
      (fun _ _ => rfl) _ id rn (fetchDFGNode_some db id 0 rn hfetch).1 d

/-- C18 at the store `f1 → f2 → f3`: the edge list of the callees traversal
from `f1` with depth 2 begins with the edge list of depth 1. -/
theorem C18_witness :
    ∃ t, [cgEdge "f1" "f2", cgEdge "f2" "f3"] = [cgEdge "f1" "f2"] ++ t :=
  ((C18_deeper_bound_extends_result chainDB "f1" 1).1
    [cgNode "f1" true 0, cgNode "f2" false 1]
    [cgEdge "f1" "f2"]
    [(Stmt.fetchCallGraphNode, "f1"), (Stmt.callees, "f1")]
    [cgNode "f1" true 0, cgNode "f2" false 1, cgNode "f3" false 2]
    [cgEdge "f1" "f2", cgEdge "f2" "f3"]
    [(Stmt.fetchCallGraphNode, "f1"), (Stmt.callees, "f1"), (Stmt.callees, "f2")]
    (by rfl) (by rfl)).2

end Theorems

end CPG
